import Mathlib

/-!
# Symbol-table stack and assignment engine of the seti interpreter

A shallow embedding of `src/interpreter/symbol-table.h` and
`src/interpreter/assign-executor.cc`.

Pointers are modelled by addresses.  A `SymbolTablePtr` is the address of a
table in a `Heap`; an address that holds no table models a null
`shared_ptr` or an expired `weak_ptr`, and dereferencing it is the fault
`Fault.undefined`.  A `SymbolAttr&` returned by the source is modelled by a
`CellRef`, the address of the table together with the key of the entry
(references into a `std::unordered_map` stay valid across insertions).
-/

namespace seti

/-! ## Errors -/

/-- The error codes of `RunTimeError::ErrorCode` that the embedded code raises. -/
inductive ErrorCode
  | INCOMPATIBLE_TYPE
  | SYMBOL_NOT_FOUND
  | INVALID_OPCODE
  | FUNC_PARAMS
  | OUT_OF_RANGE
  deriving DecidableEq, Repr

/-- A `RunTimeError`: its code and its message (source positions are not modelled). -/
structure RunTimeError where
  err_code : ErrorCode
  msg : String
  deriving DecidableEq, Repr

/-- The ways a call can fail to return: a thrown `RunTimeError`, the
dereference of a null or expired pointer or a read past the end of a vector
(undefined behaviour in the source), or a loop of the model that used up its
fuel. -/
inductive Fault
  | thrown (e : RunTimeError)
  | undefined
  | outOfFuel
  deriving DecidableEq, Repr

/-! ## Symbol table (`symbol-table.h`) -/

/-- A `std::shared_ptr<Object>`: `none` is the null pointer, `some a` the object at address `a`. -/
abbrev ObjectPtr := Option Nat

/-- The class `SymbolAttr`: a cell with a shared object pointer and a global flag. -/
structure SymbolAttr where
  value_ : ObjectPtr
  global_ : Bool
  deriving DecidableEq, Repr

namespace SymbolAttr

/-- The default constructor `SymbolAttr()`: null value, `global_ = false`. -/
def default : SymbolAttr := ⟨none, false⟩

/-- The method `set_value` (also an assignment through `Ref()`). -/
def set_value (a : SymbolAttr) (value : ObjectPtr) : SymbolAttr := { a with value_ := value }

/-- The method `SharedAccess`. -/
def SharedAccess (a : SymbolAttr) : ObjectPtr := a.value_

/-- The method `global`. -/
def global (a : SymbolAttr) : Bool := a.global_

end SymbolAttr

/-- The enum `CmdEntry::Type`. -/
inductive CmdEntryType
  | kDecl
  | kAlias
  deriving DecidableEq, Repr

/-- The enum `SymbolTable::TableType`. -/
inductive TableType
  | SCOPE_TABLE
  | FUNC_TABLE
  | CLASS_TABLE
  deriving DecidableEq, Repr

/-- The type `SymbolMap = std::unordered_map<std::string, SymbolAttr>`, as an
association list; `find` returns the first entry with the key, and an insertion
of a new key puts the entry in front. -/
abbrev SymbolMap := List (String × SymbolAttr)

/-- The call `map_.find(name)`: `none` stands for `map_.end()`. -/
def SymbolMap.find : SymbolMap → String → Option SymbolAttr
  | [], _ => none
  | (k, a) :: rest, name => if k = name then some a else SymbolMap.find rest name

/-- Assignment to `it->second.Ref()` for the entry found by `find(name)`. -/
def SymbolMap.assign : SymbolMap → String → ObjectPtr → SymbolMap
  | [], _, _ => []
  | (k, a) :: rest, name, v =>
    if k = name then (k, a.set_value v) :: rest else (k, a) :: SymbolMap.assign rest name v

/-- The class `SymbolTable`. -/
structure SymbolTable where
  map_ : SymbolMap
  cmd_map_ : List (String × CmdEntryType)
  type_ : TableType
  deriving DecidableEq, Repr

namespace SymbolTable

/-- The constructor `SymbolTable(type)`. -/
def new (type : TableType) : SymbolTable := ⟨[], [], type⟩

/-- The method `Lookup(name)`, that is `map_.find(name)`. -/
def Lookup (t : SymbolTable) (name : String) : Option SymbolAttr := t.map_.find name

/-- The method `Type()`. -/
def tableType (t : SymbolTable) : TableType := t.type_

/-- The overload `SymbolAttr& SetValue(const std::string& name)`: the table is
unchanged when the name exists, and gets a new default entry otherwise.  The
returned reference is the cell of `name` in this table. -/
def SetValue (t : SymbolTable) (name : String) : SymbolTable :=
  match t.map_.find name with
  | some _ => t
  | none => { t with map_ := (name, SymbolAttr.default) :: t.map_ }

end SymbolTable

/-- The address of a symbol table. -/
abbrev SymbolTablePtr := Nat

/-- The tables that are alive, by address. -/
abbrev Heap := List SymbolTable

/-- A `SymbolAttr&`: the table that holds the entry and the key of the entry. -/
structure CellRef where
  table : SymbolTablePtr
  name : String
  deriving DecidableEq, Repr

/-- Read the cell behind a reference. -/
def Heap.cell (H : Heap) (r : CellRef) : Option SymbolAttr :=
  match H[r.table]? with
  | none => none
  | some t => t.Lookup r.name

/-- The assignment `ref.Ref() = value` through a `SymbolAttr&`. -/
def Heap.store (H : Heap) (r : CellRef) (value : ObjectPtr) : Heap :=
  match H[r.table]? with
  | none => H
  | some t => H.set r.table { t with map_ := t.map_.assign r.name value }

/-- The class `SymbolTableStack`: the vector `stack_` (top of the stack last)
and the weak pointer `main_table_` (`none` when it was never set). -/
structure SymbolTableStack where
  stack_ : List SymbolTablePtr
  main_table_ : Option SymbolTablePtr
  deriving DecidableEq, Repr

namespace SymbolTableStack

/-- The call `main_table_.lock()`: the main table and its address, `none` when
the weak pointer is empty or expired. -/
def lockMain (S : SymbolTableStack) (H : Heap) : Option (SymbolTablePtr × SymbolTable) :=
  match S.main_table_ with
  | none => none
  | some p =>
    match H[p]? with
    | none => none
    | some t => some (p, t)

/-- The method `Push(table, is_main)`. -/
def Push (S : SymbolTableStack) (table : SymbolTablePtr) (is_main : Bool) : SymbolTableStack :=
  if is_main then { S with main_table_ := some table }
  else { S with stack_ := S.stack_ ++ [table] }

/-- The method `Pop()`, that is `stack_.pop_back()`: on a stack with a top
table the table is taken off; on an empty stack `pop_back` is undefined. -/
def Pop (S : SymbolTableStack) : Except Fault SymbolTableStack :=
  if S.stack_.isEmpty then .error Fault.undefined
  else .ok { S with stack_ := S.stack_.dropLast }

/-- The loop `for (int i = stack_.size() - 1; i >= 0; i--)` shared by `Lookup`
and `LookupObj`, run over the tables from the top of the stack down: the first
table that has the name, with the entry found there.  The `int` index visits
every table of a stack of fewer than `2^31` tables, which is what the list
recursion models. -/
def search (H : Heap) (name : String) :
    List SymbolTablePtr → Except Fault (Option (SymbolTablePtr × SymbolAttr))
  | [] => .ok none
  | p :: rest =>
    match H[p]? with
    | none => .error Fault.undefined
    | some t =>
      match t.Lookup name with
      | some a => .ok (some (p, a))
      | none => search H name rest

/-- The error thrown at the end of `Lookup`. -/
def symbolNotFound (name : String) : RunTimeError :=
  ⟨ErrorCode.SYMBOL_NOT_FOUND, "symbol " ++ name ++ " not found"⟩

/-- The method `Lookup(name, create)`: the returned reference, or the fault,
and the heap afterwards. -/
def Lookup (S : SymbolTableStack) (H : Heap) (name : String) (create : Bool) :
    Except Fault CellRef × Heap :=
  match search H name S.stack_.reverse with
  | .error f => (.error f, H)
  | .ok (some (p, _)) => (.ok ⟨p, name⟩, H)
  | .ok none =>
    -- search on main table if no symbol was found
    match S.lockMain H with
    | none => (.error Fault.undefined, H)
    | some (m, tm) =>
      match tm.Lookup name with
      | some _ => (.ok ⟨m, name⟩, H)
      | none =>
        if create then
          match S.stack_.getLast? with
          | some q =>
            match H[q]? with
            | none => (.error Fault.undefined, H)
            | some tq => (.ok ⟨q, name⟩, H.set q (tq.SetValue name))
          | none => (.ok ⟨m, name⟩, H.set m (tm.SetValue name))
        else (.error (Fault.thrown (symbolNotFound name)), H)

/-- The method `LookupObj(name)`: the returned tuple, or the fault, and the
heap afterwards. -/
def LookupObj (S : SymbolTableStack) (H : Heap) (name : String) :
    Except Fault (ObjectPtr × Bool) × Heap :=
  match search H name S.stack_.reverse with
  | .error f => (.error f, H)
  | .ok (some (_, a)) => (.ok (a.SharedAccess, true), H)
  | .ok none =>
    -- search on main table if no symbol was found
    match S.lockMain H with
    | none => (.error Fault.undefined, H)
    | some (_, tm) =>
      match tm.Lookup name with
      | some a => if a.global then (.ok (a.SharedAccess, true), H) else (.ok (none, false), H)
      | none => (.ok (none, false), H)

/-- The method `HasFuncTable()`. -/
def HasFuncTable (S : SymbolTableStack) (H : Heap) : Except Fault Bool :=
  S.stack_.foldr
    (fun p acc =>
      match H[p]? with
      | none => .error Fault.undefined
      | some t => if t.tableType = TableType.FUNC_TABLE then .ok true else acc)
    (.ok false)

end SymbolTableStack

/-! ## Objects and syntax used by the assignment engine -/

/-- Modelled from the spec: the type tags of `Object::ObjectType` (obj-type.h is
not among the sources), the closed set of section 3.1. -/
inductive ObjectType
  | NIL | BOOL | INT | REAL | STRING | ARRAY | TUPLE | MAP | SET | FUNC | CLASS
  | INSTANCE | ITER | MODULE | CMD | CMD_ITER | FILE | RANGE | SLICE | TYPE
  deriving DecidableEq, Repr

/-- The tags of the objects whose content the embedded code never reads. -/
inductive OtherType
  | NIL | INT | REAL | STRING | MAP | SET | FUNC | CLASS
  | INSTANCE | ITER | MODULE | CMD | CMD_ITER | FILE | RANGE | SLICE | TYPE
  deriving DecidableEq, Repr

/-- The tag of an object whose content is not read. -/
def OtherType.toObjectType : OtherType → ObjectType
  | .NIL => .NIL | .INT => .INT | .REAL => .REAL | .STRING => .STRING
  | .MAP => .MAP | .SET => .SET | .FUNC => .FUNC | .CLASS => .CLASS
  | .INSTANCE => .INSTANCE | .ITER => .ITER | .MODULE => .MODULE
  | .CMD => .CMD | .CMD_ITER => .CMD_ITER | .FILE => .FILE
  | .RANGE => .RANGE | .SLICE => .SLICE | .TYPE => .TYPE

/-- Modelled from the spec: the class `Object` with the subclasses
`TupleObject`, `ArrayObject` and `BoolObject` whose `value()` the assignment
engine reads (obj-type.h is not among the sources).  A tuple and an array hold
their internal sequence of object pointers; every other object is kept by its
tag, and its operations are collaborators of the engine. -/
inductive Object
  | tuple (value : List ObjectPtr)
  | array (value : List ObjectPtr)
  | bool (value : Bool)
  | other (tag : OtherType)
  deriving DecidableEq, Repr

/-- The method `Object::type()`. -/
def Object.type : Object → ObjectType
  | .tuple _ => ObjectType.TUPLE
  | .array _ => ObjectType.ARRAY
  | .bool _ => ObjectType.BOOL
  | .other tag => tag.toObjectType

/-- Modelled from the spec: the assignment tokens of `TokenKind` (the lexer is
not among the sources), `= |= ^= &= <<= >>= += -= *= /= %=` of section 6.2, and
`OTHER` for every other token. -/
inductive TokenKind
  | ASSIGN
  | ASSIGN_BIT_OR
  | ASSIGN_BIT_XOR
  | ASSIGN_BIT_AND
  | ASSIGN_SHL
  | ASSIGN_SAR
  | ASSIGN_ADD
  | ASSIGN_SUB
  | ASSIGN_MUL
  | ASSIGN_DIV
  | ASSIGN_MOD
  | OTHER (code : Nat)
  deriving DecidableEq, Repr

/-- The binary operations of `Object` that a compound assignment dispatches to. -/
inductive BinOp
  | BitOr | BitXor | BitAnd | LeftShift | RightShift | Add | Sub | Mult | Div | DivMod
  deriving DecidableEq, Repr

/-- Modelled from the spec: the AST nodes that can stand on the left of an
assignment (ast.h is not among the sources), by `AstNode::NodeType`:
`kIdentifier`, `kArray` (a subscript), `kAttribute`, `kTupleInstantiation`,
`kArrayInstantiation` with the nodes of their assignable list (`has_elements`
is that the list is not empty), and `Other` for every other node type. -/
inductive Expression
  | Identifier (name : String)
  | Array (arr_exp : Expression) (index_exp : Expression)
  | Attribute (exp : Expression) (id : String)
  | TupleInstantiation (elements : List Expression)
  | ArrayInstantiation (elements : List Expression)
  | Other (type : Nat)
  deriving Repr

/-- The calls to virtual methods of `Object` and to the expression executor
that the engine makes, recorded in the order they are made. -/
inductive Call
  | Exec (e : Expression)
  | AttrAssign (self : Nat) (name : String)
  | Op (op : BinOp) (self : Nat) (arg : ObjectPtr)
  | GetItem (self : Nat) (index : ObjectPtr)
  | SetItem (self : Nat) (index : ObjectPtr) (value : ObjectPtr)
  | ObjIter (self : Nat)
  | HasNext (self : Nat)
  | Next (self : Nat)

/-- What the interpreter holds: the symbol tables, the objects by address, the
executor's `symbol_table_stack()`, and the state `world` of everything that
belongs to classes which are not among the sources. -/
structure Store (ω : Type) where
  tables : Heap
  objects : List Object
  stack : SymbolTableStack
  world : ω

/-- A call that returns a value or fails, and in both cases leaves a store. -/
abbrev Comp (ω : Type) (α : Type) := Store ω → Except Fault α × Store ω

/-- The collaborators of the assignment engine, none of them among the
sources: `ExpressionExecutor::Exec` (with its optional second argument), and
the virtual methods of `Object` called on the object at address `self`.
`AttrAssign` returns an `ObjectPtr&`, modelled as the reference of a cell. -/
structure Collaborators (ω : Type) where
  Exec : Expression → Option Bool → Comp ω ObjectPtr
  AttrAssign : Nat → String → Comp ω CellRef
  Op : BinOp → Nat → ObjectPtr → Comp ω ObjectPtr
  GetItem : Nat → ObjectPtr → Comp ω ObjectPtr
  SetItem : Nat → ObjectPtr → ObjectPtr → Comp ω Unit
  ObjIter : Nat → Comp ω ObjectPtr
  HasNext : Nat → Comp ω ObjectPtr
  Next : Nat → Comp ω ObjectPtr

/-- The store together with the record of the collaborator calls made so far. -/
structure Machine (ω : Type) where
  st : Store ω
  log : List Call

/-- A step of the engine: a result or a fault, and the machine afterwards. -/
abbrev Step (ω : Type) (α : Type) := Machine ω → Except Fault α × Machine ω

/-- Make a collaborator call and record it. -/
def Machine.call {ω α : Type} (k : Call) (c : Comp ω α) : Step ω α :=
  fun m => ((c m.st).1, ⟨(c m.st).2, m.log ++ [k]⟩)

/-- The machine with its symbol tables replaced by `H`. -/
def Machine.setTables {ω : Type} (m : Machine ω) (H : Heap) : Machine ω :=
  ⟨⟨H, m.st.objects, m.st.stack, m.st.world⟩, m.log⟩

/-- Dereference an object pointer. -/
def Store.deref {ω : Type} (s : Store ω) (p : ObjectPtr) : Option (Nat × Object) :=
  match p with
  | none => none
  | some a =>
    match s.objects[a]? with
    | none => none
    | some o => some (a, o)

/-- Modelled from the spec: `ObjectFactory::NewTuple` (object-factory.h is not
among the sources), "pack `V` into a tuple": a new tuple object whose internal
sequence is the given values. -/
def Store.NewTuple {ω : Type} (s : Store ω) (values : List ObjectPtr) : ObjectPtr × Store ω :=
  (some s.objects.length, ⟨s.tables, s.objects ++ [Object.tuple values], s.stack, s.world⟩)

/-! ## The assignment engine (`assign-executor.cc`) -/

namespace SymbolTableStack

/-- The topmost table of kind `FUNC_TABLE`, searched from the top of the stack down. -/
def topFuncTable (H : Heap) : List SymbolTablePtr → Except Fault (Option (SymbolTablePtr × SymbolTable))
  | [] => .ok none
  | p :: rest =>
    match H[p]? with
    | none => .error Fault.undefined
    | some t => if t.tableType = TableType.FUNC_TABLE then .ok (some (p, t)) else topFuncTable H rest

/-- Modelled from the spec: `SymbolTableStack::LookupFuncRef(name, create)`,
called by `AssignIdentifier` and absent from symbol-table.h: "resolve in the
scope stack; if `HasFuncTable`, insert/bind in the topmost function table ...
Create if absent".  The name is resolved in the scope stack, from the top
down, and the cell of the first table that binds it is returned; when no table
of the stack binds it, it gets with `create` a new entry in the topmost `Func`
table; without `create`, and on a stack without a `Func` table (not reached
from `AssignIdentifier`), `SymbolNotFound`. -/
def LookupFuncRef (S : SymbolTableStack) (H : Heap) (name : String) (create : Bool) :
    Except Fault CellRef × Heap :=
  match search H name S.stack_.reverse with
  | .error f => (.error f, H)
  | .ok (some (p, _)) => (.ok ⟨p, name⟩, H)
  | .ok none =>
    match topFuncTable H S.stack_.reverse with
    | .error f => (.error f, H)
    | .ok none => (.error (Fault.thrown (symbolNotFound name)), H)
    | .ok (some (q, tq)) =>
      if create then (.ok ⟨q, name⟩, H.set q (tq.SetValue name))
      else (.error (Fault.thrown (symbolNotFound name)), H)

/-- The reference that `AssignIdentifier` assigns through:
`LookupFuncRef(name, create)` when `HasFuncTable()`, else `Lookup(name, create,
global_).Ref()`.  The overload of `Lookup` with the `global_` argument is not
among the sources; the `Lookup(name, create)` of symbol-table.h stands for it. -/
def targetRef (S : SymbolTableStack) (H : Heap) (name : String) (create : Bool) :
    Except Fault CellRef × Heap :=
  match S.HasFuncTable H with
  | .error f => (.error f, H)
  | .ok true => S.LookupFuncRef H name create
  | .ok false => S.Lookup H name create

end SymbolTableStack

section Engine

variable {ω : Type}

/-- A thrown `RunTimeError` as the result of a step. -/
def raise {α : Type} (code : ErrorCode) (msg : String) : Step ω α :=
  fun m => (.error (Fault.thrown ⟨code, msg⟩), m)

/-- The statement `ref = ref->Op(value)` of `AssignToRef`. -/
def assignOpToRef (env : Collaborators ω) (op : BinOp) (ref : CellRef) (value : ObjectPtr) :
    Step ω Unit :=
  fun m =>
    match m.st.tables.cell ref with
    | none => (.error Fault.undefined, m)
    | some a =>
      match a.value_ with
      | none => (.error Fault.undefined, m)
      | some self =>
        match Machine.call (Call.Op op self value) (env.Op op self value) m with
        | (.error f, m1) => (.error f, m1)
        | (.ok r, m1) =>
          (.ok (), m1.setTables (m1.st.tables.store ref r))

/-- The method `AssignExecutor::AssignToRef`. -/
def AssignToRef (env : Collaborators ω) (ref : CellRef) (value : ObjectPtr) (token : TokenKind) :
    Step ω Unit :=
  match token with
  | .ASSIGN =>
    fun m => (.ok (), m.setTables (m.st.tables.store ref value))
  | .ASSIGN_BIT_OR => assignOpToRef env BinOp.BitOr ref value
  | .ASSIGN_BIT_XOR => assignOpToRef env BinOp.BitXor ref value
  | .ASSIGN_BIT_AND => assignOpToRef env BinOp.BitAnd ref value
  | .ASSIGN_SHL => assignOpToRef env BinOp.LeftShift ref value
  | .ASSIGN_SAR => assignOpToRef env BinOp.RightShift ref value
  | .ASSIGN_ADD => assignOpToRef env BinOp.Add ref value
  | .ASSIGN_SUB => assignOpToRef env BinOp.Sub ref value
  | .ASSIGN_MUL => assignOpToRef env BinOp.Mult ref value
  | .ASSIGN_DIV => assignOpToRef env BinOp.Div ref value
  | .ASSIGN_MOD => assignOpToRef env BinOp.DivMod ref value
  | .OTHER _ => raise ErrorCode.INVALID_OPCODE "not valid assignment operation"

/-- The statement `arr->SetItem(index, value)` of `AssignToArray`. -/
def assignToItem (env : Collaborators ω) (arr index value : ObjectPtr) : Step ω Unit :=
  fun m =>
    match arr with
    | none => (.error Fault.undefined, m)
    | some a => Machine.call (Call.SetItem a index value) (env.SetItem a index value) m

/-- The statement `arr->SetItem(index, arr->GetItem(index)->Op(value))` of `AssignToArray`. -/
def assignOpToArray (env : Collaborators ω) (op : BinOp) (arr index value : ObjectPtr) :
    Step ω Unit :=
  fun m =>
    match arr with
    | none => (.error Fault.undefined, m)
    | some a =>
      match Machine.call (Call.GetItem a index) (env.GetItem a index) m with
      | (.error f, m1) => (.error f, m1)
      | (.ok none, m1) => (.error Fault.undefined, m1)
      | (.ok (some item), m1) =>
        match Machine.call (Call.Op op item value) (env.Op op item value) m1 with
        | (.error f, m2) => (.error f, m2)
        | (.ok r, m2) => Machine.call (Call.SetItem a index r) (env.SetItem a index r) m2

/-- The method `AssignExecutor::AssignToArray`. -/
def AssignToArray (env : Collaborators ω) (arr index value : ObjectPtr) (token : TokenKind) :
    Step ω Unit :=
  match token with
  | .ASSIGN => assignToItem env arr index value
  | .ASSIGN_BIT_OR => assignOpToArray env BinOp.BitOr arr index value
  | .ASSIGN_BIT_XOR => assignOpToArray env BinOp.BitXor arr index value
  | .ASSIGN_BIT_AND => assignOpToArray env BinOp.BitAnd arr index value
  | .ASSIGN_SHL => assignOpToArray env BinOp.LeftShift arr index value
  | .ASSIGN_SAR => assignOpToArray env BinOp.RightShift arr index value
  | .ASSIGN_ADD => assignOpToArray env BinOp.Add arr index value
  | .ASSIGN_SUB => assignOpToArray env BinOp.Sub arr index value
  | .ASSIGN_MUL => assignOpToArray env BinOp.Mult arr index value
  | .ASSIGN_DIV => assignOpToArray env BinOp.Div arr index value
  | .ASSIGN_MOD => assignOpToArray env BinOp.DivMod arr index value
  | .OTHER _ => raise ErrorCode.INVALID_OPCODE "not valid assignment operation"

/-- The loop `while (check_iter()) { unpack_vec.push_back(obj_iter->Next()); }`
of `Unpack`, on the iterator at address `it`, for at most `fuel` calls of
`check_iter`. -/
def unpackLoop (env : Collaborators ω) (it : Nat) :
    Nat → List ObjectPtr → Step ω (List ObjectPtr)
  | 0, _ => fun m => (.error Fault.outOfFuel, m)
  | fuel + 1, unpack_vec => fun m =>
    match Machine.call (Call.HasNext it) (env.HasNext it) m with
    | (.error f, m1) => (.error f, m1)
    | (.ok has_next_obj, m1) =>
      match m1.st.deref has_next_obj with
      | none => (.error Fault.undefined, m1)
      | some (_, o) =>
        if o.type ≠ ObjectType.BOOL then
          raise ErrorCode.INCOMPATIBLE_TYPE "expect bool from __has_next__" m1
        else
          match o with
          | .bool true =>
            match Machine.call (Call.Next it) (env.Next it) m1 with
            | (.error f, m2) => (.error f, m2)
            | (.ok next_obj, m2) => unpackLoop env it fuel (unpack_vec ++ [next_obj]) m2
          | _ => (.ok unpack_vec, m1)

/-- The function `Unpack(obj)`; `fuel` bounds the number of `check_iter` calls. -/
def Unpack (env : Collaborators ω) (fuel : Nat) (obj : ObjectPtr) : Step ω (List ObjectPtr) :=
  fun m =>
    match m.st.deref obj with
    | none => (.error Fault.undefined, m)
    | some (a, o) =>
      match o with
      | .tuple value => (.ok value, m)
      | .array value => (.ok value, m)
      | _ =>
        match Machine.call (Call.ObjIter a) (env.ObjIter a) m with
        | (.error f, m1) => (.error f, m1)
        | (.ok none, m1) => (.error Fault.undefined, m1)
        | (.ok (some it), m1) => unpackLoop env it fuel [] m1

/-- The method `AssignExecutor::AssignIdentifier`. -/
def AssignIdentifier (env : Collaborators ω) (name : String) (value : ObjectPtr)
    (token : TokenKind) (create : Bool) : Step ω Unit :=
  fun m =>
    match m.st.stack.targetRef m.st.tables name create with
    | (.error f, H) => (.error f, m.setTables H)
    | (.ok ref, H) => AssignToRef env ref value token (m.setTables H)

/-- The method `AssignExecutor::AssignAtrribute`.  Its handler rethrows a
`RunTimeError` with the same code and message and the position of the node
added, which leaves the modelled error as it is. -/
def AssignAtrribute (env : Collaborators ω) (att_exp : Expression) (id : String)
    (value : ObjectPtr) (token : TokenKind) : Step ω Unit :=
  fun m =>
    match Machine.call (Call.Exec att_exp) (env.Exec att_exp none) m with
    | (.error f, m1) => (.error f, m1)
    | (.ok none, m1) => (.error Fault.undefined, m1)
    | (.ok (some exp_obj), m1) =>
      match Machine.call (Call.AttrAssign exp_obj id) (env.AttrAssign exp_obj id) m1 with
      | (.error f, m2) => (.error f, m2)
      | (.ok ref, m2) => AssignToRef env ref value token m2

/-- The method `AssignExecutor::AssignArray`. -/
def AssignArray (env : Collaborators ω) (arr_exp index_exp : Expression)
    (value : ObjectPtr) (token : TokenKind) : Step ω Unit :=
  fun m =>
    match Machine.call (Call.Exec arr_exp) (env.Exec arr_exp (some true)) m with
    | (.error f, m1) => (.error f, m1)
    | (.ok arr_obj, m1) =>
      match Machine.call (Call.Exec index_exp) (env.Exec index_exp (some true)) m1 with
      | (.error f, m2) => (.error f, m2)
      | (.ok index, m2) => AssignToArray env arr_obj index value token m2

/-- The message of the error for a destructuring of the wrong size. -/
def unpackSizeMsg (expected got : Nat) : String :=
  "unpack values size different from left values (expected " ++ toString expected ++
    ", got " ++ toString got ++ ")"

mutual

/-- The method `AssignExecutor::AssignmentAcceptorExpr`.  The recursion being
on the node, the cases of the two literals hold the bodies of `AssignLeftTuple`
and `AssignLeftArray`, which are defined after it; that each case is the call
of its method is proved below. -/
def AssignmentAcceptorExpr (env : Collaborators ω) (fuel : Nat) :
    Expression → ObjectPtr → TokenKind → Step ω Unit
  | .Identifier name, value, token => AssignIdentifier env name value token true
  | .Array arr_exp index_exp, value, token => AssignArray env arr_exp index_exp value token
  | .Attribute exp id, value, token => AssignAtrribute env exp id value token
  | .TupleInstantiation lvalues, value, token => fun m =>
    if lvalues.isEmpty then
      raise ErrorCode.INCOMPATIBLE_TYPE "tuple can't be empty in assignment operation" m
    else
      match Unpack env fuel value m with
      | (.error f, m1) => (.error f, m1)
      | (.ok rvalues, m1) =>
        if lvalues.length ≠ rvalues.length then
          raise ErrorCode.INCOMPATIBLE_TYPE (unpackSizeMsg lvalues.length rvalues.length) m1
        else assignEach env fuel lvalues rvalues token m1
  | .ArrayInstantiation lvalues, value, token => fun m =>
    if lvalues.isEmpty then
      raise ErrorCode.INCOMPATIBLE_TYPE "array can't be empty in assignment operation" m
    else
      match Unpack env fuel value m with
      | (.error f, m1) => (.error f, m1)
      | (.ok rvalues, m1) =>
        if lvalues.length ≠ rvalues.length then
          raise ErrorCode.INCOMPATIBLE_TYPE (unpackSizeMsg lvalues.length rvalues.length) m1
        else assignEach env fuel lvalues rvalues token m1
  | .Other _, _, _ => raise ErrorCode.INCOMPATIBLE_TYPE "not valid left side expression"

/-- The loop `for (i = 0; i < n; ++i) AssignmentAcceptorExpr(lvalues[i], rvalues[i], token)`
over the left nodes, which stops at the first failure. -/
def assignEach (env : Collaborators ω) (fuel : Nat) :
    List Expression → List ObjectPtr → TokenKind → Step ω Unit
  | [], _, _ => fun m => (.ok (), m)
  | _ :: _, [], _ => fun m => (.error Fault.undefined, m)
  | e :: es, v :: vs, token => fun m =>
    match AssignmentAcceptorExpr env fuel e v token m with
    | (.error f, m1) => (.error f, m1)
    | (.ok _, m1) => assignEach env fuel es vs token m1

end

/-- The method `AssignExecutor::AssignLeftTuple` on a tuple literal with the
elements `lvalues`: the check for elements, the unpacking of the value, the
check of the sizes and the loop over the elements. -/
def AssignLeftTuple (env : Collaborators ω) (fuel : Nat) (lvalues : List Expression)
    (value : ObjectPtr) (token : TokenKind) : Step ω Unit :=
  fun m =>
    if lvalues.isEmpty then
      raise ErrorCode.INCOMPATIBLE_TYPE "tuple can't be empty in assignment operation" m
    else
      match Unpack env fuel value m with
      | (.error f, m1) => (.error f, m1)
      | (.ok rvalues, m1) =>
        if lvalues.length ≠ rvalues.length then
          raise ErrorCode.INCOMPATIBLE_TYPE (unpackSizeMsg lvalues.length rvalues.length) m1
        else assignEach env fuel lvalues rvalues token m1

/-- The method `AssignExecutor::AssignLeftArray` on an array literal with the
elements `lvalues`. -/
def AssignLeftArray (env : Collaborators ω) (fuel : Nat) (lvalues : List Expression)
    (value : ObjectPtr) (token : TokenKind) : Step ω Unit :=
  fun m =>
    if lvalues.isEmpty then
      raise ErrorCode.INCOMPATIBLE_TYPE "array can't be empty in assignment operation" m
    else
      match Unpack env fuel value m with
      | (.error f, m1) => (.error f, m1)
      | (.ok rvalues, m1) =>
        if lvalues.length ≠ rvalues.length then
          raise ErrorCode.INCOMPATIBLE_TYPE (unpackSizeMsg lvalues.length rvalues.length) m1
        else assignEach env fuel lvalues rvalues token m1

/-- The method `AssignExecutor::AssignOperation`. -/
def AssignOperation (env : Collaborators ω) (fuel : Nat) (left_exp : Expression)
    (value : ObjectPtr) (token : TokenKind) : Step ω Unit :=
  AssignmentAcceptorExpr env fuel left_exp value token

/-- The method `AssignExecutor::Assign`. -/
def Assign (env : Collaborators ω) (fuel : Nat) (left_exp_vec : List Expression)
    (values : List ObjectPtr) (assign_kind : TokenKind) : Step ω Unit :=
  fun m =>
    let num_left_exp := left_exp_vec.length
    if num_left_exp ≠ 1 ∧ values.length ≠ 1 ∧ num_left_exp ≠ values.length then
      raise ErrorCode.INCOMPATIBLE_TYPE "different size of tuples" m
    else if num_left_exp = 1 ∧ values.length = 1 then
      match left_exp_vec[0]?, values[0]? with
      | some e, some v => AssignOperation env fuel e v assign_kind m
      | _, _ => (.error Fault.undefined, m)
    else if num_left_exp = 1 ∧ values.length ≠ 1 then
      match left_exp_vec[0]? with
      | some e =>
        AssignOperation env fuel e (m.st.NewTuple values).1 assign_kind
          ⟨(m.st.NewTuple values).2, m.log⟩
      | none => (.error Fault.undefined, m)
    else if num_left_exp ≠ 1 ∧ values.length = 1 then
      -- unpack values from right side
      match values[0]? with
      | none => (.error Fault.undefined, m)
      | some v =>
        match Unpack env fuel v m with
        | (.error f, m1) => (.error f, m1)
        | (.ok rvalues, m1) =>
          if num_left_exp ≠ rvalues.length then
            raise ErrorCode.INCOMPATIBLE_TYPE (unpackSizeMsg num_left_exp rvalues.length) m1
          else assignEach env fuel left_exp_vec rvalues assign_kind m1
    else
      -- on this case there are the same number of variables and values
      assignEach env fuel left_exp_vec values assign_kind m

end Engine

/-! ## Notions used to state the properties -/

/-- The table at address `p` is alive and has an entry for `name`. -/
def Heap.binds (H : Heap) (name : String) (p : SymbolTablePtr) : Bool :=
  (H.cell ⟨p, name⟩).isSome

/-- The object pointer held by the cell of `name` in the table at `p`. -/
def Heap.valueAt (H : Heap) (p : SymbolTablePtr) (name : String) : Option ObjectPtr :=
  (H.cell ⟨p, name⟩).map SymbolAttr.value_

namespace SymbolTableStack

/-- Every table pointer on the stack owns a table (none is null). -/
def StackLive (S : SymbolTableStack) (H : Heap) : Prop := ∀ p ∈ S.stack_, p < H.length

/-- Whether every pointer of the stack owns a table can be computed. -/
instance StackLive.decidable (S : SymbolTableStack) (H : Heap) : Decidable (S.StackLive H) :=
  inferInstanceAs (Decidable (∀ p ∈ S.stack_, p < H.length))

/-- The main table is alive: `main_table_.lock()` is not null. -/
def MainLive (S : SymbolTableStack) (H : Heap) : Prop :=
  ∃ m, S.main_table_ = some m ∧ m < H.length

/-- The order in which the spec searches the tables: top of the stack, ...,
bottom of the stack, main table. -/
def searchOrder (S : SymbolTableStack) : List SymbolTablePtr :=
  S.stack_.reverse ++ S.main_table_.toList

/-- The first table that binds the name, in the order top of the stack, ...,
bottom of the stack, main table, as the spec words it. -/
def firstBinder (S : SymbolTableStack) (H : Heap) (name : String) : Option SymbolTablePtr :=
  S.searchOrder.find? (H.binds name)

/-- The topmost table of the stack that binds the name. -/
def stackBinder (S : SymbolTableStack) (H : Heap) (name : String) : Option SymbolTablePtr :=
  S.stack_.reverse.find? (H.binds name)

/-- The table that receives a new entry: the top of the stack, or the main
table when the stack is empty. -/
def insertTarget (S : SymbolTableStack) : Option SymbolTablePtr :=
  S.searchOrder.head?

/-- The stack after `Push(t, false)` for each table of `ts` in turn. -/
def pushAll (S : SymbolTableStack) (ts : List SymbolTablePtr) : SymbolTableStack :=
  ts.foldl (fun S t => S.Push t false) S

end SymbolTableStack

/-- The heap after a default entry for `name` was put in front of the table at `p`. -/
def Heap.insertDefault (H : Heap) (p : SymbolTablePtr) (name : String) : Heap :=
  match H[p]? with
  | none => H
  | some t => H.set p { t with map_ := (name, SymbolAttr.default) :: t.map_ }

/-- The resolution of a name over a list of tables, searched in order: the
cell of the first table that binds the name; when there is none, a new default
entry in the first table of the list if `create` holds, and `SymbolNotFound`
otherwise. -/
def resolveIn (order : List SymbolTablePtr) (H : Heap) (name : String) (create : Bool) :
    Except Fault CellRef × Heap :=
  match order.find? (H.binds name) with
  | some p => (.ok ⟨p, name⟩, H)
  | none =>
    if create then
      match order.head? with
      | some q => (.ok ⟨q, name⟩, H.insertDefault q name)
      | none => (.error Fault.undefined, H)
    else (.error (Fault.thrown (SymbolTableStack.symbolNotFound name)), H)

/-- The table at address `p` is alive and of kind `FUNC_TABLE`. -/
def Heap.isFunc (H : Heap) (p : SymbolTablePtr) : Bool :=
  match H[p]? with
  | none => false
  | some t => decide (t.tableType = TableType.FUNC_TABLE)

/-- The kind of the table at address `p`. -/
def Heap.typeAt (H : Heap) (p : SymbolTablePtr) : Option TableType :=
  (H[p]?).map SymbolTable.tableType

/-- The heap after the name was resolved with `create` over the tables of
`order` and the value stored through the returned cell. -/
def bindIn (order : List SymbolTablePtr) (H : Heap) (x : String) (v : ObjectPtr) : Heap :=
  match (resolveIn order H x true).1 with
  | .ok ref => (resolveIn order H x true).2.store ref v
  | .error _ => (resolveIn order H x true).2

/-- The heap after `AssignIdentifier` has assigned `v` to `x` with a plain
`=`: the name is resolved as an assignment target, with creation, and the value
is stored through the returned cell. -/
def SymbolTableStack.assignIn (S : SymbolTableStack) (H : Heap) (x : String) (v : ObjectPtr) :
    Heap :=
  match (S.targetRef H x true).1 with
  | .ok ref => (S.targetRef H x true).2.store ref v
  | .error _ => (S.targetRef H x true).2

/-- The heap after `assignIn` for each pair of a name and a value, in turn. -/
def SymbolTableStack.assignAll (S : SymbolTableStack) :
    Heap → List (String × ObjectPtr) → Heap
  | H, [] => H
  | H, (x, v) :: rest => SymbolTableStack.assignAll S (S.assignIn H x v) rest

/-- The object pointer held by the cell that the resolution of `x` over the
tables of `order` finds. -/
def valueIn (order : List SymbolTablePtr) (H : Heap) (x : String) : Option ObjectPtr :=
  (order.find? (H.binds x)).bind (fun p => H.valueAt p x)

/-- The identifier `x` is bound to `v`: `Lookup(x, false)`, the lookup of
symbol-table.h by which a name is read, succeeds, changes nothing, and gives a
cell that holds `v`. -/
def Store.boundTo {ω : Type} (s : Store ω) (x : String) (v : ObjectPtr) : Prop :=
  ∃ ref, s.stack.Lookup s.tables x false = (.ok ref, s.tables) ∧
    s.tables.valueAt ref.table ref.name = some v

/-- The pointers of the executor's stack own their tables and its main table is alive. -/
def Store.WellFormed {ω : Type} (s : Store ω) : Prop :=
  s.stack.StackLive s.tables ∧ s.stack.MainLive s.tables

/-- The error of the arity check of `Assign`. -/
def tupleSizeError : RunTimeError :=
  ⟨ErrorCode.INCOMPATIBLE_TYPE, "different size of tuples"⟩

/-- None of the collaborators raises the error `e` itself. -/
def Collaborators.NeverRaise {ω : Type} (env : Collaborators ω) (e : RunTimeError) : Prop :=
  (∀ x b s, (env.Exec x b s).1 ≠ .error (Fault.thrown e)) ∧
  (∀ a n s, (env.AttrAssign a n s).1 ≠ .error (Fault.thrown e)) ∧
  (∀ op a v s, (env.Op op a v s).1 ≠ .error (Fault.thrown e)) ∧
  (∀ a i s, (env.GetItem a i s).1 ≠ .error (Fault.thrown e)) ∧
  (∀ a i v s, (env.SetItem a i v s).1 ≠ .error (Fault.thrown e)) ∧
  (∀ a s, (env.ObjIter a s).1 ≠ .error (Fault.thrown e)) ∧
  (∀ a s, (env.HasNext a s).1 ≠ .error (Fault.thrown e)) ∧
  (∀ a s, (env.Next a s).1 ≠ .error (Fault.thrown e))

/-! ## Example states -/

/-- A main table with a global `g` and a non-global `l`. -/
def exMain : SymbolTable :=
  ⟨[("g", ⟨some 0, true⟩), ("l", ⟨some 1, false⟩)], [], TableType.SCOPE_TABLE⟩

/-- An outer scope that binds `x`. -/
def exOuter : SymbolTable := ⟨[("x", ⟨some 2, false⟩)], [], TableType.SCOPE_TABLE⟩

/-- An inner scope that binds `x` and `y`. -/
def exInner : SymbolTable :=
  ⟨[("x", ⟨some 3, false⟩), ("y", ⟨some 4, false⟩)], [], TableType.SCOPE_TABLE⟩

/-- The tables of the examples: main at address 0, the outer scope at 1, the inner at 2. -/
def exHeap : Heap := [exMain, exOuter, exInner]

/-- The stack `outer, inner` over the main table. -/
def exStack : SymbolTableStack := ⟨[1, 2], some 0⟩

/-- The empty stack over the main table. -/
def exTop : SymbolTableStack := ⟨[], some 0⟩

/-- Collaborators that are never reached in the examples: each call is a fault. -/
def exEnv : Collaborators Unit where
  Exec := fun _ _ s => (.error Fault.undefined, s)
  AttrAssign := fun _ _ s => (.error Fault.undefined, s)
  Op := fun _ _ _ s => (.error Fault.undefined, s)
  GetItem := fun _ _ s => (.error Fault.undefined, s)
  SetItem := fun _ _ _ s => (.error Fault.undefined, s)
  ObjIter := fun _ s => (.error Fault.undefined, s)
  HasNext := fun _ s => (.error Fault.undefined, s)
  Next := fun _ s => (.error Fault.undefined, s)

/-- The objects of the examples: the integers `1, 2, 3` at addresses 0 to 2,
the array `[1, 2, 3]` at 3 and the tuple `(1, 2)` at 4. -/
def exObjects : List Object :=
  [Object.other OtherType.INT, Object.other OtherType.INT, Object.other OtherType.INT,
    Object.array [some 0, some 1, some 2], Object.tuple [some 0, some 1]]

/-- A machine at top level: an empty stack over an empty main table. -/
def exMachine : Machine Unit :=
  ⟨⟨[SymbolTable.new TableType.SCOPE_TABLE], exObjects, ⟨[], some 0⟩, ()⟩, []⟩

/-- A machine in which `a` and `b` are bound in a scope of the stack. -/
def exBound : Machine Unit :=
  ⟨⟨[SymbolTable.new TableType.SCOPE_TABLE,
      ⟨[("a", ⟨some 0, false⟩), ("b", ⟨some 1, false⟩)], [], TableType.SCOPE_TABLE⟩],
    exObjects, ⟨[1], some 0⟩, ()⟩, []⟩

/-! ## Iteration, compound tokens and `SetEntryOnFunc` -/

/-- How a run of an iterator ends: with a `HasNext()` that is false, or with a
`HasNext()` whose object is not of type `Bool`. -/
inductive IterEnd
  | done
  | notBool
  deriving DecidableEq, Repr

/-- A finite run of the iterator at address `it`, as the spec words it: the
values produced by successive `Next()` calls, in order, each after a
`HasNext()` that is true, up to the first `HasNext()` that is false (`done`) or
whose object is not a `Bool` (`notBool`); with the machine before and after. -/
inductive IterRun {ω : Type} (env : Collaborators ω) (it : Nat) :
    Machine ω → List ObjectPtr → IterEnd → Machine ω → Prop
  | done (m m1 : Machine ω) (h : ObjectPtr) (b : Nat) :
      Machine.call (Call.HasNext it) (env.HasNext it) m = (.ok h, m1) →
      m1.st.deref h = some (b, Object.bool false) →
      IterRun env it m [] IterEnd.done m1
  | notBool (m m1 : Machine ω) (h : ObjectPtr) (b : Nat) (o : Object) :
      Machine.call (Call.HasNext it) (env.HasNext it) m = (.ok h, m1) →
      m1.st.deref h = some (b, o) → o.type ≠ ObjectType.BOOL →
      IterRun env it m [] IterEnd.notBool m1
  | next (m m1 m2 m3 : Machine ω) (h : ObjectPtr) (b : Nat) (v : ObjectPtr)
      (vs : List ObjectPtr) (e : IterEnd) :
      Machine.call (Call.HasNext it) (env.HasNext it) m = (.ok h, m1) →
      m1.st.deref h = some (b, Object.bool true) →
      Machine.call (Call.Next it) (env.Next it) m1 = (.ok v, m2) →
      IterRun env it m2 vs e m3 →
      IterRun env it m (v :: vs) e m3

/-- What `Unpack` returns after a run that produced the values `vs`. -/
def IterEnd.result (e : IterEnd) (vs : List ObjectPtr) : Except Fault (List ObjectPtr) :=
  match e with
  | IterEnd.done => .ok vs
  | IterEnd.notBool =>
    .error (Fault.thrown ⟨ErrorCode.INCOMPATIBLE_TYPE, "expect bool from __has_next__"⟩)

/-- The operation that the spec gives to each compound assignment token:
`+=` Add, `-=` Sub, `*=` Mult, `/=` Div, `%=` DivMod, `&=` BitAnd, `|=` BitOr,
`^=` BitXor, `<<=` LeftShift, `>>=` RightShift; none for `=` and for a token
that is not an assignment token. -/
def TokenKind.compoundOp : TokenKind → Option BinOp
  | .ASSIGN_ADD => some BinOp.Add
  | .ASSIGN_SUB => some BinOp.Sub
  | .ASSIGN_MUL => some BinOp.Mult
  | .ASSIGN_DIV => some BinOp.Div
  | .ASSIGN_MOD => some BinOp.DivMod
  | .ASSIGN_BIT_AND => some BinOp.BitAnd
  | .ASSIGN_BIT_OR => some BinOp.BitOr
  | .ASSIGN_BIT_XOR => some BinOp.BitXor
  | .ASSIGN_SHL => some BinOp.LeftShift
  | .ASSIGN_SAR => some BinOp.RightShift
  | .ASSIGN => none
  | .OTHER _ => none

/-- The token is one of `= += -= *= /= %= &= |= ^= <<= >>=`. -/
def TokenKind.isAssignToken : TokenKind → Bool
  | .OTHER _ => false
  | _ => true

/-- None of the collaborators raises an error with the code `code` itself. -/
def Collaborators.NeverRaiseCode {ω : Type} (env : Collaborators ω) (code : ErrorCode) : Prop :=
  ∀ msg, env.NeverRaise ⟨code, msg⟩

/-- The overload `void SetValue(const std::string& name, std::shared_ptr<Object> value)`:
the value of an existing entry is replaced, and a missing entry is put in
front with `global = false`. -/
def SymbolTable.SetValueObj (t : SymbolTable) (name : String) (value : ObjectPtr) :
    SymbolTable :=
  match t.map_.find name with
  | some _ => { t with map_ := t.map_.assign name value }
  | none => { t with map_ := (name, ⟨value, false⟩) :: t.map_ }

namespace SymbolTableStack

/-- The loop of `SetEntryOnFunc` over the tables from the top of the stack
down.  Each table of kind `FUNC_TABLE` gets `SetValue(name, std::move(value))`
and the loop goes on: the first such call moves `value` out, which leaves the
null pointer in it for the calls that follow. -/
def setOnFuncLoop (name : String) : List SymbolTablePtr → ObjectPtr → Heap → Except Fault Heap
  | [], _, H => .ok H
  | p :: rest, value, H =>
    match H[p]? with
    | none => .error Fault.undefined
    | some t =>
      if t.tableType = TableType.FUNC_TABLE then
        setOnFuncLoop name rest none (H.set p (t.SetValueObj name value))
      else setOnFuncLoop name rest value H

/-- The method `SetEntryOnFunc(name, value)`. -/
def SetEntryOnFunc (S : SymbolTableStack) (H : Heap) (name : String) (value : ObjectPtr) :
    Except Fault Heap :=
  setOnFuncLoop name S.stack_.reverse value H

end SymbolTableStack

/-! ## Integer arrays -/

/-- The integer values of the `Int` objects, by address: the part of the
`world` that the integer-array collaborators use. -/
abbrev IntWorld := List (Nat × Int)

/-- The integer value of the object behind a pointer, when it is an `Int` object. -/
def intValue (s : Store IntWorld) (p : ObjectPtr) : Option Int :=
  match p with
  | none => none
  | some a => s.world.lookup a

/-- The error of an operation that a type does not support (section 3.3 of the spec). -/
def unsupported : Fault :=
  Fault.thrown ⟨ErrorCode.INCOMPATIBLE_TYPE, "operation not supported"⟩

/-- Modelled from the spec: the operations of `ArrayObject` and `IntObject`
(obj-type.h is not among the sources) that an indexed assignment on an integer
array uses.  `GetItem(idx)` returns the element at an integer index in range,
`SetItem(idx, val)` replaces that element and no other, and a binary operation
on two `Int` objects makes a new `Int` object whose value is given by `intOp`;
an index out of range fails with `OutOfRange` and everything else with
`IncompatibleType`.  Expression evaluation is not part of this model. -/
def intArrayEnv (intOp : BinOp → Int → Int → Except RunTimeError Int) :
    Collaborators IntWorld where
  Exec := fun _ _ s => (.error Fault.undefined, s)
  AttrAssign := fun _ _ s => (.error unsupported, s)
  Op := fun op self arg s =>
    match intValue s (some self), intValue s arg with
    | some x, some y =>
      match intOp op x y with
      | .ok r =>
        (.ok (some s.objects.length),
          ⟨s.tables, s.objects ++ [Object.other OtherType.INT], s.stack,
            (s.objects.length, r) :: s.world⟩)
      | .error e => (.error (Fault.thrown e), s)
    | _, _ => (.error unsupported, s)
  GetItem := fun self index s =>
    match s.objects[self]? with
    | some (Object.array elems) =>
      match intValue s index with
      | some i =>
        if 0 ≤ i ∧ i.toNat < elems.length then (.ok (elems.getD i.toNat none), s)
        else (.error (Fault.thrown ⟨ErrorCode.OUT_OF_RANGE, "index out of range"⟩), s)
      | none => (.error unsupported, s)
    | _ => (.error unsupported, s)
  SetItem := fun self index value s =>
    match s.objects[self]? with
    | some (Object.array elems) =>
      match intValue s index with
      | some i =>
        if 0 ≤ i ∧ i.toNat < elems.length then
          (.ok (),
            ⟨s.tables, s.objects.set self (Object.array (elems.set i.toNat value)), s.stack,
              s.world⟩)
        else (.error (Fault.thrown ⟨ErrorCode.OUT_OF_RANGE, "index out of range"⟩), s)
      | none => (.error unsupported, s)
    | _ => (.error unsupported, s)
  ObjIter := fun _ s => (.error unsupported, s)
  HasNext := fun _ s => (.error unsupported, s)
  Next := fun _ s => (.error unsupported, s)

/-! ## More example states -/

/-- Two function scopes over the main table: the outer one, at address 1,
binds `x`; the inner one, at address 2, is empty. -/
def exFuncHeap : Heap :=
  [exMain, ⟨[("x", ⟨some 5, false⟩)], [], TableType.FUNC_TABLE⟩,
    ⟨[], [], TableType.FUNC_TABLE⟩]

/-- The objects of the examples followed by a range at address 5, an iterator
at 6, the `Bool` true at 7 and the `Bool` false at 8. -/
def exIterObjects : List Object :=
  exObjects ++ [Object.other OtherType.RANGE, Object.other OtherType.ITER,
    Object.bool true, Object.bool false]

/-- Collaborators with an iterator: the world is the position.  The object at
address 5 gives the iterator 6, which yields the objects at 0 and 1; every
other object gives the iterator 9, whose `HasNext` returns an `Int`. -/
def exIterEnv : Collaborators Nat where
  Exec := fun _ _ s => (.error Fault.undefined, s)
  AttrAssign := fun _ _ s => (.error Fault.undefined, s)
  Op := fun _ _ _ s => (.error Fault.undefined, s)
  GetItem := fun _ _ s => (.error Fault.undefined, s)
  SetItem := fun _ _ _ s => (.error Fault.undefined, s)
  ObjIter := fun a s => (.ok (some (if a = 5 then 6 else 9)), s)
  HasNext := fun it s =>
    if it = 6 then (if s.world < 2 then (.ok (some 7), s) else (.ok (some 8), s))
    else (.ok (some 0), s)
  Next := fun _ s => (.ok (some s.world), ⟨s.tables, s.objects, s.stack, s.world + 1⟩)

/-- A machine at top level for the iterator examples. -/
def exIterMachine : Machine Nat :=
  ⟨⟨[SymbolTable.new TableType.SCOPE_TABLE], exIterObjects, ⟨[], some 0⟩, 0⟩, []⟩

/-- The integer operations of the examples: addition, subtraction and product. -/
def exIntOp (op : BinOp) (x y : Int) : Except RunTimeError Int :=
  match op with
  | BinOp.Add => .ok (x + y)
  | BinOp.Sub => .ok (x - y)
  | BinOp.Mult => .ok (x * y)
  | _ => .error ⟨ErrorCode.INCOMPATIBLE_TYPE, "operation not supported"⟩

/-- A machine at top level for the integer examples: the objects of the
examples with their values `1, 2, 3`, the integer `10` at address 5, and `n`
bound in main to the integer at address 1. -/
def exIntMachine : Machine IntWorld :=
  ⟨⟨[⟨[("n", ⟨some 1, false⟩)], [], TableType.SCOPE_TABLE⟩],
      exObjects ++ [Object.other OtherType.INT], ⟨[], some 0⟩,
      [(0, 1), (1, 2), (2, 3), (5, 10)]⟩, []⟩

/-! ## The command object (`cmd-object.cc`) -/

/-- A `std::string`, as the list of its chars. -/
abbrev StdString := List Char

/-- The predicate `boost::is_any_of(delim)`: the char is one of those of `delim`. -/
def is_any_of (delim : StdString) (c : Char) : Bool := decide (c ∈ delim)

/-- The call `boost::trim_right_if(s, p)`: the chars at the end that satisfy `p` are removed. -/
def trim_right_if (s : StdString) (p : Char → Bool) : StdString :=
  (s.reverse.dropWhile p).reverse

/-- The call `boost::trim_left_if(s, p)`: the chars at the start that satisfy `p` are removed. -/
def trim_left_if (s : StdString) (p : Char → Bool) : StdString := s.dropWhile p

/-- The call `boost::trim_if(s, p)`, which trims the right end and then the left end. -/
def trim_if (s : StdString) (p : Char → Bool) : StdString :=
  trim_left_if (trim_right_if s p) p

mutual

/-- The tokens of `boost::algorithm::split` with `token_compress_on`, while a
token is being read: `cur` holds the chars of the token read so far, last
first.  A char that satisfies `p` ends the token; the end of the string ends
the last token. -/
def splitToken (p : Char → Bool) : List Char → List Char → List StdString
  | [], cur => [cur.reverse]
  | c :: cs, cur => if p c then cur.reverse :: splitSep p cs else splitToken p cs (c :: cur)

/-- The tokens of `boost::algorithm::split` with `token_compress_on`, while a
run of separators is being skipped: adjacent separators count as one, and a
run that reaches the end of the string is followed by an empty token. -/
def splitSep (p : Char → Bool) : List Char → List StdString
  | [] => [[]]
  | c :: cs => if p c then splitSep p cs else splitToken p cs [c]

end

/-- The call `boost::algorithm::split(result, s, p, token_compress_on)`. -/
def split (s : StdString) (p : Char → Bool) : List StdString := splitToken p s []

/-- Modelled from the spec: the class `CmdObject` (cmd-object.h is not among
the sources), the "captured output of an external command": exit status,
stdout string, stderr string and word-delimiter string. -/
structure CmdObject where
  status_ : Int
  str_stdout_ : StdString
  str_stderr_ : StdString
  delim_ : StdString
  deriving DecidableEq, Repr

/-- The objects that the command methods receive and return: a `Cmd`, a
`String`, a `Bool`, an `Array` with its elements, or an object of another
type, by its tag. -/
inductive Value
  | cmd (c : CmdObject)
  | string (value : StdString)
  | bool (value : Bool)
  | array (value : List (Option Value))
  | other (tag : OtherType)
  deriving Repr

/-- A pointer to one of these objects, `none` for the null pointer. -/
abbrev ValuePtr := Option Value

/-- The factory call `obj_factory.NewString(s)`. -/
def NewString (s : StdString) : ValuePtr := some (Value.string s)

/-- The factory call `obj_factory.NewBool(b)`. -/
def NewBool (b : Bool) : ValuePtr := some (Value.bool b)

namespace CmdObject

/-- The method `str_stdout()`. -/
def str_stdout (c : CmdObject) : StdString := c.str_stdout_

/-- The method `str_stderr()`. -/
def str_stderr (c : CmdObject) : StdString := c.str_stderr_

/-- The method `delim()`. -/
def delim (c : CmdObject) : StdString := c.delim_

/-- The method `CmdObject::ObjString`. -/
def ObjString (c : CmdObject) : ValuePtr := NewString c.str_stdout

end CmdObject

/-- The class `CmdIterObject`: the position `pos_` and the words `str_split_`. -/
structure CmdIterObject where
  pos_ : Nat
  str_split_ : List StdString
  deriving DecidableEq, Repr

namespace CmdIterObject

/-- The constructor `CmdIterObject(delim, outerr, cmd_obj, ...)`: the words of
the output of the command, or `IncompatibleType` when `cmd_obj` is not a `Cmd`
(and undefined behaviour when it is null). -/
def new (delim : StdString) (outerr : Int) (cmd_obj : ValuePtr) : Except Fault CmdIterObject :=
  match cmd_obj with
  | none => .error Fault.undefined
  | some (Value.cmd cmd_obj_ref) =>
    let str_cmd := trim_if (if outerr = 0 then cmd_obj_ref.str_stdout else cmd_obj_ref.str_stderr)
      (is_any_of delim)
    if str_cmd.isEmpty then .ok ⟨0, []⟩
    else .ok ⟨0, split str_cmd (is_any_of delim)⟩
  | some _ => .error (Fault.thrown ⟨ErrorCode.INCOMPATIBLE_TYPE, "only cmdobj supported"⟩)

/-- The method `CmdIterObject::Next`: the word at `pos_` as a new string, and
`pos_` advanced; `none` stands for the `std::out_of_range` of `at`. -/
def Next (it : CmdIterObject) : Option ValuePtr × CmdIterObject :=
  match it.str_split_[it.pos_]? with
  | some str => (some (NewString str), { it with pos_ := it.pos_ + 1 })
  | none => (none, { it with pos_ := it.pos_ + 1 })

/-- The method `CmdIterObject::HasNext`. -/
def HasNext (it : CmdIterObject) : ValuePtr :=
  NewBool (!(decide (it.pos_ = it.str_split_.length)))

/-- The words that iterating yields: `Next` is called as long as `HasNext`
gives the `Bool` true, at most `fuel` times; `none` when the fuel runs out or
`Next` throws. -/
def iterate : Nat → CmdIterObject → List ValuePtr → Option (List ValuePtr)
  | 0, _, _ => none
  | fuel + 1, it, acc =>
    match it.HasNext with
    | some (Value.bool true) =>
      match it.Next with
      | (some v, it1) => iterate fuel it1 (acc ++ [v])
      | (none, _) => none
    | _ => some acc

end CmdIterObject

/-- The method `CmdObject::ObjIter`, that is `NewCmdIter(delim_, 0, obj)`. -/
def CmdObject.ObjIter (c : CmdObject) : Except Fault CmdIterObject :=
  CmdIterObject.new c.delim_ 0 (some (Value.cmd c))

/-- Modelled from the spec: the macro `SETI_FUNC_CHECK_NUM_PARAMS(params, num,
name)` of utils/check.h, which is not among the sources: a call with another
number of arguments fails with `FuncParams`.  The text of the message is not
given by the spec. -/
def checkNumParams (params : List ValuePtr) (num : Nat) (name : String) : Except Fault Unit :=
  if params.length ≠ num then
    .error (Fault.thrown ⟨ErrorCode.FUNC_PARAMS,
      name ++ " takes exactly " ++ toString num ++ " argument (" ++
        toString params.length ++ " given)"⟩)
  else .ok ()

/-- The cast `static_cast<CmdObject&>(*params[0])`, defined only on a `Cmd`. -/
def castCmd (p : Option ValuePtr) : Except Fault CmdObject :=
  match p with
  | some (some (Value.cmd c)) => .ok c
  | _ => .error Fault.undefined

/-- The method `CmdOutFunc::Call`. -/
def CmdOutFunc.Call (params : List ValuePtr) : Except Fault ValuePtr :=
  match checkNumParams params 1 "out" with
  | .error f => .error f
  | .ok _ =>
    match castCmd params[0]? with
    | .error f => .error f
    | .ok cmd_obj => .ok (NewString cmd_obj.str_stdout)

/-- The method `CmdErrFunc::Call` (its check names the function `out`, as in the source). -/
def CmdErrFunc.Call (params : List ValuePtr) : Except Fault ValuePtr :=
  match checkNumParams params 1 "out" with
  | .error f => .error f
  | .ok _ =>
    match castCmd params[0]? with
    | .error f => .error f
    | .ok cmd_obj => .ok (NewString cmd_obj.str_stderr)

/-- The words of `s` as the spec words them: the maximal non-empty runs of
chars of `s` that are not in `d`, in order of occurrence, that is the pieces of
`s` between chars of `d` that are not empty. -/
def wordsOf (d s : StdString) : List StdString :=
  (s.splitOnP (is_any_of d)).filter (fun w => !w.isEmpty)

/-! ## More of the symbol-table stack, and closures (`func-object.h`) -/

namespace SymbolTable

/-- The copy constructor `SymbolTable(const SymbolTable&)`: `map_` and `type_`
are copied, entry by entry (each copied cell shares its object with the
original), and `cmd_map_` is left empty. -/
def copy (t : SymbolTable) : SymbolTable := ⟨t.map_, [], t.type_⟩

/-- The overload `bool SetValue(const std::string& name, SymbolAttr&& symbol)`:
when the name exists the table is left as it is and `false` is returned;
otherwise the symbol is inserted and `true` is returned. -/
def SetValueAttr (t : SymbolTable) (name : String) (symbol : SymbolAttr) : Bool × SymbolTable :=
  match t.map_.find name with
  | some _ => (false, t)
  | none => (true, { t with map_ := (name, symbol) :: t.map_ })

end SymbolTable

namespace SymbolTableStack

/-- The method `MainTable()`, that is `main_table_.lock()`: `none` is the null pointer. -/
def MainTable (S : SymbolTableStack) (H : Heap) : Option SymbolTablePtr :=
  match S.lockMain H with
  | none => none
  | some (p, _) => some p

/-- The method `InsertEntry(name, symbol)`. -/
def InsertEntry (S : SymbolTableStack) (H : Heap) (name : String) (symbol : SymbolAttr) :
    Except Fault Bool × Heap :=
  match S.stack_.getLast? with
  | some q =>
    match H[q]? with
    | none => (.error Fault.undefined, H)
    | some tq => (.ok (tq.SetValueAttr name symbol).1, H.set q (tq.SetValueAttr name symbol).2)
  | none =>
    match S.lockMain H with
    | none => (.error Fault.undefined, H)
    | some (m, tm) =>
      (.ok (tm.SetValueAttr name symbol).1, H.set m (tm.SetValueAttr name symbol).2)

/-- The method `SetEntry(name, value)`.  On a stack that is not empty the top
table gets `SetValue(name, std::move(value))` and, there being no `return`, so
does main afterwards, with the null pointer that the move left in `value`. -/
def SetEntry (S : SymbolTableStack) (H : Heap) (name : String) (value : ObjectPtr) :
    Except Fault Unit × Heap :=
  match S.stack_.getLast? with
  | some q =>
    match H[q]? with
    | none => (.error Fault.undefined, H)
    | some tq =>
      match S.lockMain (H.set q (tq.SetValueObj name value)) with
      | none => (.error Fault.undefined, H.set q (tq.SetValueObj name value))
      | some (m, tm) =>
        (.ok (), (H.set q (tq.SetValueObj name value)).set m (tm.SetValueObj name none))
  | none =>
    match S.lockMain H with
    | none => (.error Fault.undefined, H)
    | some (m, tm) => (.ok (), H.set m (tm.SetValueObj name value))

/-- The method `HasClassTable()`. -/
def HasClassTable (S : SymbolTableStack) (H : Heap) : Except Fault Bool :=
  S.stack_.foldr
    (fun p acc =>
      match H[p]? with
      | none => .error Fault.undefined
      | some t => if t.tableType = TableType.CLASS_TABLE then .ok true else acc)
    (.ok false)

/-- The loop of `GetUntilFuncTable` and `GetUntilClassTable` over the tables
from the bottom of the stack up: every table is taken until one of the kind
`kind` was taken. -/
def getUntil (H : Heap) (kind : TableType) : List SymbolTablePtr → Except Fault (List SymbolTablePtr)
  | [] => .ok []
  | p :: rest =>
    match H[p]? with
    | none => .error Fault.undefined
    | some t =>
      if t.tableType ≠ kind then
        match getUntil H kind rest with
        | .error f => .error f
        | .ok statck => .ok (p :: statck)
      else .ok [p]

/-- The method `GetUntilFuncTable()`. -/
def GetUntilFuncTable (S : SymbolTableStack) (H : Heap) : Except Fault (List SymbolTablePtr) :=
  getUntil H TableType.FUNC_TABLE S.stack_

/-- The method `GetUntilClassTable()`. -/
def GetUntilClassTable (S : SymbolTableStack) (H : Heap) : Except Fault (List SymbolTablePtr) :=
  getUntil H TableType.CLASS_TABLE S.stack_

/-- The method `Append(std::vector<SymbolTablePtr>&& stack)`: for each table of
`stack`, bottom first, a new table `new SymbolTable(*table)` is made, at the
next free address, and pushed. -/
def Append (S : SymbolTableStack) (H : Heap) :
    List SymbolTablePtr → Except Fault (SymbolTableStack × Heap)
  | [] => .ok (S, H)
  | p :: rest =>
    match H[p]? with
    | none => .error Fault.undefined
    | some t => Append { S with stack_ := S.stack_ ++ [H.length] } (H ++ [t.copy]) rest

end SymbolTableStack

/-- The constructor of `FuncDeclObject`, for the member `symbol_table_` it builds
from the defining stack `symbol_table`: a new stack whose main table is
`symbol_table.MainTable()` and, for a lambda, the copies of the tables of
`GetUntilClassTable()` when the defining stack has a class table and of
`GetUntilFuncTable()` otherwise. -/
def FuncDeclObject.new (symbol_table : SymbolTableStack) (H : Heap) (lambda : Bool) :
    Except Fault (SymbolTableStack × Heap) :=
  if lambda then
    match symbol_table.HasClassTable H with
    | .error f => .error f
    | .ok true =>
      match symbol_table.GetUntilClassTable H with
      | .error f => .error f
      | .ok stack => SymbolTableStack.Append ⟨[], symbol_table.MainTable H⟩ H stack
    | .ok false =>
      match symbol_table.GetUntilFuncTable H with
      | .error f => .error f
      | .ok stack => SymbolTableStack.Append ⟨[], symbol_table.MainTable H⟩ H stack
  else .ok (⟨[], symbol_table.MainTable H⟩, H)

/-! ## `ExecWithReturn` -/

/-- Modelled from the spec: the AST node `AssignmentStatement` (ast.h is not
among the sources), with what `ExecWithReturn` reads of it: `has_rvalue()`,
`assign_kind()` and the children of `lexp_list()`. -/
structure AssignmentStatement where
  has_rvalue : Bool
  assign_kind : TokenKind
  lexp_list : List Expression

/-- The vector `values` as `Assign`, which takes it by reference, leaves it
for its caller.  With one left-hand expression and a number of values other
than one, `Assign` hands it to `NewTuple(std::move(values))`; what the vector
holds after that call is decided by `ObjectFactory::NewTuple`, which is not
among the sources, and `afterNewTuple` stands for it (the identity when
`NewTuple` copies the vector, the constant empty vector when it takes the
vector over).  In the other cases `Assign` does not touch the vector. -/
def valuesAfterAssign (afterNewTuple : List ObjectPtr → List ObjectPtr)
    (left_exp_vec : List Expression) (values : List ObjectPtr) : List ObjectPtr :=
  if left_exp_vec.length = 1 ∧ values.length ≠ 1 then afterNewTuple values else values

section Engine

variable {ω : Type}

/-- The method `AssignExecutor::ExecWithReturn`.  `ExecRvalues` stands for
`AssignableListExecutor::Exec` on the right-hand side and `afterNewTuple` for
what `ObjectFactory::NewTuple` leaves in a vector handed to it with
`std::move`; neither is among the sources. -/
def ExecWithReturn (env : Collaborators ω) (fuel : Nat)
    (afterNewTuple : List ObjectPtr → List ObjectPtr) (assign_node : AssignmentStatement)
    (ExecRvalues : Step ω (List ObjectPtr)) : Step ω ObjectPtr :=
  fun m =>
    if !assign_node.has_rvalue then
      raise ErrorCode.INCOMPATIBLE_TYPE "not valid right side expression" m
    else
      match ExecRvalues m with
      | (.error f, m1) => (.error f, m1)
      | (.ok values, m1) =>
        match Assign env fuel assign_node.lexp_list values assign_node.assign_kind m1 with
        | (.error f, m2) => (.error f, m2)
        | (.ok _, m2) =>
          if (valuesAfterAssign afterNewTuple assign_node.lexp_list values).length = 1 then
            -- if there are only one expression on right side, so retun this object
            match (valuesAfterAssign afterNewTuple assign_node.lexp_list values)[0]? with
            | some v => (.ok v, m2)
            | none => (.error Fault.undefined, m2)
          else if (valuesAfterAssign afterNewTuple assign_node.lexp_list values).length > 1 then
            -- put all terms on a tuple, and return this tuple
            (.ok (m2.st.NewTuple
                (valuesAfterAssign afterNewTuple assign_node.lexp_list values)).1,
              ⟨(m2.st.NewTuple
                (valuesAfterAssign afterNewTuple assign_node.lexp_list values)).2, m2.log⟩)
          else raise ErrorCode.INCOMPATIBLE_TYPE "not valid right side expression" m2

end Engine

/-! ## Notions for the closures and for the invariant on cells -/

/-- The table at address `p` is alive and of kind `kind`. -/
def Heap.isKind (H : Heap) (kind : TableType) (p : SymbolTablePtr) : Bool :=
  match H[p]? with
  | none => false
  | some t => decide (t.tableType = kind)

/-- The slice of a stack from the bottom up to and including the first table
of the kind `kind`, as section 4.6 of the spec words it; the whole stack when
it has no such table. -/
def untilFirst (H : Heap) (kind : TableType) (stack : List SymbolTablePtr) :
    List SymbolTablePtr :=
  stack.takeWhile (fun p => !H.isKind kind p) ++
    ((stack.dropWhile (fun p => !H.isKind kind p)).head?).toList

/-- The tables behind the pointers of a stack, bottom first. -/
def SymbolTableStack.tables (S : SymbolTableStack) (H : Heap) : List (Option SymbolTable) :=
  S.stack_.map (fun p => H[p]?)

/-- Every entry of the table at `p` holds a non-null object (a dead address has no entry). -/
def Heap.noNullAt (H : Heap) (p : SymbolTablePtr) : Bool :=
  match H[p]? with
  | none => true
  | some t => t.map_.all (fun e => e.2.value_.isSome)

/-- The invariant of the spec on cells: every entry of every table of the
stack and of main holds a non-null object. -/
def SymbolTableStack.NoNullCell (S : SymbolTableStack) (H : Heap) : Prop :=
  ∀ p ∈ S.searchOrder, H.noNullAt p = true

/-- Whether the invariant holds can be computed. -/
instance SymbolTableStack.NoNullCell.decidable (S : SymbolTableStack) (H : Heap) :
    Decidable (S.NoNullCell H) :=
  inferInstanceAs (Decidable (∀ p ∈ S.searchOrder, H.noNullAt p = true))

/-- The slice of a stack from the bottom up to and including the last table of
the kind `kind`, the nearest enclosing one seen from the top. -/
def untilNearest (H : Heap) (kind : TableType) (stack : List SymbolTablePtr) :
    List SymbolTablePtr :=
  (stack.reverse.dropWhile (fun p => !H.isKind kind p)).reverse

/-! ## Example states for closures -/

/-- A function scope that binds `x`. -/
def exFunc : SymbolTable := ⟨[("x", ⟨some 5, false⟩)], [], TableType.FUNC_TABLE⟩

/-- A function scope that binds `y`. -/
def exFuncInner : SymbolTable := ⟨[("y", ⟨some 6, false⟩)], [], TableType.FUNC_TABLE⟩

/-- A class scope that binds `c`. -/
def exClass : SymbolTable := ⟨[("c", ⟨some 7, false⟩)], [], TableType.CLASS_TABLE⟩

/-- The tables of a function declared inside a block of another function:
main at address 0, the outer function at 1, the block at 2, the inner function at 3. -/
def exNestedHeap : Heap := [exMain, exFunc, exOuter, exFuncInner]

/-- The stack inside the inner function. -/
def exNestedStack : SymbolTableStack := ⟨[1, 2, 3], some 0⟩

/-- The tables of a function at top level: main at address 0, the function at 1. -/
def exLambdaHeap : Heap := [exMain, exFunc]

/-- The stack inside that function. -/
def exLambdaStack : SymbolTableStack := ⟨[1], some 0⟩

/-- The tables of a method: main at address 0, a block at 1, the class at 2, the method at 3. -/
def exClassHeap : Heap := [exMain, exOuter, exClass, exFunc]

/-- The stack inside the method. -/
def exClassStack : SymbolTableStack := ⟨[1, 2, 3], some 0⟩

/-! ## `ObjArray` and the method `delim` -/

/-- Modelled from the spec: `ObjectFactory::NewArray` (object-factory.h is not
among the sources): a new `Array` object whose elements are the given objects,
in order. -/
def NewArray (value : List ValuePtr) : ValuePtr := some (Value.array value)

namespace CmdObject

/-- The method `CmdObject::ObjArray`: the loop over `arr_str` pushes a new
string for each token on `arr_obj`. -/
def ObjArray (c : CmdObject) : ValuePtr :=
  let str_cmd := trim_if c.str_stdout_ (is_any_of c.delim_)
  if str_cmd.isEmpty then NewArray []
  else
    NewArray ((split str_cmd (is_any_of c.delim_)).foldl
      (fun arr_obj s => arr_obj ++ [NewString s]) [])

/-- The method `set_delim(delim)`. -/
def set_delim (c : CmdObject) (delim : StdString) : CmdObject := { c with delim_ := delim }

end CmdObject

/-- Modelled from the spec: the macro `SETI_FUNC_CHECK_NUM_PARAMS_UNTIL(params,
num, name)` of utils/check.h, which is not among the sources: a call with more
than `num` arguments fails with `FuncParams`.  The text of the message is not
given by the spec. -/
def checkNumParamsUntil (params : List ValuePtr) (num : Nat) (name : String) :
    Except Fault Unit :=
  if params.length > num then
    .error (Fault.thrown ⟨ErrorCode.FUNC_PARAMS,
      name ++ " takes at most " ++ toString num ++ " argument (" ++
        toString params.length ++ " given)"⟩)
  else .ok ()

/-- Modelled from the spec: the macro `SETI_FUNC_CHECK_PARAM_TYPE(param, name,
STRING)` of utils/check.h, which is not among the sources: an argument that is
not a `String` fails with `IncompatibleType` (a null one cannot be asked its
type).  The text of the message is not given by the spec. -/
def checkParamTypeString (param : Option ValuePtr) (name : String) : Except Fault Unit :=
  match param with
  | some (some (Value.string _)) => .ok ()
  | some (some _) =>
    .error (Fault.thrown ⟨ErrorCode.INCOMPATIBLE_TYPE,
      name ++ ": argument is not of type string"⟩)
  | _ => .error Fault.undefined

/-- The cast `static_cast<StringObject&>(*params[1]).value()`, defined only on a `String`. -/
def castStringValue (p : Option ValuePtr) : Except Fault StdString :=
  match p with
  | some (some (Value.string value)) => .ok value
  | _ => .error Fault.undefined

/-- The method `CmdDelimFunc::Call`: the returned object, and the `Cmd` object
`*params[0]` as the call leaves it.  With two arguments the delimiter of the
`Cmd` is set and the `Cmd` itself is returned; with one, a new string with the
delimiter is returned. -/
def CmdDelimFunc.Call (params : List ValuePtr) : Except Fault (ValuePtr × CmdObject) :=
  match checkNumParamsUntil params 2 "delim" with
  | .error f => .error f
  | .ok _ =>
    match castCmd params[0]? with
    | .error f => .error f
    | .ok cmd_obj =>
      if params.length = 2 then
        match checkParamTypeString params[1]? "delim" with
        | .error f => .error f
        | .ok _ =>
          match castStringValue params[1]? with
          | .error f => .error f
          | .ok delim => .ok (some (Value.cmd (cmd_obj.set_delim delim)), cmd_obj.set_delim delim)
      else .ok (NewString cmd_obj.delim, cmd_obj)

/-- The iterator after `n` calls of `Next` in a row, whatever they returned. -/
def CmdIterObject.nextN : Nat → CmdIterObject → CmdIterObject
  | 0, it => it
  | n + 1, it => CmdIterObject.nextN n it.Next.2

/-! ## Example states for the command object -/

/-- A `Cmd` whose stdout is `a`, two blanks, `b`, a blank, with the blank as delimiter. -/
def exCmd : CmdObject := ⟨0, ['a', ' ', ' ', 'b', ' '], [], [' ']⟩

/-- A `Cmd` whose stdout is the one word `a`. -/
def exCmdOne : CmdObject := ⟨0, ['a'], [], [' ']⟩

/-! ## Example collaborators that fail -/

/-- A machine inside a function: the table of the function, at address 1, is
empty, and a scope above it, at address 2, binds `x` and `y`. -/
def exFuncScope : Machine Unit :=
  ⟨⟨[SymbolTable.new TableType.SCOPE_TABLE, SymbolTable.new TableType.FUNC_TABLE, exInner],
    exObjects, ⟨[1, 2], some 0⟩, ()⟩, []⟩

end seti

/-! # Properties -/

namespace seti

/-! ## Lemmas on maps and heaps -/

theorem SymbolMap.find_assign (m : SymbolMap) (name k : String) (v : ObjectPtr) :
    SymbolMap.find (SymbolMap.assign m name v) k =
      if k = name then (SymbolMap.find m k).map (fun a => a.set_value v) else SymbolMap.find m k := by
  induction m with
  | nil => simp [SymbolMap.find, SymbolMap.assign]
  | cons e rest ih =>
    obtain ⟨k', a⟩ := e
    by_cases h1 : k' = name
    · by_cases h2 : k' = k
      · subst h1; subst h2; simp [SymbolMap.find, SymbolMap.assign]
      · have h3 : ¬ k = name := fun h => h2 (h1.trans h.symm)
        simp [SymbolMap.find, SymbolMap.assign, h1, h2, h3]
        subst h1
        simp [h2]
    · by_cases h2 : k' = k
      · have h3 : ¬ k = name := fun h => h1 (h2.trans h)
        simp [SymbolMap.find, SymbolMap.assign, h1, h2, h3]
      · simp [SymbolMap.find, SymbolMap.assign, h1, h2, ih]

theorem SymbolMap.assign_of_find (m : SymbolMap) (name : String) (a : SymbolAttr)
    (h : SymbolMap.find m name = some a) : SymbolMap.assign m name a.value_ = m := by
  induction m with
  | nil => rfl
  | cons e rest ih =>
    obtain ⟨k', b⟩ := e
    by_cases h1 : k' = name
    · simp [SymbolMap.find, h1] at h
      subst h
      simp [SymbolMap.assign, h1, SymbolAttr.set_value]
    · simp [SymbolMap.find, h1] at h
      simp [SymbolMap.assign, h1, ih h]

theorem Heap.length_store (H : Heap) (r : CellRef) (v : ObjectPtr) :
    (H.store r v).length = H.length := by
  unfold Heap.store
  split <;> simp

theorem Heap.length_insertDefault (H : Heap) (p : SymbolTablePtr) (name : String) :
    (H.insertDefault p name).length = H.length := by
  unfold Heap.insertDefault
  split <;> simp

theorem Heap.cell_store (H : Heap) (r r' : CellRef) (v : ObjectPtr) :
    (H.store r v).cell r' =
      if r' = r then (H.cell r').map (fun a => a.set_value v) else H.cell r' := by
  obtain ⟨p, n⟩ := r
  obtain ⟨p', n'⟩ := r'
  unfold Heap.store
  cases hp : H[p]? with
  | none =>
    simp only
    split
    · rename_i h
      injection h with h1 h2
      subst h1; subst h2
      simp [Heap.cell, hp]
    · rfl
  | some t =>
    simp only [Heap.cell]
    by_cases hpp : p' = p
    · subst hpp
      have hlt : p' < H.length := by
        rcases Nat.lt_or_ge p' H.length with h | h
        · exact h
        · rw [List.getElem?_eq_none h] at hp; cases hp
      simp [List.getElem?_set, hlt, hp, SymbolTable.Lookup, SymbolMap.find_assign]
    · have : ¬ p = p' := fun h => hpp h.symm
      simp [List.getElem?_set, this, hpp]

theorem Heap.cell_insertDefault (H : Heap) (p : SymbolTablePtr) (name : String) (r : CellRef)
    (hp : p < H.length) (hfree : H.cell ⟨p, name⟩ = none) :
    (H.insertDefault p name).cell r =
      if r = ⟨p, name⟩ then some SymbolAttr.default else H.cell r := by
  obtain ⟨p', n'⟩ := r
  unfold Heap.insertDefault
  have hget : H[p]? = some H[p] := List.getElem?_eq_getElem hp
  rw [hget]
  simp only [Heap.cell]
  by_cases hpp : p' = p
  · subst hpp
    simp [List.getElem?_set, hp, hget, SymbolTable.Lookup, SymbolMap.find]
    by_cases hn : name = n'
    · subst hn; simp
    · have : ¬ n' = name := fun h => hn h.symm
      simp [hn, this]
  · have : ¬ p = p' := fun h => hpp h.symm
    simp [List.getElem?_set, this, hpp]

theorem Heap.getElem?_of_lt (H : Heap) (p : SymbolTablePtr) (h : p < H.length) :
    ∃ t, H[p]? = some t := ⟨H[p], List.getElem?_eq_getElem h⟩

theorem Heap.binds_eq_false_iff (H : Heap) (name : String) (p : SymbolTablePtr) :
    H.binds name p = false ↔ H.cell ⟨p, name⟩ = none := by
  simp [Heap.binds]

theorem Heap.binds_iff (H : Heap) (name : String) (p : SymbolTablePtr) :
    H.binds name p = true ↔ ∃ a, H.cell ⟨p, name⟩ = some a := by
  simp [Heap.binds, Option.isSome_iff_exists]

theorem Heap.lt_of_binds (H : Heap) (name : String) (p : SymbolTablePtr)
    (h : H.binds name p = true) : p < H.length := by
  rcases Nat.lt_or_ge p H.length with h1 | h1
  · exact h1
  · simp [Heap.binds, Heap.cell, List.getElem?_eq_none h1] at h

namespace SymbolTableStack

theorem search_eq (H : Heap) (name : String) (l : List SymbolTablePtr)
    (hl : ∀ p ∈ l, p < H.length) :
    search H name l =
      .ok ((l.find? (H.binds name)).bind (fun p => (H.cell ⟨p, name⟩).map (fun a => (p, a)))) := by
  induction l with
  | nil => rfl
  | cons p rest ih =>
    obtain ⟨t, ht⟩ := H.getElem?_of_lt p (hl p (List.mem_cons_self _ _))
    have ih' := ih (fun q hq => hl q (List.mem_cons_of_mem _ hq))
    unfold search
    rw [ht]
    simp only
    cases hlk : t.Lookup name with
    | some a =>
      have hb : H.binds name p = true := by simp [Heap.binds, Heap.cell, ht, hlk]
      simp [List.find?, hb, Heap.cell, ht, hlk]
    | none =>
      have hb : H.binds name p = false := by simp [Heap.binds, Heap.cell, ht, hlk]
      simp [List.find?, hb, ih']

theorem search_stack_some (S : SymbolTableStack) (H : Heap) (name : String) (p : SymbolTablePtr)
    (hs : S.StackLive H) (h : S.stackBinder H name = some p) :
    ∃ a, H.cell ⟨p, name⟩ = some a ∧ search H name S.stack_.reverse = .ok (some (p, a)) := by
  have hb : H.binds name p = true := List.find?_some h
  obtain ⟨a, ha⟩ := (H.binds_iff name p).1 hb
  refine ⟨a, ha, ?_⟩
  rw [search_eq H name _ (fun q hq => hs q (List.mem_reverse.1 hq))]
  unfold stackBinder at h
  rw [h]
  simp [ha]

theorem search_stack_none (S : SymbolTableStack) (H : Heap) (name : String)
    (hs : S.StackLive H) (h : S.stackBinder H name = none) :
    search H name S.stack_.reverse = .ok none := by
  rw [search_eq H name _ (fun q hq => hs q (List.mem_reverse.1 hq))]
  unfold stackBinder at h
  rw [h]
  rfl

theorem firstBinder_of_stackBinder (S : SymbolTableStack) (H : Heap) (name : String)
    (p : SymbolTablePtr) (h : S.stackBinder H name = some p) : S.firstBinder H name = some p := by
  unfold firstBinder searchOrder
  unfold stackBinder at h
  simp [List.find?_append, h]

theorem firstBinder_of_stackBinder_none (S : SymbolTableStack) (H : Heap) (name : String)
    (h : S.stackBinder H name = none) :
    S.firstBinder H name = S.main_table_.toList.find? (H.binds name) := by
  unfold firstBinder searchOrder
  unfold stackBinder at h
  simp [List.find?_append, h]

theorem Lookup_eq_resolveIn (S : SymbolTableStack) (H : Heap) (name : String) (create : Bool)
    (hs : S.StackLive H) (hm : S.MainLive H) :
    S.Lookup H name create = resolveIn S.searchOrder H name create := by
  obtain ⟨m, hmain, hmlt⟩ := hm
  obtain ⟨tm, htm⟩ := H.getElem?_of_lt m hmlt
  unfold Lookup resolveIn
  change _ = match S.firstBinder H name with
    | some p => _
    | none => _
  cases hsb : S.stackBinder H name with
  | some p =>
    obtain ⟨a, _, hsearch⟩ := search_stack_some S H name p hs hsb
    rw [hsearch, firstBinder_of_stackBinder S H name p hsb]
  | none =>
    rw [search_stack_none S H name hs hsb, firstBinder_of_stackBinder_none S H name hsb]
    simp only [lockMain, hmain, htm, Option.toList]
    cases hlk : tm.Lookup name with
    | some a =>
      have hb : H.binds name m = true := by simp [Heap.binds, Heap.cell, htm, hlk]
      simp [List.find?, hb]
    | none =>
      have hb : H.binds name m = false := by simp [Heap.binds, Heap.cell, htm, hlk]
      simp only [List.find?, hb]
      cases create with
      | false => simp
      | true =>
        simp only [if_true]
        cases hlast : S.stack_.getLast? with
        | none =>
          have hnil : S.stack_ = [] := List.getLast?_eq_none_iff.1 hlast
          simp [searchOrder, hnil, hmain, Heap.insertDefault, htm, SymbolTable.SetValue,
            show SymbolMap.find tm.map_ name = none from hlk]
        | some q =>
          have hq : q ∈ S.stack_ := List.mem_of_getLast?_eq_some hlast
          obtain ⟨tq, htq⟩ := H.getElem?_of_lt q (hs q hq)
          have hqb : H.binds name q = false := by
            have := List.find?_eq_none.1 hsb q (List.mem_reverse.2 hq)
            simpa using this
          have hqf : SymbolMap.find tq.map_ name = none := by
            simpa [Heap.binds, Heap.cell, htq, SymbolTable.Lookup] using hqb
          have hhead : S.searchOrder.head? = some q := by
            unfold searchOrder
            rw [List.head?_append_of_ne_nil]
            · simp [List.head?_reverse, hlast]
            · intro hnil
              rw [List.reverse_eq_nil_iff] at hnil
              rw [hnil] at hq
              cases hq
          simp [hhead, htq, Heap.insertDefault, SymbolTable.SetValue, hqf]

end SymbolTableStack

theorem set_of_getElem? {α : Type} (l : List α) (i : Nat) (a : α) (h : l[i]? = some a) :
    l.set i a = l := by
  apply List.ext_getElem?
  intro j
  rw [List.getElem?_set]
  split
  · rename_i hij
    subst hij
    split
    · exact h.symm
    · rename_i hlt
      rw [List.getElem?_eq_none (Nat.le_of_not_lt hlt)]
  · rfl

theorem Heap.binds_store (H : Heap) (r : CellRef) (v : ObjectPtr) (n : String)
    (p : SymbolTablePtr) : (H.store r v).binds n p = H.binds n p := by
  unfold Heap.binds
  rw [Heap.cell_store]
  split
  · simp
  · rfl

theorem Heap.valueAt_store_same (H : Heap) (r : CellRef) (v : ObjectPtr) (a : SymbolAttr)
    (h : H.cell r = some a) : (H.store r v).valueAt r.table r.name = some v := by
  unfold Heap.valueAt
  rw [Heap.cell_store]
  simp [h, SymbolAttr.set_value]

theorem Heap.cell_store_other (H : Heap) (r r' : CellRef) (v : ObjectPtr) (h : r' ≠ r) :
    (H.store r v).cell r' = H.cell r' := by
  rw [Heap.cell_store]
  simp [h]

theorem Heap.store_same_value (H : Heap) (r : CellRef) (v : ObjectPtr)
    (h : H.valueAt r.table r.name = some v) : H.store r v = H := by
  obtain ⟨p, n⟩ := r
  unfold Heap.valueAt Heap.cell at h
  unfold Heap.store
  cases hp : H[p]? with
  | none => rfl
  | some t =>
    simp only [hp, SymbolTable.Lookup] at h
    cases hf : SymbolMap.find t.map_ n with
    | none => simp [hf] at h
    | some a =>
      simp only [hf, Option.map_some', Option.some.injEq] at h
      have := SymbolMap.assign_of_find t.map_ n a hf
      rw [h] at this
      simp only [this]
      exact set_of_getElem? H p t hp

theorem Heap.binds_insertDefault (H : Heap) (q : SymbolTablePtr) (x n : String)
    (p : SymbolTablePtr) (hq : q < H.length) (hfree : H.binds x q = false) :
    (H.insertDefault q x).binds n p = if p = q ∧ n = x then true else H.binds n p := by
  unfold Heap.binds
  rw [Heap.cell_insertDefault H q x _ hq ((H.binds_eq_false_iff x q).1 hfree)]
  by_cases h : p = q ∧ n = x
  · obtain ⟨h1, h2⟩ := h
    subst h1; subst h2
    simp
  · have : ¬ (⟨p, n⟩ : CellRef) = ⟨q, x⟩ := by
      intro h'
      injection h' with h1 h2
      exact h ⟨h1, h2⟩
    simp [h, this]

theorem Heap.cell_append (H extra : Heap) (r : CellRef) (h : r.table < H.length) :
    (H ++ extra).cell r = H.cell r := by
  unfold Heap.cell
  rw [List.getElem?_append_left h]

theorem Heap.binds_append (H extra : Heap) (n : String) (p : SymbolTablePtr) (h : p < H.length) :
    (H ++ extra).binds n p = H.binds n p := by
  unfold Heap.binds
  rw [Heap.cell_append H extra ⟨p, n⟩ h]

theorem find?_congr_mem {α : Type} (l : List α) (f g : α → Bool) (h : ∀ a ∈ l, f a = g a) :
    l.find? f = l.find? g := by
  induction l with
  | nil => rfl
  | cons a rest ih =>
    simp only [List.find?, h a (List.mem_cons_self _ _)]
    rw [ih (fun b hb => h b (List.mem_cons_of_mem _ hb))]

/-! ### The resolution over a list of tables -/

theorem resolveIn_of_find (order : List SymbolTablePtr) (H : Heap) (x : String) (create : Bool)
    (p : SymbolTablePtr) (h : order.find? (H.binds x) = some p) :
    resolveIn order H x create = (.ok ⟨p, x⟩, H) := by
  unfold resolveIn
  rw [h]

theorem resolveIn_create_of_none (order : List SymbolTablePtr) (H : Heap) (x : String)
    (q : SymbolTablePtr) (hq : order.head? = some q) (h : order.find? (H.binds x) = none) :
    resolveIn order H x true = (.ok ⟨q, x⟩, H.insertDefault q x) := by
  unfold resolveIn
  rw [h]
  simp [hq]

theorem resolveIn_fail_of_none (order : List SymbolTablePtr) (H : Heap) (x : String)
    (h : order.find? (H.binds x) = none) :
    resolveIn order H x false =
      (.error (Fault.thrown (SymbolTableStack.symbolNotFound x)), H) := by
  unfold resolveIn
  rw [h]
  simp

/-- After a creating resolution, the name is bound in the returned table, which
is then the first binder. -/
theorem find_after_resolveIn (order : List SymbolTablePtr) (H : Heap) (x : String)
    (hlive : ∀ p ∈ order, p < H.length) (hne : order ≠ []) :
    ∃ p, (resolveIn order H x true).1 = .ok ⟨p, x⟩ ∧
      order.find? ((resolveIn order H x true).2.binds x) = some p ∧
      (resolveIn order H x true).2.length = H.length ∧
      (∀ n, n ≠ x → ∀ r, (resolveIn order H x true).2.binds n r = H.binds n r) ∧
      (∀ n, n ≠ x → ∀ r, (resolveIn order H x true).2.cell ⟨r, n⟩ = H.cell ⟨r, n⟩) ∧
      (order.find? (H.binds x) = some p → (resolveIn order H x true).2 = H) := by
  cases hf : order.find? (H.binds x) with
  | some p =>
    rw [resolveIn_of_find order H x true p hf]
    exact ⟨p, rfl, hf, rfl, fun _ _ _ => rfl, fun _ _ _ => rfl, fun _ => rfl⟩
  | none =>
    cases order with
    | nil => exact absurd rfl hne
    | cons q rest =>
      have hq : q < H.length := hlive q (List.mem_cons_self _ _)
      have hfree : H.binds x q = false := by
        have := List.find?_eq_none.1 hf q (List.mem_cons_self _ _)
        simpa using this
      rw [resolveIn_create_of_none (q :: rest) H x q rfl hf]
      refine ⟨q, rfl, ?_, H.length_insertDefault q x, ?_, ?_, ?_⟩
      · simp [List.find?, Heap.binds_insertDefault H q x x q hq hfree]
      · intro n hn r
        rw [Heap.binds_insertDefault H q x n r hq hfree]
        simp [hn]
      · intro n hn r
        rw [Heap.cell_insertDefault H q x _ hq ((H.binds_eq_false_iff x q).1 hfree)]
        have : ¬ (⟨r, n⟩ : CellRef) = ⟨q, x⟩ := by
          intro h'
          injection h' with _ h2
          exact hn h2
        simp [this]
      · intro h; cases h

namespace SymbolTableStack

theorem pushAll_stack (S : SymbolTableStack) (ts : List SymbolTablePtr) :
    (S.pushAll ts).stack_ = S.stack_ ++ ts ∧ (S.pushAll ts).main_table_ = S.main_table_ := by
  induction ts generalizing S with
  | nil => simp [pushAll]
  | cons t rest ih =>
    have := ih (S.Push t false)
    simp only [pushAll, List.foldl] at this ⊢
    rw [this.1, this.2]
    simp [Push]

theorem searchOrder_live (S : SymbolTableStack) (H : Heap) (hs : S.StackLive H)
    (hm : S.MainLive H) : ∀ p ∈ S.searchOrder, p < H.length := by
  obtain ⟨m, hmain, hmlt⟩ := hm
  intro p hp
  simp only [searchOrder, hmain, Option.toList, List.mem_append, List.mem_reverse,
    List.mem_singleton] at hp
  rcases hp with hp | hp
  · exact hs p hp
  · rw [hp]; exact hmlt

theorem searchOrder_ne_nil (S : SymbolTableStack) (H : Heap) (hm : S.MainLive H) :
    S.searchOrder ≠ [] := by
  obtain ⟨m, hmain, _⟩ := hm
  simp [searchOrder, hmain]

theorem insertTarget_eq (S : SymbolTableStack) (q : SymbolTablePtr)
    (h : S.insertTarget = some q) :
    S.stack_.getLast? = some q ∨ (S.stack_ = [] ∧ S.main_table_ = some q) := by
  unfold insertTarget searchOrder at h
  cases hl : S.stack_.getLast? with
  | none =>
    have hnil : S.stack_ = [] := List.getLast?_eq_none_iff.1 hl
    right
    refine ⟨hnil, ?_⟩
    rw [hnil] at h
    cases hmn : S.main_table_ with
    | none => rw [hmn] at h; simp at h
    | some m => rw [hmn] at h; simpa using h
  | some t =>
    left
    have hne : S.stack_.reverse ≠ [] := by
      intro hnil
      rw [List.reverse_eq_nil_iff] at hnil
      rw [hnil] at hl
      cases hl
    rw [List.head?_append_of_ne_nil _ hne, List.head?_reverse, hl] at h
    exact h

end SymbolTableStack

theorem Heap.isFunc_eq (H : Heap) (p : SymbolTablePtr) :
    H.isFunc p = decide (H.typeAt p = some TableType.FUNC_TABLE) := by
  unfold Heap.isFunc Heap.typeAt
  cases H[p]? with
  | none => simp
  | some t => simp

theorem Heap.typeAt_store (H : Heap) (r : CellRef) (v : ObjectPtr) (p : SymbolTablePtr) :
    (H.store r v).typeAt p = H.typeAt p := by
  unfold Heap.store Heap.typeAt
  cases hr : H[r.table]? with
  | none => rfl
  | some t =>
    simp only
    rw [List.getElem?_set]
    split
    · rename_i h
      subst h
      split
      · simp [hr, SymbolTable.tableType]
      · rename_i hlt
        rw [List.getElem?_eq_none (Nat.le_of_not_lt hlt)] at hr
        cases hr
    · rfl

theorem Heap.typeAt_insertDefault (H : Heap) (q : SymbolTablePtr) (x : String)
    (p : SymbolTablePtr) : (H.insertDefault q x).typeAt p = H.typeAt p := by
  unfold Heap.insertDefault Heap.typeAt
  cases hr : H[q]? with
  | none => rfl
  | some t =>
    simp only
    rw [List.getElem?_set]
    split
    · rename_i h
      subst h
      split
      · simp [hr, SymbolTable.tableType]
      · rename_i hlt
        rw [List.getElem?_eq_none (Nat.le_of_not_lt hlt)] at hr
        cases hr
    · rfl

theorem resolveIn_typeAt (order : List SymbolTablePtr) (H : Heap) (x : String) (create : Bool)
    (p : SymbolTablePtr) : (resolveIn order H x create).2.typeAt p = H.typeAt p := by
  unfold resolveIn
  split
  · rfl
  · split
    · split
      · exact Heap.typeAt_insertDefault H _ x p
      · rfl
    · rfl

theorem resolveIn_length (order : List SymbolTablePtr) (H : Heap) (x : String) (create : Bool) :
    (resolveIn order H x create).2.length = H.length := by
  unfold resolveIn
  split
  · rfl
  · split
    · split
      · exact Heap.length_insertDefault H _ x
      · rfl
    · rfl

theorem bindIn_typeAt (order : List SymbolTablePtr) (H : Heap) (x : String) (v : ObjectPtr)
    (p : SymbolTablePtr) : (bindIn order H x v).typeAt p = H.typeAt p := by
  unfold bindIn
  split
  · rw [Heap.typeAt_store, resolveIn_typeAt]
  · rw [resolveIn_typeAt]

theorem bindIn_length (order : List SymbolTablePtr) (H : Heap) (x : String) (v : ObjectPtr) :
    (bindIn order H x v).length = H.length := by
  unfold bindIn
  split
  · rw [Heap.length_store, resolveIn_length]
  · rw [resolveIn_length]

namespace SymbolTableStack

theorem HasFuncTable_eq (H : Heap) (l : List SymbolTablePtr) (hl : ∀ p ∈ l, p < H.length) :
    l.foldr
      (fun p acc =>
        match H[p]? with
        | none => .error Fault.undefined
        | some t => if t.tableType = TableType.FUNC_TABLE then .ok true else acc)
      (.ok false) = (.ok (l.any H.isFunc) : Except Fault Bool) := by
  induction l with
  | nil => rfl
  | cons p rest ih =>
    obtain ⟨t, ht⟩ := H.getElem?_of_lt p (hl p (List.mem_cons_self _ _))
    simp only [List.foldr, ht, List.any_cons]
    rw [ih (fun q hq => hl q (List.mem_cons_of_mem _ hq))]
    by_cases hf : t.tableType = TableType.FUNC_TABLE
    · simp [hf, Heap.isFunc, ht]
    · simp [hf, Heap.isFunc, ht]

theorem topFuncTable_eq (H : Heap) (l : List SymbolTablePtr) (hl : ∀ p ∈ l, p < H.length) :
    topFuncTable H l =
      .ok ((l.find? H.isFunc).bind (fun p => (H[p]?).map (fun t => (p, t)))) := by
  induction l with
  | nil => rfl
  | cons p rest ih =>
    obtain ⟨t, ht⟩ := H.getElem?_of_lt p (hl p (List.mem_cons_self _ _))
    unfold topFuncTable
    rw [ht]
    simp only
    by_cases hf : t.tableType = TableType.FUNC_TABLE
    · have hb : H.isFunc p = true := by simp [Heap.isFunc, ht, hf]
      simp [hf, List.find?, hb, ht]
    · have hb : H.isFunc p = false := by simp [Heap.isFunc, ht, hf]
      simp [hf, List.find?, hb, ih (fun q hq => hl q (List.mem_cons_of_mem _ hq))]

end SymbolTableStack

/-! ### Binding names over a list of tables -/

theorem valueIn_bindIn_same (order : List SymbolTablePtr) (H : Heap) (x : String)
    (v : ObjectPtr) (hlive : ∀ p ∈ order, p < H.length) (hne : order ≠ []) :
    valueIn order (bindIn order H x v) x = some v := by
  obtain ⟨p, hres, hfind, -, -, -, -⟩ := find_after_resolveIn order H x hlive hne
  have hbp : (resolveIn order H x true).2.binds x p = true := List.find?_some hfind
  obtain ⟨a, ha⟩ := (Heap.binds_iff _ x p).1 hbp
  unfold valueIn bindIn
  rw [hres]
  simp only
  have : order.find? (((resolveIn order H x true).2.store ⟨p, x⟩ v).binds x) = some p := by
    rw [find?_congr_mem order _ ((resolveIn order H x true).2.binds x)]
    · exact hfind
    · intro q _
      rw [Heap.binds_store]
  rw [this]
  exact Heap.valueAt_store_same _ ⟨p, x⟩ v a ha

theorem valueIn_bindIn_other (order R : List SymbolTablePtr) (H : Heap) (x y : String)
    (v : ObjectPtr) (hlive : ∀ p ∈ order, p < H.length) (hne : order ≠ []) (hxy : y ≠ x) :
    valueIn R (bindIn order H x v) y = valueIn R H y := by
  obtain ⟨p, hres, -, -, hbinds, hcell, -⟩ := find_after_resolveIn order H x hlive hne
  unfold valueIn bindIn
  rw [hres]
  simp only
  have hb : ∀ q, ((resolveIn order H x true).2.store ⟨p, x⟩ v).binds y q = H.binds y q := by
    intro q
    rw [Heap.binds_store, hbinds y hxy q]
  have hfun : ((resolveIn order H x true).2.store ⟨p, x⟩ v).binds y = H.binds y := funext hb
  rw [hfun]
  cases R.find? (H.binds y) with
  | none => rfl
  | some q =>
    simp only [Option.bind, Heap.valueAt]
    have hne' : (⟨q, y⟩ : CellRef) ≠ ⟨p, x⟩ := by
      intro h
      injection h with _ h2
      exact hxy h2
    rw [Heap.cell_store_other _ _ _ v hne', hcell y hxy q]

theorem bindIn_of_valueIn (order : List SymbolTablePtr) (H : Heap) (x : String)
    (v : ObjectPtr) (h : valueIn order H x = some v) : bindIn order H x v = H := by
  unfold valueIn at h
  cases hf : order.find? (H.binds x) with
  | none => rw [hf] at h; cases h
  | some p =>
    rw [hf] at h
    unfold bindIn
    rw [resolveIn_of_find order H x true p hf]
    exact Heap.store_same_value H ⟨p, x⟩ v h

theorem resolveIn_of_valueIn (order : List SymbolTablePtr) (H : Heap) (x : String)
    (v : ObjectPtr) (h : valueIn order H x = some v) :
    ∃ ref, resolveIn order H x false = (.ok ref, H) ∧ H.valueAt ref.table ref.name = some v := by
  unfold valueIn at h
  cases hf : order.find? (H.binds x) with
  | none => rw [hf] at h; cases h
  | some p =>
    rw [hf] at h
    exact ⟨⟨p, x⟩, resolveIn_of_find order H x false p hf, h⟩

theorem valueIn_of_resolveIn (order : List SymbolTablePtr) (H : Heap) (x : String)
    (v : ObjectPtr) (ref : CellRef) (h1 : resolveIn order H x false = (.ok ref, H))
    (h2 : H.valueAt ref.table ref.name = some v) : valueIn order H x = some v := by
  unfold valueIn
  cases hf : order.find? (H.binds x) with
  | none =>
    rw [resolveIn_fail_of_none order H x hf] at h1
    cases h1
  | some p =>
    rw [resolveIn_of_find order H x false p hf] at h1
    cases h1
    exact h2

section Engine

variable {ω : Type}

theorem setTables_wellFormed (m : Machine ω) (H : Heap) (hwf : m.st.WellFormed)
    (hlen : H.length = m.st.tables.length) : (m.setTables H).st.WellFormed := by
  obtain ⟨hs, hm⟩ := hwf
  constructor
  · intro p hp
    show p < H.length
    rw [hlen]
    exact hs p hp
  · obtain ⟨mm, h1, h2⟩ := hm
    refine ⟨mm, h1, ?_⟩
    show mm < H.length
    rw [hlen]
    exact h2

end Engine

theorem unpackSizeMsg_ne (a b : Nat) : unpackSizeMsg a b ≠ "different size of tuples" := by
  intro h
  have := congrArg String.data h
  simp [unpackSizeMsg, String.data_append] at this

theorem symbolNotFound_ne (x : String) :
    Fault.thrown (SymbolTableStack.symbolNotFound x) ≠ Fault.thrown tupleSizeError := by
  intro h
  injection h with h
  have := congrArg RunTimeError.err_code h
  simp [SymbolTableStack.symbolNotFound, tupleSizeError] at this

namespace SymbolTableStack

theorem search_ne_thrown (H : Heap) (name : String) (e : RunTimeError) (l : List SymbolTablePtr) :
    search H name l ≠ .error (Fault.thrown e) := by
  induction l with
  | nil => simp [search]
  | cons p rest ih =>
    unfold search
    split
    · simp
    · split
      · simp
      · exact ih

theorem topFuncTable_ne_thrown (H : Heap) (e : RunTimeError) (l : List SymbolTablePtr) :
    topFuncTable H l ≠ .error (Fault.thrown e) := by
  induction l with
  | nil => simp [topFuncTable]
  | cons p rest ih =>
    unfold topFuncTable
    split
    · simp
    · split
      · simp
      · exact ih

theorem HasFuncTable_ne_thrown (S : SymbolTableStack) (H : Heap) (e : RunTimeError) :
    S.HasFuncTable H ≠ .error (Fault.thrown e) := by
  unfold HasFuncTable
  induction S.stack_ with
  | nil => simp
  | cons p rest ih =>
    simp only [List.foldr]
    split
    · simp
    · split
      · simp
      · exact ih

theorem Lookup_ne_tupleSize (S : SymbolTableStack) (H : Heap) (x : String) (create : Bool) :
    (S.Lookup H x create).1 ≠ .error (Fault.thrown tupleSizeError) := by
  unfold Lookup
  split
  · rename_i f hf
    intro h
    simp only [Except.error.injEq] at h
    rw [h] at hf
    exact search_ne_thrown H x _ _ hf
  · simp
  · split
    · simp
    · split
      · simp
      · split
        · split
          · split <;> simp
          · simp
        · intro h
          simp only [Except.error.injEq] at h
          exact symbolNotFound_ne x h

theorem LookupFuncRef_ne_tupleSize (S : SymbolTableStack) (H : Heap) (x : String)
    (create : Bool) : (S.LookupFuncRef H x create).1 ≠ .error (Fault.thrown tupleSizeError) := by
  unfold LookupFuncRef
  split
  · rename_i f hf
    intro h
    simp only [Except.error.injEq] at h
    rw [h] at hf
    exact search_ne_thrown H x _ _ hf
  · simp
  · split
    · rename_i f hf
      intro h
      simp only [Except.error.injEq] at h
      rw [h] at hf
      exact topFuncTable_ne_thrown H _ _ hf
    · intro h
      simp only [Except.error.injEq] at h
      exact symbolNotFound_ne x h
    · split
      · simp
      · intro h
        simp only [Except.error.injEq] at h
        exact symbolNotFound_ne x h

theorem targetRef_ne_tupleSize (S : SymbolTableStack) (H : Heap) (x : String) (create : Bool) :
    (S.targetRef H x create).1 ≠ .error (Fault.thrown tupleSizeError) := by
  unfold targetRef
  split
  · rename_i f hf
    intro h
    simp only [Except.error.injEq] at h
    rw [h] at hf
    exact HasFuncTable_ne_thrown S H _ hf
  · exact LookupFuncRef_ne_tupleSize S H x create
  · exact Lookup_ne_tupleSize S H x create

end SymbolTableStack

section Engine

variable {ω : Type}

theorem raise_ne_tupleSize {α : Type} (code : ErrorCode) (msg : String) (m : Machine ω)
    (h : msg ≠ "different size of tuples") :
    (raise code msg m : Except Fault α × Machine ω).1 ≠ .error (Fault.thrown tupleSizeError) := by
  intro h'
  simp only [raise, Except.error.injEq, Fault.thrown.injEq] at h'
  exact h (congrArg RunTimeError.msg h')

theorem assignOpToRef_ne_tupleSize (env : Collaborators ω) (henv : env.NeverRaise tupleSizeError)
    (op : BinOp) (ref : CellRef) (value : ObjectPtr) (m : Machine ω) :
    (assignOpToRef env op ref value m).1 ≠ .error (Fault.thrown tupleSizeError) := by
  unfold assignOpToRef
  split
  · simp
  · split
    · simp
    · rename_i self _
      split
      · rename_i f m1 hc
        intro h
        simp only [Except.error.injEq] at h
        have h1 := congrArg Prod.fst hc
        simp only [Machine.call] at h1
        rw [h] at h1
        exact henv.2.2.1 op self value m.st h1
      · simp

theorem AssignToRef_ne_tupleSize (env : Collaborators ω) (henv : env.NeverRaise tupleSizeError)
    (ref : CellRef) (value : ObjectPtr) (token : TokenKind) (m : Machine ω) :
    (AssignToRef env ref value token m).1 ≠ .error (Fault.thrown tupleSizeError) := by
  cases token <;>
    first
    | exact assignOpToRef_ne_tupleSize env henv _ ref value m
    | (simp only [AssignToRef]; exact raise_ne_tupleSize _ _ m (by decide))
    | simp [AssignToRef]

theorem assignToItem_ne_tupleSize (env : Collaborators ω) (henv : env.NeverRaise tupleSizeError)
    (arr index value : ObjectPtr) (m : Machine ω) :
    (assignToItem env arr index value m).1 ≠ .error (Fault.thrown tupleSizeError) := by
  unfold assignToItem
  split
  · simp
  · rename_i a
    exact henv.2.2.2.2.1 a index value m.st

theorem assignOpToArray_ne_tupleSize (env : Collaborators ω)
    (henv : env.NeverRaise tupleSizeError) (op : BinOp) (arr index value : ObjectPtr)
    (m : Machine ω) :
    (assignOpToArray env op arr index value m).1 ≠ .error (Fault.thrown tupleSizeError) := by
  unfold assignOpToArray
  split
  · simp
  · rename_i a
    split
    · rename_i f m1 hc
      intro h
      simp only [Except.error.injEq] at h
      have h1 := congrArg Prod.fst hc
      simp only [Machine.call] at h1
      rw [h] at h1
      exact henv.2.2.2.1 a index m.st h1
    · simp
    · rename_i item m1 _
      split
      · rename_i f m2 hc
        intro h
        simp only [Except.error.injEq] at h
        have h1 := congrArg Prod.fst hc
        simp only [Machine.call] at h1
        rw [h] at h1
        exact henv.2.2.1 op item value m1.st h1
      · rename_i r m2 _
        exact henv.2.2.2.2.1 a index r m2.st

theorem AssignToArray_ne_tupleSize (env : Collaborators ω)
    (henv : env.NeverRaise tupleSizeError) (arr index value : ObjectPtr) (token : TokenKind)
    (m : Machine ω) :
    (AssignToArray env arr index value token m).1 ≠ .error (Fault.thrown tupleSizeError) := by
  cases token <;>
    first
    | exact assignOpToArray_ne_tupleSize env henv _ arr index value m
    | exact assignToItem_ne_tupleSize env henv arr index value m
    | (simp only [AssignToArray]; exact raise_ne_tupleSize _ _ m (by decide))

theorem unpackLoop_ne_tupleSize (env : Collaborators ω) (henv : env.NeverRaise tupleSizeError)
    (it : Nat) (fuel : Nat) (acc : List ObjectPtr) (m : Machine ω) :
    (unpackLoop env it fuel acc m).1 ≠ .error (Fault.thrown tupleSizeError) := by
  induction fuel generalizing acc m with
  | zero => simp [unpackLoop]
  | succ fuel ih =>
    unfold unpackLoop
    split
    · rename_i f m1 hc
      intro h
      simp only [Except.error.injEq] at h
      have h1 := congrArg Prod.fst hc
      simp only [Machine.call] at h1
      rw [h] at h1
      exact henv.2.2.2.2.2.2.1 it m.st h1
    · rename_i hno m1 _
      split
      · simp
      · split
        · exact raise_ne_tupleSize _ _ m1 (by decide)
        · split
          · split
            · rename_i f m2 hc
              intro h
              simp only [Except.error.injEq] at h
              have h1 := congrArg Prod.fst hc
              simp only [Machine.call] at h1
              rw [h] at h1
              exact henv.2.2.2.2.2.2.2 it m1.st h1
            · exact ih _ _
          · simp

theorem Unpack_ne_tupleSize (env : Collaborators ω) (henv : env.NeverRaise tupleSizeError)
    (fuel : Nat) (obj : ObjectPtr) (m : Machine ω) :
    (Unpack env fuel obj m).1 ≠ .error (Fault.thrown tupleSizeError) := by
  unfold Unpack
  split
  · simp
  · rename_i a o _
    split
    · simp
    · simp
    · split
      · rename_i f m1 hc
        intro h
        simp only [Except.error.injEq] at h
        have h1 := congrArg Prod.fst hc
        simp only [Machine.call] at h1
        rw [h] at h1
        exact henv.2.2.2.2.2.1 a m.st h1
      · simp
      · exact unpackLoop_ne_tupleSize env henv _ fuel [] _

theorem AssignIdentifier_ne_tupleSize (env : Collaborators ω)
    (henv : env.NeverRaise tupleSizeError) (x : String) (value : ObjectPtr) (token : TokenKind)
    (create : Bool) (m : Machine ω) :
    (AssignIdentifier env x value token create m).1 ≠ .error (Fault.thrown tupleSizeError) := by
  unfold AssignIdentifier
  split
  · rename_i f H hc
    intro h
    simp only [Except.error.injEq] at h
    have h1 := congrArg Prod.fst hc
    simp only at h1
    rw [h] at h1
    exact SymbolTableStack.targetRef_ne_tupleSize _ _ x create h1
  · exact AssignToRef_ne_tupleSize env henv _ value token _

theorem AssignAtrribute_ne_tupleSize (env : Collaborators ω)
    (henv : env.NeverRaise tupleSizeError) (e : Expression) (id : String) (value : ObjectPtr)
    (token : TokenKind) (m : Machine ω) :
    (AssignAtrribute env e id value token m).1 ≠ .error (Fault.thrown tupleSizeError) := by
  unfold AssignAtrribute
  split
  · rename_i f m1 hc
    intro h
    simp only [Except.error.injEq] at h
    have h1 := congrArg Prod.fst hc
    simp only [Machine.call] at h1
    rw [h] at h1
    exact henv.1 e none m.st h1
  · simp
  · rename_i exp_obj m1 _
    split
    · rename_i f m2 hc
      intro h
      simp only [Except.error.injEq] at h
      have h1 := congrArg Prod.fst hc
      simp only [Machine.call] at h1
      rw [h] at h1
      exact henv.2.1 exp_obj id m1.st h1
    · exact AssignToRef_ne_tupleSize env henv _ value token _

theorem AssignArray_ne_tupleSize (env : Collaborators ω)
    (henv : env.NeverRaise tupleSizeError) (e1 e2 : Expression) (value : ObjectPtr)
    (token : TokenKind) (m : Machine ω) :
    (AssignArray env e1 e2 value token m).1 ≠ .error (Fault.thrown tupleSizeError) := by
  unfold AssignArray
  split
  · rename_i f m1 hc
    intro h
    simp only [Except.error.injEq] at h
    have h1 := congrArg Prod.fst hc
    simp only [Machine.call] at h1
    rw [h] at h1
    exact henv.1 e1 (some true) m.st h1
  · rename_i arr_obj m1 _
    split
    · rename_i f m2 hc
      intro h
      simp only [Except.error.injEq] at h
      have h1 := congrArg Prod.fst hc
      simp only [Machine.call] at h1
      rw [h] at h1
      exact henv.1 e2 (some true) m1.st h1
    · exact AssignToArray_ne_tupleSize env henv _ _ value token _

mutual

theorem AssignmentAcceptorExpr_ne_tupleSize (env : Collaborators ω)
    (henv : env.NeverRaise tupleSizeError) (fuel : Nat) :
    ∀ (e : Expression) (value : ObjectPtr) (token : TokenKind) (m : Machine ω),
      (AssignmentAcceptorExpr env fuel e value token m).1 ≠ .error (Fault.thrown tupleSizeError)
  | .Identifier x, value, token, m => by
    simp only [AssignmentAcceptorExpr]
    exact AssignIdentifier_ne_tupleSize env henv x value token true m
  | .Array e1 e2, value, token, m => by
    simp only [AssignmentAcceptorExpr]
    exact AssignArray_ne_tupleSize env henv e1 e2 value token m
  | .Attribute e id, value, token, m => by
    simp only [AssignmentAcceptorExpr]
    exact AssignAtrribute_ne_tupleSize env henv e id value token m
  | .TupleInstantiation lvalues, value, token, m => by
    simp only [AssignmentAcceptorExpr]
    split
    · exact raise_ne_tupleSize _ _ m (by decide)
    · split
      · rename_i f m1 hc
        intro h
        simp only [Except.error.injEq] at h
        have h1 := congrArg Prod.fst hc
        simp only at h1
        rw [h] at h1
        exact Unpack_ne_tupleSize env henv fuel value m h1
      · split
        · exact raise_ne_tupleSize _ _ _ (unpackSizeMsg_ne _ _)
        · exact assignEach_ne_tupleSize env henv fuel lvalues _ token _
  | .ArrayInstantiation lvalues, value, token, m => by
    simp only [AssignmentAcceptorExpr]
    split
    · exact raise_ne_tupleSize _ _ m (by decide)
    · split
      · rename_i f m1 hc
        intro h
        simp only [Except.error.injEq] at h
        have h1 := congrArg Prod.fst hc
        simp only at h1
        rw [h] at h1
        exact Unpack_ne_tupleSize env henv fuel value m h1
      · split
        · exact raise_ne_tupleSize _ _ _ (unpackSizeMsg_ne _ _)
        · exact assignEach_ne_tupleSize env henv fuel lvalues _ token _
  | .Other k, value, token, m => by
    simp only [AssignmentAcceptorExpr]
    exact raise_ne_tupleSize _ _ m (by decide)

theorem assignEach_ne_tupleSize (env : Collaborators ω)
    (henv : env.NeverRaise tupleSizeError) (fuel : Nat) :
    ∀ (es : List Expression) (vs : List ObjectPtr) (token : TokenKind) (m : Machine ω),
      (assignEach env fuel es vs token m).1 ≠ .error (Fault.thrown tupleSizeError)
  | [], vs, token, m => by simp [assignEach]
  | _ :: _, [], token, m => by simp [assignEach]
  | e :: es, v :: vs, token, m => by
    simp only [assignEach]
    split
    · rename_i f m1 hc
      intro h
      simp only [Except.error.injEq] at h
      have h1 := congrArg Prod.fst hc
      simp only at h1
      rw [h] at h1
      exact AssignmentAcceptorExpr_ne_tupleSize env henv fuel e v token m h1
    · exact assignEach_ne_tupleSize env henv fuel es vs token _

end

theorem Machine.setTables_self (m : Machine ω) : m.setTables m.st.tables = m := rfl

theorem boundTo_of_valueIn (s : Store ω) (x : String) (v : ObjectPtr) (hwf : s.WellFormed)
    (h : valueIn s.stack.searchOrder s.tables x = some v) : s.boundTo x v := by
  unfold Store.boundTo
  rw [SymbolTableStack.Lookup_eq_resolveIn s.stack s.tables x false hwf.1 hwf.2]
  exact resolveIn_of_valueIn _ _ x v h

theorem valueIn_of_boundTo (s : Store ω) (x : String) (v : ObjectPtr) (hwf : s.WellFormed)
    (h : s.boundTo x v) : valueIn s.stack.searchOrder s.tables x = some v := by
  obtain ⟨ref, h1, h2⟩ := h
  rw [SymbolTableStack.Lookup_eq_resolveIn s.stack s.tables x false hwf.1 hwf.2] at h1
  exact valueIn_of_resolveIn _ _ x v ref h1 h2

end Engine

/-- C1: on a stack whose main table is alive (and whose stack pointers own
their tables), `Lookup(n, create = true)` returns a cell and does not fail; once
an object `v` is stored through that cell, `Lookup(n, create = false)` returns
the same cell, holding `v`, on the same stack and on the stack after any number
of tables that do not bind `n` were pushed (tables of the heap or new ones). -/
theorem lookup_create_then_store_observed (S : SymbolTableStack) (H : Heap) (n : String)
    (v : ObjectPtr) (hs : S.StackLive H) (hm : S.MainLive H) :
    ∃ ref, (S.Lookup H n true).1 = .ok ref ∧
      ∀ H2, H2 = (S.Lookup H n true).2.store ref v →
        (S.Lookup H2 n false = (.ok ref, H2) ∧ H2.valueAt ref.table ref.name = some v) ∧
        ∀ (extra : Heap) (ts : List SymbolTablePtr),
          (∀ t ∈ ts, t < (H2 ++ extra).length ∧ (H2 ++ extra).binds n t = false) →
          (S.pushAll ts).Lookup (H2 ++ extra) n false = (.ok ref, H2 ++ extra) ∧
            (H2 ++ extra).valueAt ref.table ref.name = some v := by
  have hlive := S.searchOrder_live H hs hm
  have hne := S.searchOrder_ne_nil H hm
  rw [SymbolTableStack.Lookup_eq_resolveIn S H n true hs hm]
  obtain ⟨p, hres, hfind, hlen, -, -, -⟩ := find_after_resolveIn S.searchOrder H n hlive hne
  refine ⟨⟨p, n⟩, hres, ?_⟩
  intro H2 hH2
  have hbp : (resolveIn S.searchOrder H n true).2.binds n p = true := List.find?_some hfind
  obtain ⟨a, ha⟩ := (Heap.binds_iff _ n p).1 hbp
  have hlen2 : H2.length = H.length := by rw [hH2, Heap.length_store, hlen]
  have hplt : p < H2.length := by
    rw [hlen2, ← hlen]; exact Heap.lt_of_binds _ n p hbp
  have hval : H2.valueAt p n = some v := by
    rw [hH2]; exact Heap.valueAt_store_same _ ⟨p, n⟩ v a ha
  have hgen : ∀ (extra : Heap) (ts : List SymbolTablePtr),
      (∀ t ∈ ts, t < (H2 ++ extra).length ∧ (H2 ++ extra).binds n t = false) →
      (S.pushAll ts).Lookup (H2 ++ extra) n false = (.ok ⟨p, n⟩, H2 ++ extra) ∧
        (H2 ++ extra).valueAt p n = some v := by
    intro extra ts hts
    obtain ⟨hst, hmt⟩ := S.pushAll_stack ts
    have hs' : (S.pushAll ts).StackLive (H2 ++ extra) := by
      intro q hq
      rw [hst] at hq
      rcases List.mem_append.1 hq with hq | hq
      · have := hs q hq
        rw [List.length_append, hlen2]
        exact Nat.lt_of_lt_of_le this (Nat.le_add_right _ _)
      · exact (hts q hq).1
    have hm' : (S.pushAll ts).MainLive (H2 ++ extra) := by
      obtain ⟨m, hmain, hmlt⟩ := hm
      refine ⟨m, by rw [hmt]; exact hmain, ?_⟩
      rw [List.length_append, hlen2]
      exact Nat.lt_of_lt_of_le hmlt (Nat.le_add_right _ _)
    rw [SymbolTableStack.Lookup_eq_resolveIn _ _ n false hs' hm']
    have hord : (S.pushAll ts).searchOrder = ts.reverse ++ S.searchOrder := by
      simp [SymbolTableStack.searchOrder, hst, hmt]
    have hfind' : (S.pushAll ts).searchOrder.find? ((H2 ++ extra).binds n) = some p := by
      rw [hord, List.find?_append]
      have h1 : ts.reverse.find? ((H2 ++ extra).binds n) = none := by
        rw [List.find?_eq_none]
        intro t ht
        simp [(hts t (List.mem_reverse.1 ht)).2]
      rw [h1]
      simp only [Option.none_or]
      rw [find?_congr_mem S.searchOrder ((H2 ++ extra).binds n)
        ((resolveIn S.searchOrder H n true).2.binds n)]
      · exact hfind
      · intro q hq
        have hq' : q < H2.length := by rw [hlen2]; exact hlive q hq
        rw [Heap.binds_append H2 extra n q hq', hH2, Heap.binds_store]
    refine ⟨resolveIn_of_find _ _ n false p hfind', ?_⟩
    unfold Heap.valueAt
    rw [Heap.cell_append H2 extra ⟨p, n⟩ hplt]
    exact hval
  refine ⟨?_, hgen⟩
  have := hgen [] [] (by intro t ht; cases ht)
  simpa [SymbolTableStack.pushAll] using this

/-- Witness of C1 on the example stack: `z` is created in the inner scope. -/
theorem lookup_create_then_store_observed_witness :
    (exStack.StackLive exHeap ∧ exStack.MainLive exHeap) ∧
    ∃ ref, (exStack.Lookup exHeap "z" true).1 = .ok ref ∧
      ∀ H2, H2 = (exStack.Lookup exHeap "z" true).2.store ref (some 9) →
        (exStack.Lookup H2 "z" false = (.ok ref, H2) ∧
          H2.valueAt ref.table ref.name = some (some 9)) ∧
        ∀ (extra : Heap) (ts : List SymbolTablePtr),
          (∀ t ∈ ts, t < (H2 ++ extra).length ∧ (H2 ++ extra).binds "z" t = false) →
          (exStack.pushAll ts).Lookup (H2 ++ extra) "z" false = (.ok ref, H2 ++ extra) ∧
            (H2 ++ extra).valueAt ref.table ref.name = some (some 9) :=
  ⟨⟨by decide, ⟨0, rfl, by decide⟩⟩,
    lookup_create_then_store_observed exStack exHeap "z" (some 9) (by decide)
      ⟨0, rfl, by decide⟩⟩

/-- C2: `Lookup` returns the cell of the first table that binds the name in the
order top of the stack, ..., bottom of the stack, main table, and changes
nothing: a binding in a table of the stack shadows the bindings of all tables
below it and of main, and a binding that exists only in main is returned
whatever its global flag. -/
theorem lookup_returns_first_binder (S : SymbolTableStack) (H : Heap) (name : String)
    (create : Bool) (hs : S.StackLive H) :
    (∀ p, S.firstBinder H name = some p → S.Lookup H name create = (.ok ⟨p, name⟩, H)) ∧
    (∀ below above p, S.stack_ = below ++ p :: above → H.binds name p = true →
      (∀ t ∈ above, H.binds name t = false) →
      S.Lookup H name create = (.ok ⟨p, name⟩, H)) ∧
    (∀ m a, (∀ t ∈ S.stack_, H.binds name t = false) → S.main_table_ = some m →
      H.cell ⟨m, name⟩ = some a → S.Lookup H name create = (.ok ⟨m, name⟩, H)) := by
  have key : ∀ p, S.firstBinder H name = some p →
      S.Lookup H name create = (.ok ⟨p, name⟩, H) := by
    intro p hp
    cases hsb : S.stackBinder H name with
    | some q =>
      obtain ⟨a, _, hsearch⟩ := SymbolTableStack.search_stack_some S H name q hs hsb
      rw [SymbolTableStack.firstBinder_of_stackBinder S H name q hsb] at hp
      cases hp
      unfold SymbolTableStack.Lookup
      rw [hsearch]
    | none =>
      rw [SymbolTableStack.firstBinder_of_stackBinder_none S H name hsb] at hp
      cases hmn : S.main_table_ with
      | none => rw [hmn] at hp; simp at hp
      | some m =>
        rw [hmn] at hp
        simp only [Option.toList, List.find?] at hp
        cases hb : H.binds name m with
        | false => rw [hb] at hp; cases hp
        | true =>
          rw [hb] at hp
          simp only [Option.some.injEq] at hp
          subst hp
          have hm : S.MainLive H := ⟨m, hmn, Heap.lt_of_binds H name m hb⟩
          rw [SymbolTableStack.Lookup_eq_resolveIn S H name create hs hm]
          apply resolveIn_of_find
          change S.firstBinder H name = some m
          rw [SymbolTableStack.firstBinder_of_stackBinder_none S H name hsb, hmn]
          simp [List.find?, hb]
  refine ⟨key, ?_, ?_⟩
  · intro below above p hst hb habove
    apply key
    unfold SymbolTableStack.firstBinder SymbolTableStack.searchOrder
    rw [hst, List.reverse_append, List.reverse_cons, List.append_assoc, List.append_assoc,
      List.find?_append]
    have h1 : above.reverse.find? (H.binds name) = none := by
      rw [List.find?_eq_none]
      intro t ht
      simp [habove t (List.mem_reverse.1 ht)]
    rw [h1]
    simp [List.find?, hb]
  · intro m a hstack hmn ha
    apply key
    unfold SymbolTableStack.firstBinder SymbolTableStack.searchOrder
    rw [List.find?_append]
    have h1 : S.stack_.reverse.find? (H.binds name) = none := by
      rw [List.find?_eq_none]
      intro t ht
      simp [hstack t (List.mem_reverse.1 ht)]
    have hb : H.binds name m = true := (H.binds_iff name m).2 ⟨a, ha⟩
    rw [h1, hmn]
    simp [List.find?, hb]

/-- Witness of C2 on the example stack: the inner `x` shadows the outer one,
and `l`, bound only in main with `global = false`, is found in main. -/
theorem lookup_returns_first_binder_witness :
    exStack.StackLive exHeap ∧
    exStack.Lookup exHeap "x" false = (.ok ⟨2, "x"⟩, exHeap) ∧
    exStack.Lookup exHeap "l" false = (.ok ⟨0, "l"⟩, exHeap) :=
  ⟨by decide,
    (lookup_returns_first_binder exStack exHeap "x" false (by decide)).1 2 rfl,
    (lookup_returns_first_binder exStack exHeap "l" false (by decide)).2.2 0 ⟨some 1, false⟩
      (by decide) rfl rfl⟩

/-- C3: `LookupObj(name)` returns `(obj, true)` with `obj` the binding of the
topmost table of the stack that binds the name when there is one; otherwise it
returns `(main's binding, true)` when main binds the name with `global = true`,
and `(null, false)` when main does not bind it or binds it with
`global = false` (main being alive).  It never throws (so never
`SymbolNotFound`) and leaves every table as it was. -/
theorem lookupObj_spec (S : SymbolTableStack) (H : Heap) (name : String)
    (hs : S.StackLive H) :
    (∀ p a, S.stackBinder H name = some p → H.cell ⟨p, name⟩ = some a →
      S.LookupObj H name = (.ok (a.value_, true), H)) ∧
    (S.stackBinder H name = none → S.MainLive H → ∀ m, S.main_table_ = some m →
      (∀ a, H.cell ⟨m, name⟩ = some a → a.global_ = true →
        S.LookupObj H name = (.ok (a.value_, true), H)) ∧
      ((∀ a, H.cell ⟨m, name⟩ = some a → a.global_ = false) →
        S.LookupObj H name = (.ok (none, false), H))) ∧
    (∀ e, (S.LookupObj H name).1 ≠ .error (Fault.thrown e)) ∧
    (S.LookupObj H name).2 = H := by
  refine ⟨?_, ?_, ?_, ?_⟩
  · intro p a hsb ha
    obtain ⟨a', ha', hsearch⟩ := SymbolTableStack.search_stack_some S H name p hs hsb
    rw [ha] at ha'
    cases ha'
    unfold SymbolTableStack.LookupObj
    rw [hsearch]
    rfl
  · intro hsb hm m hmn
    obtain ⟨m', hmn', hmlt⟩ := hm
    rw [hmn] at hmn'
    cases hmn'
    obtain ⟨tm, htm⟩ := H.getElem?_of_lt m hmlt
    have hcell : H.cell ⟨m, name⟩ = tm.Lookup name := by simp [Heap.cell, htm]
    unfold SymbolTableStack.LookupObj
    rw [SymbolTableStack.search_stack_none S H name hs hsb]
    simp only [SymbolTableStack.lockMain, hmn, htm]
    rw [hcell]
    constructor
    · intro a ha hg
      rw [ha]
      simp [SymbolAttr.global, hg, SymbolAttr.SharedAccess]
    · intro hall
      cases hlk : tm.Lookup name with
      | none => rfl
      | some a => simp [SymbolAttr.global, hall a hlk]
  · intro e
    unfold SymbolTableStack.LookupObj
    have hsr : ∀ l, SymbolTableStack.search H name l ≠ .error (Fault.thrown e) := by
      intro l
      induction l with
      | nil => simp [SymbolTableStack.search]
      | cons p rest ih =>
        unfold SymbolTableStack.search
        split
        · simp
        · split
          · simp
          · exact ih
    split
    · rename_i f hf
      intro h
      simp only [Except.error.injEq] at h
      rw [h] at hf
      exact hsr _ hf
    · simp
    · split
      · simp
      · split
        · split <;> simp
        · simp
  · unfold SymbolTableStack.LookupObj
    split
    · rfl
    · rfl
    · split
      · rfl
      · split
        · split <;> rfl
        · rfl

/-- Witness of C3 on the example stack: the inner `x` is read from the stack,
the global `g` from main, and the non-global `l` of main is not read. -/
theorem lookupObj_spec_witness :
    exStack.StackLive exHeap ∧
    exStack.LookupObj exHeap "x" = (.ok (some 3, true), exHeap) ∧
    exStack.LookupObj exHeap "g" = (.ok (some 0, true), exHeap) ∧
    exStack.LookupObj exHeap "l" = (.ok (none, false), exHeap) :=
  ⟨by decide,
    (lookupObj_spec exStack exHeap "x" (by decide)).1 2 ⟨some 3, false⟩ rfl rfl,
    ((lookupObj_spec exStack exHeap "g" (by decide)).2.1 rfl ⟨0, rfl, by decide⟩ 0 rfl).1
      ⟨some 0, true⟩ rfl rfl,
    ((lookupObj_spec exStack exHeap "l" (by decide)).2.1 rfl ⟨0, rfl, by decide⟩ 0 rfl).2
      (fun a ha => by cases ha; rfl)⟩

/-- C4: on a stack whose main table is alive, when no table of the stack and
not main binds the name, `Lookup(name, create = false)` fails with
`SymbolNotFound` and leaves every table unchanged (the stack and the main
pointer are not written by `Lookup`); and `SymbolNotFound`, raised without
`create`, is the only failure of `Lookup`. -/
theorem lookup_unbound_fails (S : SymbolTableStack) (H : Heap) (name : String)
    (hs : S.StackLive H) (hm : S.MainLive H) :
    (S.firstBinder H name = none →
      S.Lookup H name false =
        (.error (Fault.thrown ⟨ErrorCode.SYMBOL_NOT_FOUND, "symbol " ++ name ++ " not found"⟩),
          H)) ∧
    (∀ create f, (S.Lookup H name create).1 = .error f →
      f = Fault.thrown ⟨ErrorCode.SYMBOL_NOT_FOUND, "symbol " ++ name ++ " not found"⟩ ∧
        create = false ∧ (S.Lookup H name create).2 = H) := by
  constructor
  · intro h
    rw [SymbolTableStack.Lookup_eq_resolveIn S H name false hs hm]
    exact resolveIn_fail_of_none _ H name h
  · intro create f hf
    rw [SymbolTableStack.Lookup_eq_resolveIn S H name create hs hm] at hf ⊢
    cases hfb : S.searchOrder.find? (H.binds name) with
    | some p =>
      rw [resolveIn_of_find _ H name create p hfb] at hf
      cases hf
    | none =>
      cases create with
      | false =>
        rw [resolveIn_fail_of_none _ H name hfb] at hf ⊢
        simp only [Except.error.injEq] at hf
        exact ⟨hf.symm, rfl, rfl⟩
      | true =>
        obtain ⟨p, hres, -⟩ := find_after_resolveIn S.searchOrder H name
          (S.searchOrder_live H hs hm) (S.searchOrder_ne_nil H hm)
        rw [hres] at hf
        cases hf

/-- Witness of C4 on the example stack: `nope` is bound nowhere. -/
theorem lookup_unbound_fails_witness :
    (exStack.StackLive exHeap ∧ exStack.MainLive exHeap) ∧
    exStack.Lookup exHeap "nope" false =
      (.error (Fault.thrown ⟨ErrorCode.SYMBOL_NOT_FOUND, "symbol nope not found"⟩), exHeap) :=
  ⟨⟨by decide, ⟨0, rfl, by decide⟩⟩,
    (lookup_unbound_fails exStack exHeap "nope" (by decide) ⟨0, rfl, by decide⟩).1 rfl⟩

/-- C5: when no table of the stack and not main binds the name,
`Lookup(name, create = true)` puts exactly one new entry, a default cell for the
name, in front of the top table of the stack, or of main when the stack is
empty; the other entries of that table and all other tables are unchanged.
When the name is bound somewhere, `Lookup(name, create = true)` inserts
nothing. -/
theorem lookup_create_inserts_one (S : SymbolTableStack) (H : Heap) (name : String)
    (hs : S.StackLive H) (hm : S.MainLive H) :
    (S.firstBinder H name = none →
      ∃ q t, (S.stack_.getLast? = some q ∨ (S.stack_ = [] ∧ S.main_table_ = some q)) ∧
        H[q]? = some t ∧
        S.Lookup H name true =
          (.ok ⟨q, name⟩, H.set q { t with map_ := (name, SymbolAttr.default) :: t.map_ }) ∧
        (∀ p, p ≠ q → (S.Lookup H name true).2[p]? = H[p]?)) ∧
    (∀ p, S.firstBinder H name = some p → (S.Lookup H name true).2 = H) := by
  constructor
  · intro h
    have hne := S.searchOrder_ne_nil H hm
    cases hhead : S.searchOrder.head? with
    | none =>
      rw [List.head?_eq_none_iff] at hhead
      exact absurd hhead hne
    | some q =>
      have hqmem : q ∈ S.searchOrder := List.mem_of_mem_head? hhead
      obtain ⟨t, ht⟩ := H.getElem?_of_lt q (S.searchOrder_live H hs hm q hqmem)
      have hL : S.Lookup H name true =
          (.ok ⟨q, name⟩, H.set q { t with map_ := (name, SymbolAttr.default) :: t.map_ }) := by
        rw [SymbolTableStack.Lookup_eq_resolveIn S H name true hs hm,
          resolveIn_create_of_none _ H name q hhead h]
        simp [Heap.insertDefault, ht]
      refine ⟨q, t, S.insertTarget_eq q hhead, ht, hL, ?_⟩
      intro p hp
      rw [hL]
      simp only
      rw [List.getElem?_set]
      have hqp : ¬ q = p := fun h' => hp h'.symm
      simp [hqp]
  · intro p hp
    rw [SymbolTableStack.Lookup_eq_resolveIn S H name true hs hm,
      resolveIn_of_find _ H name true p hp]

/-- Witness of C5: on the example stack a new `z` goes to the inner scope and
an existing `x` adds nothing; on the empty stack a new `z` goes to main. -/
theorem lookup_create_inserts_one_witness :
    (exStack.StackLive exHeap ∧ exStack.MainLive exHeap) ∧
    (∃ q t, (exStack.stack_.getLast? = some q ∨
        (exStack.stack_ = [] ∧ exStack.main_table_ = some q)) ∧
      exHeap[q]? = some t ∧
      exStack.Lookup exHeap "z" true =
        (.ok ⟨q, "z"⟩,
          exHeap.set q { t with map_ := ("z", SymbolAttr.default) :: t.map_ }) ∧
      (∀ p, p ≠ q → (exStack.Lookup exHeap "z" true).2[p]? = exHeap[p]?)) ∧
    (exStack.Lookup exHeap "x" true).2 = exHeap :=
  ⟨⟨by decide, ⟨0, rfl, by decide⟩⟩,
    (lookup_create_inserts_one exStack exHeap "z" (by decide) ⟨0, rfl, by decide⟩).1 rfl,
    (lookup_create_inserts_one exStack exHeap "x" (by decide) ⟨0, rfl, by decide⟩).2 2 rfl⟩

section Engine

variable {ω : Type}

end Engine

section Engine

variable {ω : Type}

/-- C7: with `n > 1` left-hand expressions and a single right-hand value that
unpacks to `k ≠ n` elements, `Assign` fails with `IncompatibleType` and the
message "unpack values size different from left values (expected n, got k)";
the machine it leaves is the one `Unpack` left, so no left-hand target was
assigned. -/
theorem assign_unpack_size_mismatch (env : Collaborators ω) (fuel : Nat)
    (left_exp_vec : List Expression) (v : ObjectPtr) (token : TokenKind) (m m1 : Machine ω)
    (rvalues : List ObjectPtr) (hn : 1 < left_exp_vec.length)
    (hu : Unpack env fuel v m = (.ok rvalues, m1))
    (hk : rvalues.length ≠ left_exp_vec.length) :
    Assign env fuel left_exp_vec [v] token m =
      (.error (Fault.thrown ⟨ErrorCode.INCOMPATIBLE_TYPE,
        "unpack values size different from left values (expected " ++
          toString left_exp_vec.length ++ ", got " ++ toString rvalues.length ++ ")"⟩), m1) := by
  have h1 : left_exp_vec.length ≠ 1 := by omega
  have h2 : left_exp_vec.length ≠ rvalues.length := fun h => hk h.symm
  unfold Assign
  simp [h1, hu, h2, raise, unpackSizeMsg]

end Engine

/-- Witness of C7: `a, b = [1, 2, 3]` fails with the message of the spec and
leaves the machine as it was. -/
theorem assign_unpack_size_mismatch_witness :
    Assign exEnv 0 [Expression.Identifier "a", Expression.Identifier "b"] [some 3]
        TokenKind.ASSIGN exMachine =
      (.error (Fault.thrown ⟨ErrorCode.INCOMPATIBLE_TYPE,
        "unpack values size different from left values (expected 2, got 3)"⟩), exMachine) :=
  assign_unpack_size_mismatch exEnv 0 [Expression.Identifier "a", Expression.Identifier "b"]
    (some 3) TokenKind.ASSIGN exMachine exMachine [some 0, some 1, some 2] (by decide) rfl
    (by decide)

section Engine

variable {ω : Type}

/-- C10: for a tuple or array object `x`, `Unpack(x)` returns the internal
sequence of `x` itself, so element for element and of the same length, and
leaves the machine as it was: no call of `ObjIter`, `HasNext` or `Next` (nor
any other) is recorded.  No fuel is needed. -/
theorem unpack_tuple_or_array (env : Collaborators ω) (fuel : Nat) (a : Nat)
    (value : List ObjectPtr) (m : Machine ω)
    (hx : m.st.objects[a]? = some (Object.tuple value) ∨
      m.st.objects[a]? = some (Object.array value)) :
    Unpack env fuel (some a) m = (.ok value, m) ∧
      (∀ r, (Unpack env fuel (some a) m).1 = .ok r → r.length = value.length) ∧
      (Unpack env fuel (some a) m).2.log = m.log := by
  have h : Unpack env fuel (some a) m = (.ok value, m) := by
    unfold Unpack
    rcases hx with hx | hx <;> simp [Store.deref, hx]
  refine ⟨h, ?_, ?_⟩
  · intro r hr
    rw [h] at hr
    cases hr
    rfl
  · rw [h]

end Engine

/-- Witness of C10: the array `[1, 2, 3]` and the tuple `(1, 2)` unpack to
their elements, without fuel and without any call. -/
theorem unpack_tuple_or_array_witness :
    Unpack exEnv 0 (some 3) exMachine = (.ok [some 0, some 1, some 2], exMachine) ∧
    Unpack exEnv 0 (some 4) exMachine = (.ok [some 0, some 1], exMachine) :=
  ⟨(unpack_tuple_or_array exEnv 0 3 [some 0, some 1, some 2] exMachine (Or.inr rfl)).1,
    (unpack_tuple_or_array exEnv 0 4 [some 0, some 1] exMachine (Or.inl rfl)).1⟩

section Engine

variable {ω : Type}

theorem unpackLoop_of_run (env : Collaborators ω) (it : Nat) (m m' : Machine ω)
    (vs : List ObjectPtr) (e : IterEnd) (hrun : IterRun env it m vs e m') :
    ∀ (acc : List ObjectPtr) (fuel : Nat), vs.length < fuel →
      unpackLoop env it fuel acc m = (e.result (acc ++ vs), m') := by
  induction hrun with
  | done m m1 h b hcall hderef =>
    intro acc fuel hfuel
    cases fuel with
    | zero => cases hfuel
    | succ fuel =>
      unfold unpackLoop
      simp [hcall, hderef, Object.type, IterEnd.result]
  | notBool m m1 h b o hcall hderef htype =>
    intro acc fuel hfuel
    cases fuel with
    | zero => cases hfuel
    | succ fuel =>
      unfold unpackLoop
      simp [hcall, hderef, htype, raise, IterEnd.result]
  | next m m1 m2 m3 h b v vs e hcall hderef hnext _ ih =>
    intro acc fuel hfuel
    cases fuel with
    | zero => cases hfuel
    | succ fuel =>
      have hfuel' : vs.length < fuel := by
        simp only [List.length_cons] at hfuel
        omega
      unfold unpackLoop
      simp only [hcall, hderef, hnext, Object.type]
      rw [ih (acc ++ [v]) fuel hfuel']
      simp

/-- C11: for an object `x` that is neither a tuple nor an array and whose
iterator makes a finite run, `Unpack(x)` returns exactly the values of the
successive `Next()` calls, in order, up to the first `HasNext()` that is
false, with fuel for one `HasNext()` more than there are values; and when the
run ends with a `HasNext()` whose object is not a `Bool`, `Unpack` fails with
`IncompatibleType`.  In both cases the machine is the one the run left. -/
theorem unpack_iterates (env : Collaborators ω) (fuel : Nat) (a : Nat) (o : Object) (it : Nat)
    (m m1 m' : Machine ω) (vs : List ObjectPtr) (e : IterEnd)
    (hx : m.st.objects[a]? = some o)
    (hnt : ∀ value, o ≠ Object.tuple value) (hna : ∀ value, o ≠ Object.array value)
    (hit : Machine.call (Call.ObjIter a) (env.ObjIter a) m = (.ok (some it), m1))
    (hrun : IterRun env it m1 vs e m') (hfuel : vs.length < fuel) :
    (e = IterEnd.done → Unpack env fuel (some a) m = (.ok vs, m')) ∧
    (e = IterEnd.notBool → Unpack env fuel (some a) m =
      (.error (Fault.thrown ⟨ErrorCode.INCOMPATIBLE_TYPE, "expect bool from __has_next__"⟩),
        m')) := by
  have hU : Unpack env fuel (some a) m = unpackLoop env it fuel [] m1 := by
    unfold Unpack
    simp only [Store.deref, hx]
    cases o with
    | tuple value => exact absurd rfl (hnt value)
    | array value => exact absurd rfl (hna value)
    | bool b => simp [hit]
    | other tag => simp [hit]
  rw [hU, unpackLoop_of_run env it m1 m' vs e hrun [] fuel hfuel]
  constructor
  · intro he; subst he; simp [IterEnd.result]
  · intro he; subst he; rfl

end Engine

section Engine

variable {ω : Type}

theorem AssignToRef_compound_eq (env : Collaborators ω) (ref : CellRef) (v : ObjectPtr)
    (token : TokenKind) (op : BinOp) (hop : token.compoundOp = some op) :
    AssignToRef env ref v token = assignOpToRef env op ref v := by
  cases token <;> simp [TokenKind.compoundOp] at hop <;> subst hop <;> rfl

theorem AssignToArray_compound_eq (env : Collaborators ω) (arr index v : ObjectPtr)
    (token : TokenKind) (op : BinOp) (hop : token.compoundOp = some op) :
    AssignToArray env arr index v token = assignOpToArray env op arr index v := by
  cases token <;> simp [TokenKind.compoundOp] at hop <;> subst hop <;> rfl

/-- C12: for a compound token with operation `op` (`+=` Add, `-=` Sub, `*=`
Mult, `/=` Div, `%=` DivMod, `&=` BitAnd, `|=` BitOr, `^=` BitXor, `<<=`
LeftShift, `>>=` RightShift) and a reference whose cell holds the object
`self`, `AssignToRef(ref, v, token)` calls `self->op(v)` once and stores its
result into `ref`, which is what the plain `=` does with that result, and
changes nothing else; when the operation fails nothing is stored.  For plain
`=` it stores `v` itself. -/
theorem assignToRef_compound (env : Collaborators ω) (ref : CellRef) (v : ObjectPtr)
    (token : TokenKind) (op : BinOp) (m : Machine ω) (a : SymbolAttr) (self : Nat)
    (hop : token.compoundOp = some op) (hcell : m.st.tables.cell ref = some a)
    (hself : a.value_ = some self) :
    (∀ r m1, Machine.call (Call.Op op self v) (env.Op op self v) m = (.ok r, m1) →
      AssignToRef env ref v token m = (.ok (), m1.setTables (m1.st.tables.store ref r)) ∧
      AssignToRef env ref v token m = AssignToRef env ref r TokenKind.ASSIGN m1) ∧
    (∀ f m1, Machine.call (Call.Op op self v) (env.Op op self v) m = (.error f, m1) →
      AssignToRef env ref v token m = (.error f, m1)) ∧
    AssignToRef env ref v TokenKind.ASSIGN m =
      (.ok (), m.setTables (m.st.tables.store ref v)) := by
  rw [AssignToRef_compound_eq env ref v token op hop]
  refine ⟨?_, ?_, rfl⟩
  · intro r m1 hcall
    have h1 : assignOpToRef env op ref v m =
        (.ok (), m1.setTables (m1.st.tables.store ref r)) := by
      unfold assignOpToRef
      simp only [hcell, hself, hcall]
    exact ⟨h1, h1⟩
  · intro f m1 hcall
    unfold assignOpToRef
    simp only [hcell, hself, hcall]

/-- C14: for every token outside `= += -= *= /= %= &= |= ^= <<= >>=`, both
`AssignToRef` and `AssignToArray` fail with `InvalidOpcode` and leave the
machine as it was (no `GetItem`, no `SetItem`, the cell unchanged); for every
token of the set neither of them yields `InvalidOpcode` (the collaborators,
which are outside the engine, being taken not to raise it themselves). -/
theorem assign_token_set (env : Collaborators ω) (ref : CellRef) (arr index v : ObjectPtr)
    (m : Machine ω) :
    (∀ token, token.isAssignToken = false →
      AssignToRef env ref v token m =
        (.error (Fault.thrown ⟨ErrorCode.INVALID_OPCODE, "not valid assignment operation"⟩), m) ∧
      AssignToArray env arr index v token m =
        (.error (Fault.thrown ⟨ErrorCode.INVALID_OPCODE, "not valid assignment operation"⟩), m)) ∧
    (env.NeverRaiseCode ErrorCode.INVALID_OPCODE →
      ∀ token, token.isAssignToken = true → ∀ msg,
        (AssignToRef env ref v token m).1 ≠
          .error (Fault.thrown ⟨ErrorCode.INVALID_OPCODE, msg⟩) ∧
        (AssignToArray env arr index v token m).1 ≠
          .error (Fault.thrown ⟨ErrorCode.INVALID_OPCODE, msg⟩)) := by
  constructor
  · intro token htok
    cases token <;> simp [TokenKind.isAssignToken] at htok
    exact ⟨rfl, rfl⟩
  · intro henv token htok msg
    have hOp : ∀ op self val (s : Store ω),
        (env.Op op self val s).1 ≠ .error (Fault.thrown ⟨ErrorCode.INVALID_OPCODE, msg⟩) :=
      (henv msg).2.2.1
    have hGet : ∀ self i (s : Store ω),
        (env.GetItem self i s).1 ≠ .error (Fault.thrown ⟨ErrorCode.INVALID_OPCODE, msg⟩) :=
      (henv msg).2.2.2.1
    have hSet : ∀ self i val (s : Store ω),
        (env.SetItem self i val s).1 ≠ .error (Fault.thrown ⟨ErrorCode.INVALID_OPCODE, msg⟩) :=
      (henv msg).2.2.2.2.1
    have hRef : ∀ op, (assignOpToRef env op ref v m).1 ≠
        .error (Fault.thrown ⟨ErrorCode.INVALID_OPCODE, msg⟩) := by
      intro op
      unfold assignOpToRef
      split
      · simp
      · split
        · simp
        · rename_i self _
          split
          · rename_i f m1 hc
            intro h
            simp only [Except.error.injEq] at h
            have h1 := congrArg Prod.fst hc
            simp only [Machine.call] at h1
            rw [h] at h1
            exact hOp op self v m.st h1
          · simp
    have hItem : (assignToItem env arr index v m).1 ≠
        .error (Fault.thrown ⟨ErrorCode.INVALID_OPCODE, msg⟩) := by
      unfold assignToItem
      split
      · simp
      · rename_i a
        exact hSet a index v m.st
    have hArr : ∀ op, (assignOpToArray env op arr index v m).1 ≠
        .error (Fault.thrown ⟨ErrorCode.INVALID_OPCODE, msg⟩) := by
      intro op
      unfold assignOpToArray
      split
      · simp
      · rename_i a
        split
        · rename_i f m1 hc
          intro h
          simp only [Except.error.injEq] at h
          have h1 := congrArg Prod.fst hc
          simp only [Machine.call] at h1
          rw [h] at h1
          exact hGet a index m.st h1
        · simp
        · rename_i item m1 _
          split
          · rename_i f m2 hc
            intro h
            simp only [Except.error.injEq] at h
            have h1 := congrArg Prod.fst hc
            simp only [Machine.call] at h1
            rw [h] at h1
            exact hOp op item v m1.st h1
          · rename_i r m2 _
            exact hSet a index r m2.st
    cases token with
    | OTHER code => simp [TokenKind.isAssignToken] at htok
    | ASSIGN => exact ⟨by simp [AssignToRef], hItem⟩
    | ASSIGN_BIT_OR => exact ⟨hRef _, hArr _⟩
    | ASSIGN_BIT_XOR => exact ⟨hRef _, hArr _⟩
    | ASSIGN_BIT_AND => exact ⟨hRef _, hArr _⟩
    | ASSIGN_SHL => exact ⟨hRef _, hArr _⟩
    | ASSIGN_SAR => exact ⟨hRef _, hArr _⟩
    | ASSIGN_ADD => exact ⟨hRef _, hArr _⟩
    | ASSIGN_SUB => exact ⟨hRef _, hArr _⟩
    | ASSIGN_MUL => exact ⟨hRef _, hArr _⟩
    | ASSIGN_DIV => exact ⟨hRef _, hArr _⟩
    | ASSIGN_MOD => exact ⟨hRef _, hArr _⟩

/-- C16: assigning to an empty tuple pattern or to an empty array pattern
fails with `IncompatibleType`, for every right-hand value and token, and
leaves the machine as it was: the value is not unpacked (no `ObjIter`,
`HasNext` or `Next` call is recorded) and no target is assigned. -/
theorem assign_empty_pattern_fails (env : Collaborators ω) (fuel : Nat) (value : ObjectPtr)
    (token : TokenKind) (m : Machine ω) :
    AssignLeftTuple env fuel [] value token m =
      (.error (Fault.thrown ⟨ErrorCode.INCOMPATIBLE_TYPE,
        "tuple can't be empty in assignment operation"⟩), m) ∧
    AssignLeftArray env fuel [] value token m =
      (.error (Fault.thrown ⟨ErrorCode.INCOMPATIBLE_TYPE,
        "array can't be empty in assignment operation"⟩), m) ∧
    AssignmentAcceptorExpr env fuel (Expression.TupleInstantiation []) value token m =
      AssignLeftTuple env fuel [] value token m ∧
    AssignmentAcceptorExpr env fuel (Expression.ArrayInstantiation []) value token m =
      AssignLeftArray env fuel [] value token m := by
  refine ⟨?_, ?_, rfl, rfl⟩
  · simp [AssignLeftTuple, AssignmentAcceptorExpr, raise]
  · simp [AssignLeftArray, AssignmentAcceptorExpr, raise]

/-- C17: `AssignmentAcceptorExpr` hands an identifier, a subscript, an
attribute, a tuple literal and an array literal to their five handlers, and for
a node of any other kind it fails with
`IncompatibleType("not valid left side expression")` and leaves the machine,
so every binding, as it was. -/
theorem acceptor_dispatch (env : Collaborators ω) (fuel : Nat) (value : ObjectPtr)
    (token : TokenKind) (m : Machine ω) :
    (∀ name, AssignmentAcceptorExpr env fuel (Expression.Identifier name) value token m =
      AssignIdentifier env name value token true m) ∧
    (∀ arr_exp index_exp,
      AssignmentAcceptorExpr env fuel (Expression.Array arr_exp index_exp) value token m =
        AssignArray env arr_exp index_exp value token m) ∧
    (∀ exp id, AssignmentAcceptorExpr env fuel (Expression.Attribute exp id) value token m =
      AssignAtrribute env exp id value token m) ∧
    (∀ lvalues,
      AssignmentAcceptorExpr env fuel (Expression.TupleInstantiation lvalues) value token m =
        AssignLeftTuple env fuel lvalues value token m) ∧
    (∀ lvalues,
      AssignmentAcceptorExpr env fuel (Expression.ArrayInstantiation lvalues) value token m =
        AssignLeftArray env fuel lvalues value token m) ∧
    (∀ type, AssignmentAcceptorExpr env fuel (Expression.Other type) value token m =
      (.error (Fault.thrown ⟨ErrorCode.INCOMPATIBLE_TYPE, "not valid left side expression"⟩),
        m)) := by
  refine ⟨?_, ?_, ?_, fun _ => rfl, fun _ => rfl, ?_⟩
  · intro name; simp [AssignmentAcceptorExpr]
  · intro e1 e2; simp [AssignmentAcceptorExpr]
  · intro e id; simp [AssignmentAcceptorExpr]
  · intro k; simp [AssignmentAcceptorExpr, raise]

end Engine

section Engine

variable {ω : Type}

/-- C13: for a compound token with operation `op`, `AssignToArray(arr, index,
v, token)` makes one `GetItem(index)`, applies `op` to that item and `v`, and
then makes one `SetItem(index, result)`, in this order and with no other call;
for plain `=` it makes the single call `SetItem(index, v)`.  `AssignArray`
evaluates the array and the index expression once each before that.  On an
integer array, with the array and integer operations modelled from the spec,
the array afterwards differs from the one before only at the index, where it
holds a new integer whose value is `op` of the old element and `v`. -/
theorem assignToArray_calls (env : Collaborators ω) (a : Nat) (index v : ObjectPtr)
    (token : TokenKind) (op : BinOp) (m : Machine ω) (hop : token.compoundOp = some op) :
    (∀ item m1 r m2,
      Machine.call (Call.GetItem a index) (env.GetItem a index) m = (.ok (some item), m1) →
      Machine.call (Call.Op op item v) (env.Op op item v) m1 = (.ok r, m2) →
      AssignToArray env (some a) index v token m =
        Machine.call (Call.SetItem a index r) (env.SetItem a index r) m2 ∧
      (AssignToArray env (some a) index v token m).2.log =
        m.log ++ [Call.GetItem a index, Call.Op op item v, Call.SetItem a index r]) ∧
    (AssignToArray env (some a) index v TokenKind.ASSIGN m =
        Machine.call (Call.SetItem a index v) (env.SetItem a index v) m ∧
      (AssignToArray env (some a) index v TokenKind.ASSIGN m).2.log =
        m.log ++ [Call.SetItem a index v]) ∧
    (∀ arr_exp index_exp arr_obj m1 idx m2,
      Machine.call (Call.Exec arr_exp) (env.Exec arr_exp (some true)) m = (.ok arr_obj, m1) →
      Machine.call (Call.Exec index_exp) (env.Exec index_exp (some true)) m1 = (.ok idx, m2) →
      AssignArray env arr_exp index_exp v token m = AssignToArray env arr_obj idx v token m2) ∧
    (∀ (intOp : BinOp → Int → Int → Except RunTimeError Int) (mi : Machine IntWorld)
      (elems : List ObjectPtr) (ia item : Nat) (i x y r : Int),
      mi.st.objects[a]? = some (Object.array elems) →
      ia < mi.st.objects.length → intValue mi.st (some ia) = some i →
      0 ≤ i → i.toNat < elems.length → elems[i.toNat]? = some (some item) →
      intValue mi.st (some item) = some x → intValue mi.st v = some y →
      intOp op x y = .ok r →
      AssignToArray (intArrayEnv intOp) (some a) (some ia) v token mi =
        (.ok (),
          ⟨⟨mi.st.tables,
              (mi.st.objects ++ [Object.other OtherType.INT]).set a
                (Object.array (elems.set i.toNat (some mi.st.objects.length))),
              mi.st.stack, (mi.st.objects.length, r) :: mi.st.world⟩,
            mi.log ++ [Call.GetItem a (some ia), Call.Op op item v,
              Call.SetItem a (some ia) (some mi.st.objects.length)]⟩) ∧
      (∀ j, j ≠ i.toNat → (elems.set i.toNat (some mi.st.objects.length))[j]? = elems[j]?)) := by
  refine ⟨?_, ⟨rfl, rfl⟩, ?_, ?_⟩
  · intro item m1 r m2 hget hopc
    have h1 : AssignToArray env (some a) index v token m =
        Machine.call (Call.SetItem a index r) (env.SetItem a index r) m2 := by
      rw [AssignToArray_compound_eq env (some a) index v token op hop]
      unfold assignOpToArray
      simp only [hget, hopc]
    refine ⟨h1, ?_⟩
    rw [h1]
    have hl1 : m1.log = m.log ++ [Call.GetItem a index] := by
      have := congrArg (fun p => p.2.log) hget
      simpa [Machine.call] using this.symm
    have hl2 : m2.log = m1.log ++ [Call.Op op item v] := by
      have := congrArg (fun p => p.2.log) hopc
      simpa [Machine.call] using this.symm
    simp [Machine.call, hl2, hl1]
  · intro arr_exp index_exp arr_obj m1 idx m2 h1 h2
    unfold AssignArray
    simp only [h1, h2]
  · intro intOp mi elems ia item i x y r harr hia hidx hi0 hilt helem hx hy hr
    have halt : a < mi.st.objects.length := by
      rcases Nat.lt_or_ge a mi.st.objects.length with h | h
      · exact h
      · rw [List.getElem?_eq_none h] at harr; cases harr
    have hidx' : List.lookup ia mi.st.world = some i := hidx
    have hx' : List.lookup item mi.st.world = some x := hx
    have hgetD : elems.getD i.toNat none = some item := by
      rw [List.getD_eq_getElem?_getD, helem]
      rfl
    have hget : (intArrayEnv intOp).GetItem a (some ia) mi.st = (.ok (some item), mi.st) := by
      simp only [intArrayEnv, harr, hidx, hi0, hilt, hgetD, and_self, if_true]
    have hopc : (intArrayEnv intOp).Op op item v mi.st =
        (.ok (some mi.st.objects.length),
          ⟨mi.st.tables, mi.st.objects ++ [Object.other OtherType.INT], mi.st.stack,
            (mi.st.objects.length, r) :: mi.st.world⟩) := by
      simp only [intArrayEnv, hx, hy, hr]
    have hbeq : (ia == mi.st.objects.length) = false := by
      simp only [beq_eq_false_iff_ne, ne_eq]
      omega
    have hset : (intArrayEnv intOp).SetItem a (some ia) (some mi.st.objects.length)
        ⟨mi.st.tables, mi.st.objects ++ [Object.other OtherType.INT], mi.st.stack,
          (mi.st.objects.length, r) :: mi.st.world⟩ =
        (.ok (),
          ⟨mi.st.tables,
            (mi.st.objects ++ [Object.other OtherType.INT]).set a
              (Object.array (elems.set i.toNat (some mi.st.objects.length))),
            mi.st.stack, (mi.st.objects.length, r) :: mi.st.world⟩) := by
      have hidx2 : intValue (⟨mi.st.tables, mi.st.objects ++ [Object.other OtherType.INT],
          mi.st.stack, (mi.st.objects.length, r) :: mi.st.world⟩ : Store IntWorld) (some ia) =
          some i := by
        simp only [intValue, List.lookup, hbeq]
        exact hidx'
      simp only [intArrayEnv, List.getElem?_append_left halt, harr, hidx2, hi0, hilt, and_self,
        if_true]
    constructor
    · rw [AssignToArray_compound_eq _ (some a) (some ia) v token op hop]
      unfold assignOpToArray
      simp only [Machine.call, hget, hopc, hset, List.append_assoc, List.cons_append,
        List.nil_append]
    · intro j hj
      rw [List.getElem?_set]
      have hij : ¬ i.toNat = j := fun h => hj h.symm
      simp [hij]

end Engine

section Engine

variable {ω : Type}

/-- C15 (what the code does): on a stack without a `Func` table, a compound
assignment `x op= v` to an identifier bound in no table of the stack and not in
main does not fail with `SymbolNotFound`: the target is resolved with
`create = true`, so a cell with a null value is added for `x` to the top table
(to main when the stack is empty), and the operation is then called through
that null pointer, which is undefined behaviour.  The failure that the claim
expects is the one of the lookup without `create`. -/
theorem compound_assign_unbound_derefs_null (env : Collaborators ω) (fuel : Nat) (x : String)
    (v : ObjectPtr) (token : TokenKind) (op : BinOp) (m : Machine ω)
    (hwf : m.st.WellFormed) (hnf : m.st.stack.HasFuncTable m.st.tables = .ok false)
    (hunb : m.st.stack.firstBinder m.st.tables x = none)
    (hop : token.compoundOp = some op) :
    ∃ q, m.st.stack.insertTarget = some q ∧
      AssignmentAcceptorExpr env fuel (Expression.Identifier x) v token m =
        (.error Fault.undefined, m.setTables (m.st.tables.insertDefault q x)) ∧
      (m.st.tables.insertDefault q x).cell ⟨q, x⟩ = some SymbolAttr.default ∧
      m.st.stack.Lookup m.st.tables x false =
        (.error (Fault.thrown (SymbolTableStack.symbolNotFound x)), m.st.tables) := by
  obtain ⟨hs, hm⟩ := hwf
  have hne := m.st.stack.searchOrder_ne_nil m.st.tables hm
  cases hhead : m.st.stack.searchOrder.head? with
  | none =>
    rw [List.head?_eq_none_iff] at hhead
    exact absurd hhead hne
  | some q =>
    have hqlt : q < m.st.tables.length :=
      m.st.stack.searchOrder_live m.st.tables hs hm q (List.mem_of_mem_head? hhead)
    have hfree : m.st.tables.binds x q = false := by
      have := List.find?_eq_none.1 hunb q (List.mem_of_mem_head? hhead)
      simpa using this
    have hcell : (m.st.tables.insertDefault q x).cell ⟨q, x⟩ = some SymbolAttr.default := by
      rw [Heap.cell_insertDefault _ q x _ hqlt ((Heap.binds_eq_false_iff _ x q).1 hfree)]
      simp
    have hL : m.st.stack.Lookup m.st.tables x true =
        (.ok ⟨q, x⟩, m.st.tables.insertDefault q x) := by
      rw [SymbolTableStack.Lookup_eq_resolveIn _ _ x true hs hm]
      exact resolveIn_create_of_none _ _ x q hhead hunb
    refine ⟨q, hhead, ?_, hcell, ?_⟩
    · simp only [AssignmentAcceptorExpr]
      unfold AssignIdentifier SymbolTableStack.targetRef
      rw [hnf]
      simp only [hL]
      rw [AssignToRef_compound_eq env _ v token op hop]
      unfold assignOpToRef
      have hcell' : (m.setTables (m.st.tables.insertDefault q x)).st.tables.cell ⟨q, x⟩ =
          some SymbolAttr.default := hcell
      simp only [hcell', SymbolAttr.default]
    · rw [SymbolTableStack.Lookup_eq_resolveIn _ _ x false hs hm]
      exact resolveIn_fail_of_none _ _ x hunb

end Engine

/-- C20 (what the code does): with two `Func` tables on the stack,
`SetEntryOnFunc("x", v)` binds `x` to `v` in the inner one and then goes on to
the outer one, where it overwrites the binding of `x` with the null pointer
that `std::move` left in `value`. -/
theorem setEntryOnFunc_writes_outer_func_table :
    SymbolTableStack.SetEntryOnFunc ⟨[1, 2], some 0⟩ exFuncHeap "x" (some 7) =
      .ok [exMain, ⟨[("x", ⟨none, false⟩)], [], TableType.FUNC_TABLE⟩,
        ⟨[("x", ⟨some 7, false⟩)], [], TableType.FUNC_TABLE⟩] := by
  rfl

/-! ### Splitting into words -/

theorem splitOnP_all_sep (p : Char → Bool) (ds : List Char) (h : ∀ c ∈ ds, p c = true) :
    ds.splitOnP p = List.replicate (ds.length + 1) [] := by
  induction ds with
  | nil => simp [List.splitOnP_nil]
  | cons c cs ih =>
    rw [List.splitOnP_cons, if_pos (h c (List.mem_cons_self _ _)),
      ih (fun d hd => h d (List.mem_cons_of_mem _ hd))]
    simp [List.replicate_succ]

theorem splitOnP_append_sep (p : Char → Bool) (l ds : List Char) (h : ∀ c ∈ ds, p c = true) :
    (l ++ ds).splitOnP p = l.splitOnP p ++ List.replicate ds.length [] := by
  induction l with
  | nil =>
    rw [List.nil_append, splitOnP_all_sep p ds h, List.splitOnP_nil, List.replicate_succ]
    rfl
  | cons c cs ih =>
    rw [List.cons_append, List.splitOnP_cons, List.splitOnP_cons, ih]
    by_cases hc : p c = true
    · simp [hc]
    · simp only [hc, if_false, Bool.false_eq_true]
      cases hsp : cs.splitOnP p with
      | nil => exact absurd hsp (List.splitOnP_ne_nil p cs)
      | cons w ws => simp

theorem filter_splitOnP_append_sep (p : Char → Bool) (l ds : List Char)
    (h : ∀ c ∈ ds, p c = true) :
    ((l ++ ds).splitOnP p).filter (fun w => !w.isEmpty) =
      (l.splitOnP p).filter (fun w => !w.isEmpty) := by
  rw [splitOnP_append_sep p l ds h, List.filter_append]
  have : (List.replicate ds.length ([] : List Char)).filter (fun w => !w.isEmpty) = [] := by
    rw [List.filter_replicate]
    simp
  rw [this, List.append_nil]

theorem filter_splitOnP_dropWhile (p : Char → Bool) (l : List Char) :
    ((l.dropWhile p).splitOnP p).filter (fun w => !w.isEmpty) =
      (l.splitOnP p).filter (fun w => !w.isEmpty) := by
  induction l with
  | nil => rfl
  | cons c cs ih =>
    by_cases hc : p c = true
    · rw [List.dropWhile_cons_of_pos hc, List.splitOnP_cons, if_pos hc, ih]
      simp
    · rw [List.dropWhile_cons_of_neg hc]

theorem trim_right_if_append (s : StdString) (p : Char → Bool) :
    ∃ ds, (∀ c ∈ ds, p c = true) ∧ s = trim_right_if s p ++ ds := by
  refine ⟨(s.reverse.takeWhile p).reverse, ?_, ?_⟩
  · intro c hc
    exact List.mem_takeWhile_imp (List.mem_reverse.1 hc)
  · unfold trim_right_if
    rw [← List.reverse_append, List.takeWhile_append_dropWhile, List.reverse_reverse]

theorem filter_splitOnP_trim (s : StdString) (p : Char → Bool) :
    ((trim_if s p).splitOnP p).filter (fun w => !w.isEmpty) =
      (s.splitOnP p).filter (fun w => !w.isEmpty) := by
  obtain ⟨ds, hds, hs⟩ := trim_right_if_append s p
  unfold trim_if trim_left_if
  rw [filter_splitOnP_dropWhile]
  conv_rhs => rw [hs]
  rw [filter_splitOnP_append_sep p _ ds hds]

theorem split_filter_eq (p : Char → Bool) (l : List Char) :
    (∀ cur, (splitToken p l cur).filter (fun w => !w.isEmpty) =
      ((l.splitOnP p).modifyHead (fun w => cur.reverse ++ w)).filter (fun w => !w.isEmpty)) ∧
    (splitSep p l).filter (fun w => !w.isEmpty) =
      (l.splitOnP p).filter (fun w => !w.isEmpty) := by
  induction l with
  | nil =>
    constructor
    · intro cur
      simp [splitToken, List.splitOnP_nil]
    · simp [splitSep, List.splitOnP_nil]
  | cons c cs ih =>
    obtain ⟨ih1, ih2⟩ := ih
    by_cases hc : p c = true
    · constructor
      · intro cur
        simp only [splitToken, hc, if_true, List.splitOnP_cons, List.modifyHead_cons,
          List.append_nil]
        simp only [List.filter_cons, ih2]
      · simp only [splitSep, hc, if_true, List.splitOnP_cons, ih2]
        simp
    · constructor
      · intro cur
        simp only [splitToken, hc, if_false, List.splitOnP_cons, Bool.false_eq_true]
        rw [ih1 (c :: cur), List.modifyHead_modifyHead]
        congr 2
        funext w
        simp
      · simp only [splitSep, hc, if_false, List.splitOnP_cons, Bool.false_eq_true]
        rw [ih1 [c]]
        congr 2

theorem split_tokens_ne_nil (p : Char → Bool) (l : List Char)
    (hlast : ∀ c, l.getLast? = some c → p c = false) :
    (∀ cur, cur ≠ [] → ∀ w ∈ splitToken p l cur, w ≠ []) ∧
    (l ≠ [] → ∀ w ∈ splitSep p l, w ≠ []) := by
  induction l with
  | nil =>
    constructor
    · intro cur hcur w hw
      simp only [splitToken, List.mem_singleton] at hw
      rw [hw]
      simpa using hcur
    · intro h; exact absurd rfl h
  | cons c cs ih =>
    have hcs : cs ≠ [] → ∀ d, cs.getLast? = some d → p d = false := by
      intro hne d hd
      apply hlast d
      cases cs with
      | nil => exact absurd rfl hne
      | cons e es => rw [List.getLast?_cons_cons]; exact hd
    by_cases hnil : cs = []
    · subst hnil
      have hc : p c = false := hlast c rfl
      constructor
      · intro cur hcur w hw
        simp only [splitToken, hc, if_false, Bool.false_eq_true, List.mem_singleton] at hw
        rw [hw]
        simp
      · intro _ w hw
        simp only [splitSep, splitToken, hc, if_false, Bool.false_eq_true,
          List.mem_singleton] at hw
        rw [hw]
        simp
    · obtain ⟨ih1, ih2⟩ := ih (hcs hnil)
      constructor
      · intro cur hcur w hw
        by_cases hc : p c = true
        · simp only [splitToken, hc, if_true, List.mem_cons] at hw
          rcases hw with hw | hw
          · rw [hw]; simpa using hcur
          · exact ih2 hnil w hw
        · simp only [splitToken, hc, if_false, Bool.false_eq_true] at hw
          exact ih1 (c :: cur) (by simp) w hw
      · intro _ w hw
        by_cases hc : p c = true
        · simp only [splitSep, hc, if_true] at hw
          exact ih2 hnil w hw
        · simp only [splitSep, hc, if_false, Bool.false_eq_true] at hw
          exact ih1 [c] (by simp) w hw

theorem getLast?_dropWhile (p : Char → Bool) (l : List Char) (c : Char)
    (h : (l.dropWhile p).getLast? = some c) : l.getLast? = some c := by
  induction l with
  | nil => exact h
  | cons d ds ih =>
    by_cases hd : p d = true
    · rw [List.dropWhile_cons_of_pos hd] at h
      have := ih h
      cases ds with
      | nil => cases this
      | cons e es => rw [List.getLast?_cons_cons]; exact this
    · rw [List.dropWhile_cons_of_neg hd] at h
      exact h

theorem trim_if_clean (s : StdString) (p : Char → Bool) :
    (∀ c, (trim_if s p).head? = some c → p c = false) ∧
    (∀ c, (trim_if s p).getLast? = some c → p c = false) := by
  constructor
  · intro c hc
    unfold trim_if trim_left_if at hc
    have := List.head?_dropWhile_not p (trim_right_if s p)
    rw [hc] at this
    simpa using this
  · intro c hc
    unfold trim_if trim_left_if at hc
    have h1 := getLast?_dropWhile p _ c hc
    unfold trim_right_if at h1
    rw [List.getLast?_reverse] at h1
    have := List.head?_dropWhile_not p s.reverse
    rw [h1] at this
    simpa using this

theorem split_trim_eq_wordsOf (d s : StdString) (hne : trim_if s (is_any_of d) ≠ []) :
    split (trim_if s (is_any_of d)) (is_any_of d) = wordsOf d s := by
  obtain ⟨hhead, hlast⟩ := trim_if_clean s (is_any_of d)
  have hall : ∀ w ∈ split (trim_if s (is_any_of d)) (is_any_of d), w ≠ [] := by
    unfold split
    cases ht : trim_if s (is_any_of d) with
    | nil => exact absurd ht hne
    | cons c cs =>
      rw [ht] at hhead hlast
      have hc : is_any_of d c = false := hhead c rfl
      simp only [splitToken, hc, if_false, Bool.false_eq_true]
      by_cases hnil : cs = []
      · subst hnil
        intro w hw
        simp only [splitToken, List.mem_singleton] at hw
        rw [hw]; simp
      · have hlast' : ∀ e, cs.getLast? = some e → is_any_of d e = false := by
          intro e he
          apply hlast e
          cases cs with
          | nil => exact absurd rfl hnil
          | cons x xs => rw [List.getLast?_cons_cons]; exact he
        exact (split_tokens_ne_nil (is_any_of d) cs hlast').1 [c] (by simp)
  have hfilter : (split (trim_if s (is_any_of d)) (is_any_of d)).filter (fun w => !w.isEmpty) =
      split (trim_if s (is_any_of d)) (is_any_of d) := by
    rw [List.filter_eq_self]
    intro w hw
    have := hall w hw
    cases w with
    | nil => exact absurd rfl this
    | cons x xs => rfl
  rw [← hfilter]
  unfold split wordsOf
  rw [(split_filter_eq (is_any_of d) _).1 [], ← filter_splitOnP_trim s (is_any_of d)]
  congr 1
  cases (trim_if s (is_any_of d)).splitOnP (is_any_of d) with
  | nil => rfl
  | cons w ws => simp

theorem wordsOf_of_trim_nil (d s : StdString) (h : trim_if s (is_any_of d) = []) :
    wordsOf d s = [] := by
  unfold wordsOf
  rw [← filter_splitOnP_trim s (is_any_of d), h, List.splitOnP_nil]
  rfl

theorem mem_splitOnP_no_sep (p : Char → Bool) (l : List Char) :
    ∀ w ∈ l.splitOnP p, ∀ c ∈ w, p c = false := by
  induction l with
  | nil =>
    intro w hw c hc
    rw [List.splitOnP_nil, List.mem_singleton] at hw
    rw [hw] at hc
    cases hc
  | cons x xs ih =>
    intro w hw c hc
    rw [List.splitOnP_cons] at hw
    by_cases hx : p x = true
    · rw [if_pos hx, List.mem_cons] at hw
      rcases hw with hw | hw
      · rw [hw] at hc; cases hc
      · exact ih w hw c hc
    · rw [if_neg hx] at hw
      cases hsp : xs.splitOnP p with
      | nil => exact absurd hsp (List.splitOnP_ne_nil p xs)
      | cons w0 ws =>
        rw [hsp, List.modifyHead_cons, List.mem_cons] at hw
        rcases hw with hw | hw
        · rw [hw, List.mem_cons] at hc
          rcases hc with hc | hc
          · rw [hc]; simpa using hx
          · exact ih w0 (by rw [hsp]; exact List.mem_cons_self _ _) c hc
        · exact ih w (by rw [hsp]; exact List.mem_cons_of_mem _ hw) c hc

theorem iterate_from (words : List StdString) :
    ∀ (n k : Nat) (acc : List ValuePtr), k + n = words.length →
      CmdIterObject.iterate (n + 1) ⟨k, words⟩ acc =
        some (acc ++ (words.drop k).map (fun w => some (Value.string w))) := by
  intro n
  induction n with
  | zero =>
    intro k acc hk
    have hk' : k = words.length := by omega
    subst hk'
    simp [CmdIterObject.iterate, CmdIterObject.HasNext, NewBool]
  | succ n ih =>
    intro k acc hk
    have hlt : k < words.length := by omega
    have hne : ¬ k = words.length := by omega
    have hget : words[k]? = some words[k] := List.getElem?_eq_getElem hlt
    have hdrop : words.drop k = words[k] :: words.drop (k + 1) := List.drop_eq_getElem_cons hlt
    rw [CmdIterObject.iterate]
    simp only [CmdIterObject.HasNext, NewBool, hne, decide_False, Bool.not_false,
      CmdIterObject.Next, hget, NewString]
    rw [ih (k + 1) _ (by omega), hdrop]
    simp only [List.map_cons, List.append_assoc, List.singleton_append]

/-- C18: the iterator made for a `Cmd` with delimiter string `d` and mode
`outerr` holds, and iterating yields in order, exactly the words of the output
`s` (stdout when the mode is 0, stderr otherwise): the maximal non-empty runs
of chars of `s` that are not in `d`.  No word is empty, no word contains a char
of `d`, and an `s` that is empty or made only of chars of `d` gives no word. -/
theorem cmd_iter_words (c : CmdObject) (d : StdString) (outerr : Int) :
    ∃ it, CmdIterObject.new d outerr (some (Value.cmd c)) = .ok it ∧
      it.pos_ = 0 ∧
      it.str_split_ = wordsOf d (if outerr = 0 then c.str_stdout_ else c.str_stderr_) ∧
      CmdIterObject.iterate (it.str_split_.length + 1) it [] =
        some (it.str_split_.map (fun w => some (Value.string w))) ∧
      (∀ w ∈ it.str_split_, w ≠ [] ∧ ∀ ch ∈ w, ch ∉ d) ∧
      ((∀ ch ∈ (if outerr = 0 then c.str_stdout_ else c.str_stderr_), ch ∈ d) →
        it.str_split_ = []) := by
  have hwords : ∀ s : StdString,
      (∀ w ∈ wordsOf d s, w ≠ [] ∧ ∀ ch ∈ w, ch ∉ d) ∧
      ((∀ ch ∈ s, ch ∈ d) → wordsOf d s = []) := by
    intro s
    constructor
    · intro w hw
      unfold wordsOf at hw
      rw [List.mem_filter] at hw
      constructor
      · intro h
        rw [h] at hw
        simp at hw
      · intro ch hch hd
        have := mem_splitOnP_no_sep (is_any_of d) s w hw.1 ch hch
        simp [is_any_of, hd] at this
    · intro hall
      unfold wordsOf
      rw [splitOnP_all_sep (is_any_of d) s (fun ch hch => by simp [is_any_of, hall ch hch]),
        List.filter_replicate]
      simp
  have hnew : ∀ s : StdString,
      (if (trim_if s (is_any_of d)).isEmpty then (.ok ⟨0, []⟩ : Except Fault CmdIterObject)
        else .ok ⟨0, split (trim_if s (is_any_of d)) (is_any_of d)⟩) =
        .ok ⟨0, wordsOf d s⟩ := by
    intro s
    by_cases hnil : trim_if s (is_any_of d) = []
    · rw [hnil, wordsOf_of_trim_nil d s hnil]
      rfl
    · have : (trim_if s (is_any_of d)).isEmpty = false := by
        cases h : trim_if s (is_any_of d) with
        | nil => exact absurd h hnil
        | cons x xs => rfl
      rw [this, split_trim_eq_wordsOf d s hnil]
      rfl
  refine ⟨⟨0, wordsOf d (if outerr = 0 then c.str_stdout_ else c.str_stderr_)⟩, ?_, rfl, rfl,
    ?_, (hwords _).1, (hwords _).2⟩
  · simp only [CmdIterObject.new, CmdObject.str_stdout, CmdObject.str_stderr]
    exact hnew _
  · have := iterate_from (wordsOf d (if outerr = 0 then c.str_stdout_ else c.str_stderr_))
      (wordsOf d (if outerr = 0 then c.str_stdout_ else c.str_stderr_)).length 0 []
      (by omega)
    simpa using this

/-- C19: for every `Cmd` value `c`, the method `out` called with `c` as its
only argument returns a string object whose value is the stdout field of `c`
as it is, which is also what `ObjString(c)` returns; `err` returns the stderr
field as it is. -/
theorem cmd_out_err_fields (c : CmdObject) :
    CmdOutFunc.Call [some (Value.cmd c)] = .ok (some (Value.string c.str_stdout_)) ∧
    c.ObjString = some (Value.string c.str_stdout_) ∧
    CmdOutFunc.Call [some (Value.cmd c)] = .ok c.ObjString ∧
    CmdErrFunc.Call [some (Value.cmd c)] = .ok (some (Value.string c.str_stderr_)) :=
  ⟨rfl, rfl, rfl, rfl⟩

/-- Witness of C11: the object at address 5 unpacks to the two values of its
iterator, and the object at address 2, whose `HasNext` returns an `Int`,
fails with `IncompatibleType`. -/
theorem unpack_iterates_witness :
    (Unpack exIterEnv 3 (some 5) exIterMachine).1 = .ok [some 0, some 1] ∧
    (Unpack exIterEnv 1 (some 2) exIterMachine).1 =
      .error (Fault.thrown ⟨ErrorCode.INCOMPATIBLE_TYPE, "expect bool from __has_next__"⟩) :=
  ⟨congrArg Prod.fst
      ((unpack_iterates exIterEnv 3 5 (Object.other OtherType.RANGE) 6 exIterMachine _ _
        [some 0, some 1] IterEnd.done rfl (fun _ h => by cases h) (fun _ h => by cases h) rfl
        (IterRun.next _ _ _ _ (some 7) 7 (some 0) [some 1] IterEnd.done rfl rfl rfl
          (IterRun.next _ _ _ _ (some 7) 7 (some 1) [] IterEnd.done rfl rfl rfl
            (IterRun.done _ _ (some 8) 8 rfl rfl)))
        (by decide)).1 rfl),
    congrArg Prod.fst
      ((unpack_iterates exIterEnv 1 2 (Object.other OtherType.INT) 9 exIterMachine _ _
        [] IterEnd.notBool rfl (fun _ h => by cases h) (fun _ h => by cases h) rfl
        (IterRun.notBool _ _ (some 0) 0 (Object.other OtherType.INT) rfl rfl (by decide))
        (by decide)).2 rfl)⟩

/-- Witness of C12: `n += 10`, with `n` bound to the integer 2, stores a new
integer of value 12 into the cell of `n`. -/
theorem assignToRef_compound_witness :
    AssignToRef (intArrayEnv exIntOp) ⟨0, "n"⟩ (some 5) TokenKind.ASSIGN_ADD exIntMachine =
      (.ok (),
        ⟨⟨[⟨[("n", ⟨some 6, false⟩)], [], TableType.SCOPE_TABLE⟩],
            exObjects ++ [Object.other OtherType.INT, Object.other OtherType.INT],
            ⟨[], some 0⟩, [(6, 12), (0, 1), (1, 2), (2, 3), (5, 10)]⟩,
          [Call.Op BinOp.Add 1 (some 5)]⟩) :=
  ((assignToRef_compound (intArrayEnv exIntOp) ⟨0, "n"⟩ (some 5) TokenKind.ASSIGN_ADD BinOp.Add
    exIntMachine ⟨some 1, false⟩ 1 rfl rfl rfl).1 (some 6) _ rfl).1

/-- Witness of C13: with `a = [1, 2, 3]` at address 3, `a[1] += 10` makes the
calls `GetItem`, `Add`, `SetItem` and leaves `a = [1, 12, 3]`: the element at
index 1 is the new integer 12 at address 6, the others are the old ones. -/
theorem assignToArray_calls_witness :
    AssignToArray (intArrayEnv exIntOp) (some 3) (some 0) (some 5) TokenKind.ASSIGN_ADD
        exIntMachine =
      (.ok (),
        ⟨⟨exIntMachine.st.tables,
            [Object.other OtherType.INT, Object.other OtherType.INT, Object.other OtherType.INT,
              Object.array [some 0, some 6, some 2], Object.tuple [some 0, some 1],
              Object.other OtherType.INT, Object.other OtherType.INT],
            ⟨[], some 0⟩, [(6, 12), (0, 1), (1, 2), (2, 3), (5, 10)]⟩,
          [Call.GetItem 3 (some 0), Call.Op BinOp.Add 1 (some 5),
            Call.SetItem 3 (some 0) (some 6)]⟩) :=
  ((assignToArray_calls exEnv 3 (some 0) (some 5) TokenKind.ASSIGN_ADD BinOp.Add exMachine
    rfl).2.2.2 exIntOp exIntMachine [some 0, some 1, some 2] 0 1 1 2 10 12 rfl (by decide) rfl
    (by decide) (by decide) rfl rfl rfl rfl).1

/-- Witness of C14: with collaborators that raise nothing, `=` and `+=` do not
yield `InvalidOpcode`, and another token does. -/
theorem assign_token_set_witness :
    exEnv.NeverRaiseCode ErrorCode.INVALID_OPCODE ∧
    (AssignToRef exEnv ⟨0, "a"⟩ (some 0) TokenKind.ASSIGN_ADD exMachine).1 ≠
      .error (Fault.thrown ⟨ErrorCode.INVALID_OPCODE, "not valid assignment operation"⟩) ∧
    AssignToArray exEnv (some 3) (some 0) (some 0) (TokenKind.OTHER 0) exMachine =
      (.error (Fault.thrown ⟨ErrorCode.INVALID_OPCODE, "not valid assignment operation"⟩),
        exMachine) :=
  have henv : exEnv.NeverRaiseCode ErrorCode.INVALID_OPCODE := fun _ =>
    ⟨fun _ _ _ h => (by cases h), fun _ _ _ h => (by cases h), fun _ _ _ _ h => (by cases h),
      fun _ _ _ h => (by cases h), fun _ _ _ _ h => (by cases h), fun _ _ h => (by cases h),
      fun _ _ h => (by cases h), fun _ _ h => (by cases h)⟩
  ⟨henv,
    ((assign_token_set exEnv ⟨0, "a"⟩ (some 3) (some 0) (some 0) exMachine).2 henv
      TokenKind.ASSIGN_ADD rfl "not valid assignment operation").1,
    ((assign_token_set exEnv ⟨0, "a"⟩ (some 3) (some 0) (some 0) exMachine).1
      (TokenKind.OTHER 0) rfl).2⟩

/-- Witness of C15: at top level, `x += 1` with `x` unbound adds a null cell for
`x` to main and ends in the dereference of a null pointer. -/
theorem compound_assign_unbound_derefs_null_witness :
    exMachine.st.WellFormed ∧
    AssignmentAcceptorExpr exEnv 0 (Expression.Identifier "x") (some 0) TokenKind.ASSIGN_ADD
        exMachine =
      (.error Fault.undefined,
        exMachine.setTables [⟨[("x", ⟨none, false⟩)], [], TableType.SCOPE_TABLE⟩]) := by
  have hwf : exMachine.st.WellFormed := ⟨by decide, ⟨0, rfl, by decide⟩⟩
  obtain ⟨q, hq, h, -⟩ := compound_assign_unbound_derefs_null exEnv 0 "x" (some 0)
    TokenKind.ASSIGN_ADD BinOp.Add exMachine hwf rfl rfl rfl
  have hq0 : q = 0 := by
    have : exMachine.st.stack.insertTarget = some 0 := rfl
    rw [this] at hq
    exact (Option.some.inj hq).symm
  subst hq0
  exact ⟨hwf, h⟩

/-! ### Push, Pop and the slices of the stack -/

theorem getUntil_spec (H : Heap) (kind : TableType) (l : List SymbolTablePtr)
    (hl : ∀ p ∈ l, p < H.length) :
    ∃ r, SymbolTableStack.getUntil H kind l = .ok r ∧ r <+: l ∧
      ((∃ p ∈ l, H.isKind kind p = true) →
        ∃ q, r.getLast? = some q ∧ H.isKind kind q = true ∧
          ∀ p ∈ r.dropLast, H.isKind kind p = false) ∧
      ((∀ p ∈ l, H.isKind kind p = false) → r = l) := by
  induction l with
  | nil =>
    refine ⟨[], rfl, List.prefix_refl _, ?_, fun _ => rfl⟩
    rintro ⟨p, hp, _⟩
    cases hp
  | cons p rest ih =>
    obtain ⟨t, ht⟩ := H.getElem?_of_lt p (hl p (List.mem_cons_self _ _))
    obtain ⟨r, hr, hpre, hsome, hnone⟩ := ih (fun q hq => hl q (List.mem_cons_of_mem _ hq))
    by_cases hk : t.tableType = kind
    · have hp : H.isKind kind p = true := by simp [Heap.isKind, ht, hk]
      refine ⟨[p], ?_, ?_, ?_, ?_⟩
      · simp [SymbolTableStack.getUntil, ht, hk]
      · exact ⟨rest, rfl⟩
      · intro _
        exact ⟨p, rfl, hp, fun q hq => by cases hq⟩
      · intro hall
        have := hall p (List.mem_cons_self _ _)
        rw [hp] at this
        cases this
    · have hp : H.isKind kind p = false := by simp [Heap.isKind, ht, hk]
      refine ⟨p :: r, ?_, ?_, ?_, ?_⟩
      · simp [SymbolTableStack.getUntil, ht, hk, hr]
      · obtain ⟨s, hs⟩ := hpre
        exact ⟨s, by rw [← hs]; rfl⟩
      · rintro ⟨q, hq, hqk⟩
        have hq' : q ∈ rest := by
          rcases List.mem_cons.1 hq with h | h
          · rw [h, hp] at hqk
            cases hqk
          · exact h
        obtain ⟨q', hlast, hk', hdrop⟩ := hsome ⟨q, hq', hqk⟩
        have hne : r ≠ [] := by
          intro h
          rw [h] at hlast
          cases hlast
        refine ⟨q', ?_, hk', ?_⟩
        · obtain ⟨b, bs, hb⟩ := List.exists_cons_of_ne_nil hne
          rw [hb] at hlast ⊢
          rw [List.getLast?_cons_cons]
          exact hlast
        · intro a ha
          rw [List.dropLast_cons_of_ne_nil hne] at ha
          rcases List.mem_cons.1 ha with h | h
          · rw [h]
            exact hp
          · exact hdrop a h
      · intro hall
        rw [hnone (fun q hq => hall q (List.mem_cons_of_mem _ hq))]

/-- C24: on a stack whose pointers own their tables, `GetUntilFuncTable` and
`GetUntilClassTable` return a prefix of the stack, bottom first (they are
`const` and have no heap to change).  When the stack has a table of the kind,
the prefix ends with such a table and has no other table of the kind before
it, so it ends at the first one counted from the bottom; when the stack has
none, the prefix is the whole stack. -/
theorem getUntil_returns_prefix_to_first (S : SymbolTableStack) (H : Heap)
    (hs : S.StackLive H) :
    (∃ r, S.GetUntilFuncTable H = .ok r ∧ r <+: S.stack_ ∧
      ((∃ p ∈ S.stack_, H.typeAt p = some TableType.FUNC_TABLE) →
        ∃ q, r.getLast? = some q ∧ H.typeAt q = some TableType.FUNC_TABLE ∧
          ∀ p ∈ r.dropLast, H.typeAt p ≠ some TableType.FUNC_TABLE) ∧
      ((∀ p ∈ S.stack_, H.typeAt p ≠ some TableType.FUNC_TABLE) → r = S.stack_)) ∧
    (∃ r, S.GetUntilClassTable H = .ok r ∧ r <+: S.stack_ ∧
      ((∃ p ∈ S.stack_, H.typeAt p = some TableType.CLASS_TABLE) →
        ∃ q, r.getLast? = some q ∧ H.typeAt q = some TableType.CLASS_TABLE ∧
          ∀ p ∈ r.dropLast, H.typeAt p ≠ some TableType.CLASS_TABLE) ∧
      ((∀ p ∈ S.stack_, H.typeAt p ≠ some TableType.CLASS_TABLE) → r = S.stack_)) := by
  have key : ∀ kind p, H.isKind kind p = true ↔ H.typeAt p = some kind := by
    intro kind p
    unfold Heap.isKind Heap.typeAt
    cases H[p]? <;> simp
  have key2 : ∀ kind p, H.isKind kind p = false ↔ H.typeAt p ≠ some kind := by
    intro kind p
    rw [Ne, ← key, Bool.not_eq_true]
  constructor
  · obtain ⟨r, hr, hpre, h1, h2⟩ := getUntil_spec H TableType.FUNC_TABLE S.stack_ hs
    refine ⟨r, hr, hpre, ?_, ?_⟩
    · rintro ⟨p, hp, hk⟩
      obtain ⟨q, hq, hqk, hd⟩ := h1 ⟨p, hp, (key _ _).2 hk⟩
      exact ⟨q, hq, (key _ _).1 hqk, fun a ha => (key2 _ _).1 (hd a ha)⟩
    · intro hall
      exact h2 (fun p hp => (key2 _ _).2 (hall p hp))
  · obtain ⟨r, hr, hpre, h1, h2⟩ := getUntil_spec H TableType.CLASS_TABLE S.stack_ hs
    refine ⟨r, hr, hpre, ?_, ?_⟩
    · rintro ⟨p, hp, hk⟩
      obtain ⟨q, hq, hqk, hd⟩ := h1 ⟨p, hp, (key _ _).2 hk⟩
      exact ⟨q, hq, (key _ _).1 hqk, fun a ha => (key2 _ _).1 (hd a ha)⟩
    · intro hall
      exact h2 (fun p hp => (key2 _ _).2 (hall p hp))

/-- Witness of C24: over two function tables the slice ends at the lower one. -/
theorem getUntil_returns_prefix_to_first_witness :
    SymbolTableStack.StackLive ⟨[1, 2], some 0⟩ exFuncHeap ∧
    (∃ r, SymbolTableStack.GetUntilFuncTable ⟨[1, 2], some 0⟩ exFuncHeap = .ok r ∧
      r <+: [1, 2] ∧
      ((∃ p ∈ [1, 2], exFuncHeap.typeAt p = some TableType.FUNC_TABLE) →
        ∃ q, r.getLast? = some q ∧ exFuncHeap.typeAt q = some TableType.FUNC_TABLE ∧
          ∀ p ∈ r.dropLast, exFuncHeap.typeAt p ≠ some TableType.FUNC_TABLE) ∧
      ((∀ p ∈ [1, 2], exFuncHeap.typeAt p ≠ some TableType.FUNC_TABLE) → r = [1, 2])) ∧
    (∃ r, SymbolTableStack.GetUntilClassTable ⟨[1, 2], some 0⟩ exFuncHeap = .ok r ∧
      r <+: [1, 2] ∧
      ((∃ p ∈ [1, 2], exFuncHeap.typeAt p = some TableType.CLASS_TABLE) →
        ∃ q, r.getLast? = some q ∧ exFuncHeap.typeAt q = some TableType.CLASS_TABLE ∧
          ∀ p ∈ r.dropLast, exFuncHeap.typeAt p ≠ some TableType.CLASS_TABLE) ∧
      ((∀ p ∈ [1, 2], exFuncHeap.typeAt p ≠ some TableType.CLASS_TABLE) → r = [1, 2])) :=
  ⟨by decide, getUntil_returns_prefix_to_first ⟨[1, 2], some 0⟩ exFuncHeap (by decide)⟩

/-- C25: `Push(t, false)` appends `t` as the new top and keeps main;
`Push(t, true)` makes `t` the main table and keeps the stack; `Pop` takes only
the top table off a stack that has one (on an empty stack `pop_back` is
undefined); `Push(t)` followed by `Pop` gives back the stack and main as they
were. -/
theorem push_pop_algebra (S : SymbolTableStack) (t : SymbolTablePtr) :
    ((S.Push t false).stack_ = S.stack_ ++ [t] ∧ (S.Push t false).main_table_ = S.main_table_) ∧
    ((S.Push t true).main_table_ = some t ∧ (S.Push t true).stack_ = S.stack_) ∧
    (∀ l m, (SymbolTableStack.mk (l ++ [t]) m).Pop = .ok ⟨l, m⟩) ∧
    (S.Push t false).Pop = .ok S ∧
    (∀ m, (SymbolTableStack.mk [] m).Pop = .error Fault.undefined) := by
  refine ⟨⟨rfl, rfl⟩, ⟨rfl, rfl⟩, ?_, ?_, fun _ => rfl⟩
  · intro l m
    simp [SymbolTableStack.Pop]
  · cases S
    simp [SymbolTableStack.Push, SymbolTableStack.Pop]

/-! ### Closures -/

theorem getUntil_eq_untilFirst (H : Heap) (kind : TableType) (l : List SymbolTablePtr)
    (hl : ∀ p ∈ l, p < H.length) :
    SymbolTableStack.getUntil H kind l = .ok (untilFirst H kind l) := by
  induction l with
  | nil => rfl
  | cons p rest ih =>
    obtain ⟨t, ht⟩ := H.getElem?_of_lt p (hl p (List.mem_cons_self _ _))
    have ih' := ih (fun q hq => hl q (List.mem_cons_of_mem _ hq))
    by_cases hk : t.tableType = kind
    · have hp : H.isKind kind p = true := by simp [Heap.isKind, ht, hk]
      simp [SymbolTableStack.getUntil, untilFirst, ht, hk, hp]
    · have hp : H.isKind kind p = false := by simp [Heap.isKind, ht, hk]
      simp only [SymbolTableStack.getUntil, ht, hk, ih', ne_eq, not_false_eq_true, if_true]
      simp [untilFirst, hp]

theorem untilFirst_subset (H : Heap) (kind : TableType) (l : List SymbolTablePtr) :
    ∀ p ∈ untilFirst H kind l, p ∈ l := by
  intro p hp
  unfold untilFirst at hp
  rcases List.mem_append.1 hp with h | h
  · exact (List.takeWhile_sublist _).subset h
  · have h' : p ∈ l.dropWhile (fun p => !H.isKind kind p) := by
      cases hd : l.dropWhile (fun p => !H.isKind kind p) with
      | nil => simp [hd] at h
      | cons a as =>
        simp [hd] at h
        simp [h]
    exact (List.dropWhile_sublist _).subset h'

theorem HasClassTable_eq (H : Heap) (l : List SymbolTablePtr) (hl : ∀ p ∈ l, p < H.length) :
    SymbolTableStack.HasClassTable ⟨l, none⟩ H = .ok (l.any (H.isKind TableType.CLASS_TABLE)) := by
  induction l with
  | nil => rfl
  | cons p rest ih =>
    obtain ⟨t, ht⟩ := H.getElem?_of_lt p (hl p (List.mem_cons_self _ _))
    have ih' := ih (fun q hq => hl q (List.mem_cons_of_mem _ hq))
    unfold SymbolTableStack.HasClassTable at ih' ⊢
    simp only [List.foldr_cons, ht, List.any_cons, Heap.isKind]
    by_cases hk : t.tableType = TableType.CLASS_TABLE
    · simp [hk]
    · simp only [hk, if_false, decide_False, Bool.false_or]
      exact ih'

theorem range_map_append (H E : Heap) :
    (List.range' H.length E.length).map (fun i => (H ++ E)[i]?) = E.map some := by
  induction E generalizing H with
  | nil => rfl
  | cons e E ih =>
    have h := ih (H ++ [e])
    simp only [List.length_append, List.length_singleton, List.append_assoc,
      List.singleton_append] at h
    have he : (H ++ e :: E)[H.length]? = some e := by
      rw [List.getElem?_append_right (Nat.le_refl _)]
      simp
    simp only [List.length_cons, List.range'_succ, List.map_cons, h, he]

theorem Append_eq (S : SymbolTableStack) (H : Heap) (l : List SymbolTablePtr)
    (hl : ∀ p ∈ l, p < H.length) :
    S.Append H l = .ok (⟨S.stack_ ++ List.range' H.length l.length, S.main_table_⟩,
      H ++ l.filterMap (fun p => (H[p]?).map SymbolTable.copy)) ∧
    (l.filterMap (fun p => (H[p]?).map SymbolTable.copy)).map some =
      l.map (fun p => (H[p]?).map SymbolTable.copy) := by
  induction l generalizing S H with
  | nil =>
    cases S
    simp [SymbolTableStack.Append]
  | cons p rest ih =>
    have hp := hl p (List.mem_cons_self _ _)
    obtain ⟨t, ht⟩ := H.getElem?_of_lt p hp
    have hrest : ∀ q ∈ rest, q < (H ++ [t.copy]).length := fun q hq => by
      rw [List.length_append]
      exact Nat.lt_of_lt_of_le (hl q (List.mem_cons_of_mem _ hq)) (Nat.le_add_right _ _)
    obtain ⟨ih1, ih2⟩ := ih ⟨S.stack_ ++ [H.length], S.main_table_⟩ (H ++ [t.copy]) hrest
    have hsame : ∀ q ∈ rest, (H ++ [t.copy])[q]? = H[q]? := fun q hq =>
      List.getElem?_append_left (hl q (List.mem_cons_of_mem _ hq))
    have hfm : rest.filterMap (fun p => ((H ++ [t.copy])[p]?).map SymbolTable.copy) =
        rest.filterMap (fun p => (H[p]?).map SymbolTable.copy) := by
      apply List.filterMap_congr
      intro q hq
      rw [hsame q hq]
    have hm : rest.map (fun p => ((H ++ [t.copy])[p]?).map SymbolTable.copy) =
        rest.map (fun p => (H[p]?).map SymbolTable.copy) := by
      apply List.map_congr_left
      intro q hq
      rw [hsame q hq]
    rw [hfm] at ih1 ih2
    rw [hm] at ih2
    constructor
    · unfold SymbolTableStack.Append
      simp only [ht]
      rw [ih1]
      simp [List.range'_succ, ht]
    · simp [ht, ih2]

theorem new_lambda_eq (S : SymbolTableStack) (H : Heap) (hs : S.StackLive H) :
    ∃ l, l = (if S.stack_.any (H.isKind TableType.CLASS_TABLE)
        then untilFirst H TableType.CLASS_TABLE S.stack_
        else untilFirst H TableType.FUNC_TABLE S.stack_) ∧
      FuncDeclObject.new S H true =
        .ok (⟨List.range' H.length l.length, S.MainTable H⟩,
          H ++ l.filterMap (fun p => (H[p]?).map SymbolTable.copy)) ∧
      (l.filterMap (fun p => (H[p]?).map SymbolTable.copy)).map some =
        l.map (fun p => (H[p]?).map SymbolTable.copy) := by
  have hcls : S.HasClassTable H = .ok (S.stack_.any (H.isKind TableType.CLASS_TABLE)) :=
    HasClassTable_eq H S.stack_ hs
  have hlive : ∀ kind, ∀ p ∈ untilFirst H kind S.stack_, p < H.length :=
    fun kind p hp => hs p (untilFirst_subset H kind S.stack_ p hp)
  refine ⟨_, rfl, ?_⟩
  unfold FuncDeclObject.new
  simp only [if_true, hcls]
  cases hany : S.stack_.any (H.isKind TableType.CLASS_TABLE) with
  | true =>
    obtain ⟨h1, h2⟩ := Append_eq ⟨[], S.MainTable H⟩ H _ (hlive TableType.CLASS_TABLE)
    simp only [SymbolTableStack.GetUntilClassTable,
      getUntil_eq_untilFirst H TableType.CLASS_TABLE S.stack_ hs, if_true]
    exact ⟨by rw [h1]; rfl, h2⟩
  | false =>
    obtain ⟨h1, h2⟩ := Append_eq ⟨[], S.MainTable H⟩ H _ (hlive TableType.FUNC_TABLE)
    simp only [SymbolTableStack.GetUntilFuncTable,
      getUntil_eq_untilFirst H TableType.FUNC_TABLE S.stack_ hs]
    exact ⟨by rw [h1]; rfl, h2⟩

theorem isKind_iff_typeAt (H : Heap) (kind : TableType) (p : SymbolTablePtr) :
    H.isKind kind p = true ↔ H.typeAt p = some kind := by
  unfold Heap.isKind Heap.typeAt
  cases H[p]? <;> simp

theorem tables_of_append (H E : Heap) (m : Option SymbolTablePtr) :
    SymbolTableStack.tables ⟨List.range' H.length E.length, m⟩ (H ++ E) = E.map some :=
  range_map_append H E

/-- C21 (amended): on a stack whose pointers own their tables, the constructor
of a lambda succeeds and captures the defining stack's main table together with
copies, in new tables above the old ones (which stay as they were), of the
defining stack's tables from the bottom up to and including the first `Func`
table counted from the bottom (the whole stack when it has none), provided the
stack has no `Class` table; with a `Class` table the copies end at the first
`Class` table counted from the bottom. -/
theorem lambda_captures_to_first (S : SymbolTableStack) (H : Heap) (hs : S.StackLive H) :
    ∃ C H', FuncDeclObject.new S H true = .ok (C, H') ∧
      C.main_table_ = S.MainTable H ∧
      (∀ p, p < H.length → H'[p]? = H[p]?) ∧
      (∀ q ∈ C.stack_, H.length ≤ q) ∧
      ((∀ p ∈ S.stack_, H.typeAt p ≠ some TableType.CLASS_TABLE) →
        C.tables H' = (untilFirst H TableType.FUNC_TABLE S.stack_).map
          (fun p => (H[p]?).map SymbolTable.copy)) ∧
      ((∃ p ∈ S.stack_, H.typeAt p = some TableType.CLASS_TABLE) →
        C.tables H' = (untilFirst H TableType.CLASS_TABLE S.stack_).map
          (fun p => (H[p]?).map SymbolTable.copy)) := by
  obtain ⟨l, hl, hnew, hmap⟩ := new_lambda_eq S H hs
  have hlen : (l.filterMap (fun p => (H[p]?).map SymbolTable.copy)).length = l.length := by
    have := congrArg List.length hmap
    simpa using this
  have htab : SymbolTableStack.tables ⟨List.range' H.length l.length, S.MainTable H⟩
      (H ++ l.filterMap (fun p => (H[p]?).map SymbolTable.copy)) =
      l.map (fun p => (H[p]?).map SymbolTable.copy) := by
    rw [← hmap, ← hlen]
    exact tables_of_append H _ _
  refine ⟨_, _, hnew, rfl, ?_, ?_, ?_, ?_⟩
  · intro p hp
    exact List.getElem?_append_left hp
  · intro q hq
    exact (List.mem_range'_1.1 hq).1
  · intro hno
    have hany : S.stack_.any (H.isKind TableType.CLASS_TABLE) = false := by
      rw [List.any_eq_false]
      intro p hp hk
      exact hno p hp ((isKind_iff_typeAt H _ p).1 hk)
    rw [hany] at hl
    rw [htab, hl]
    rfl
  · rintro ⟨p, hp, hk⟩
    have hany : S.stack_.any (H.isKind TableType.CLASS_TABLE) = true :=
      List.any_eq_true.2 ⟨p, hp, (isKind_iff_typeAt H _ p).2 hk⟩
    rw [hany] at hl
    rw [htab, hl]
    rfl

/-- Witness of C21 (amended): inside a function declared in a block of another
function, a lambda captures a copy of the outer function's table alone. -/
theorem lambda_captures_to_first_witness :
    exNestedStack.StackLive exNestedHeap ∧
    ∃ C H', FuncDeclObject.new exNestedStack exNestedHeap true = .ok (C, H') ∧
      C.main_table_ = exNestedStack.MainTable exNestedHeap ∧
      (∀ p, p < exNestedHeap.length → H'[p]? = exNestedHeap[p]?) ∧
      (∀ q ∈ C.stack_, exNestedHeap.length ≤ q) ∧
      ((∀ p ∈ exNestedStack.stack_, exNestedHeap.typeAt p ≠ some TableType.CLASS_TABLE) →
        C.tables H' = (untilFirst exNestedHeap TableType.FUNC_TABLE exNestedStack.stack_).map
          (fun p => (exNestedHeap[p]?).map SymbolTable.copy)) ∧
      ((∃ p ∈ exNestedStack.stack_, exNestedHeap.typeAt p = some TableType.CLASS_TABLE) →
        C.tables H' = (untilFirst exNestedHeap TableType.CLASS_TABLE exNestedStack.stack_).map
          (fun p => (exNestedHeap[p]?).map SymbolTable.copy)) :=
  ⟨by decide, lambda_captures_to_first exNestedStack exNestedHeap (by decide)⟩

/-- C21 (counterexample): inside a function declared in a block of another
function the stack is `outer function, block, inner function`.  The nearest
enclosing `Func` table is the inner one, at the top, so the slice up to it is
the whole stack; a lambda made there captures one table, a copy of the outer
function's. -/
theorem lambda_capture_not_nearest_func :
    FuncDeclObject.new exNestedStack exNestedHeap true =
      .ok (⟨[4], some 0⟩, [exMain, exFunc, exOuter, exFuncInner, exFunc]) ∧
    untilNearest exNestedHeap TableType.FUNC_TABLE exNestedStack.stack_ = [1, 2, 3] ∧
    SymbolTableStack.tables ⟨[4], some 0⟩ [exMain, exFunc, exOuter, exFuncInner, exFunc] ≠
      (untilNearest exNestedHeap TableType.FUNC_TABLE exNestedStack.stack_).map
        (fun p => exNestedHeap[p]?) ∧
    SymbolTableStack.tables ⟨[4], some 0⟩ [exMain, exFunc, exOuter, exFuncInner, exFunc] ≠
      (untilNearest exNestedHeap TableType.FUNC_TABLE exNestedStack.stack_).map
        (fun p => (exNestedHeap[p]?).map SymbolTable.copy) := by
  refine ⟨rfl, by decide, by decide, by decide⟩

/-- Inside a method the stack is `block, class, method`: a lambda made there
captures copies of the block's and of the class's tables. -/
theorem new_lambda_in_method :
    FuncDeclObject.new exClassStack exClassHeap true =
      .ok (⟨[4, 5], some 0⟩, [exMain, exOuter, exClass, exFunc, exOuter, exClass]) := by
  rfl

/-- C22: the constructor of a function that is not a lambda succeeds on every
defining stack, gives a closure with an empty scope stack whose main table is
the defining stack's main table, and changes no table.  So a name that the
(live) main table does not bind is not found through the closure, whatever the
tables of the defining stack bind: `Lookup` without creation throws
`SymbolNotFound` and `LookupObj` answers `(null, false)`. -/
theorem non_lambda_captures_main_only (S : SymbolTableStack) (H : Heap) :
    FuncDeclObject.new S H false = .ok (⟨[], S.MainTable H⟩, H) ∧
    ∀ m name, S.main_table_ = some m → m < H.length → H.binds name m = false →
      S.MainTable H = some m ∧
      SymbolTableStack.Lookup ⟨[], S.MainTable H⟩ H name false =
        (.error (Fault.thrown (SymbolTableStack.symbolNotFound name)), H) ∧
      SymbolTableStack.LookupObj ⟨[], S.MainTable H⟩ H name = (.ok (none, false), H) := by
  refine ⟨rfl, ?_⟩
  intro m name hm hlt hb
  obtain ⟨tm, htm⟩ := H.getElem?_of_lt m hlt
  have hmain : S.MainTable H = some m := by
    simp [SymbolTableStack.MainTable, SymbolTableStack.lockMain, hm, htm]
  have hlk : tm.Lookup name = none := by
    simpa [Heap.binds, Heap.cell, htm] using hb
  rw [hmain]
  refine ⟨rfl, ?_, ?_⟩
  · simp [SymbolTableStack.Lookup, SymbolTableStack.search, SymbolTableStack.lockMain, htm, hlk]
  · simp [SymbolTableStack.LookupObj, SymbolTableStack.search, SymbolTableStack.lockMain, htm,
      hlk]

/-- Witness of C22: `x` is bound in both scopes of the stack and not in main;
through the closure of a function declared there it is not found. -/
theorem non_lambda_captures_main_only_witness :
    (exStack.stackBinder exHeap "x" = some 2 ∧ exStack.main_table_ = some 0 ∧
      0 < exHeap.length ∧ exHeap.binds "x" 0 = false) ∧
    exStack.MainTable exHeap = some 0 ∧
    SymbolTableStack.Lookup ⟨[], exStack.MainTable exHeap⟩ exHeap "x" false =
      (.error (Fault.thrown (SymbolTableStack.symbolNotFound "x")), exHeap) ∧
    SymbolTableStack.LookupObj ⟨[], exStack.MainTable exHeap⟩ exHeap "x" =
      (.ok (none, false), exHeap) :=
  ⟨⟨by decide, rfl, by decide, by decide⟩,
    (non_lambda_captures_main_only exStack exHeap).2 0 "x" rfl (by decide) (by decide)⟩

theorem Heap.getElem?_store_ne (H : Heap) (r : CellRef) (v : ObjectPtr) (q : SymbolTablePtr)
    (h : r.table ≠ q) : (H.store r v)[q]? = H[q]? := by
  unfold Heap.store
  cases H[r.table]? with
  | none => rfl
  | some t => exact List.getElem?_set_ne h

theorem search_congr (H1 H2 : Heap) (name : String) (l : List SymbolTablePtr)
    (h : ∀ q ∈ l, H1[q]? = H2[q]?) :
    SymbolTableStack.search H1 name l = SymbolTableStack.search H2 name l := by
  induction l with
  | nil => rfl
  | cons p rest ih =>
    unfold SymbolTableStack.search
    rw [h p (List.mem_cons_self _ _), ih (fun q hq => h q (List.mem_cons_of_mem _ hq))]

/-- C23 (amended): on a stack whose pointers own their tables, once a lambda
was constructed, a rebinding through any cell of the tables that existed at
the construction (those of the defining function among them) changes none of
the captured tables, and a lookup of a name that a captured table binds gives
through the lambda's stack the same object before and after the rebinding: the
captured tables are copies, whose cells keep the objects bound at construction. -/
theorem lambda_captured_tables_are_copies (S C : SymbolTableStack) (H H' : Heap) (r : CellRef)
    (v : ObjectPtr) (hs : S.StackLive H)
    (hnew : FuncDeclObject.new S H true = .ok (C, H')) (hr : r.table < H.length) :
    C.tables (H'.store r v) = C.tables H' ∧
    ∀ n p, C.stackBinder H' n = some p →
      ∃ a, H'.cell ⟨p, n⟩ = some a ∧ (H'.store r v).cell ⟨p, n⟩ = some a ∧
        C.LookupObj H' n = (.ok (a.value_, true), H') ∧
        C.LookupObj (H'.store r v) n = (.ok (a.value_, true), H'.store r v) := by
  obtain ⟨l, -, hnew', hmap⟩ := new_lambda_eq S H hs
  rw [hnew'] at hnew
  have hC : C = ⟨List.range' H.length l.length, S.MainTable H⟩ := by
    injection hnew with h
    exact (congrArg Prod.fst h).symm
  have hH : H' = H ++ l.filterMap (fun p => (H[p]?).map SymbolTable.copy) := by
    injection hnew with h
    exact (congrArg Prod.snd h).symm
  have hlen : (l.filterMap (fun p => (H[p]?).map SymbolTable.copy)).length = l.length := by
    have := congrArg List.length hmap
    simpa using this
  have hmem : ∀ q ∈ C.stack_, H.length ≤ q ∧ q < H'.length := by
    intro q hq
    rw [hC] at hq
    have := List.mem_range'_1.1 hq
    rw [hH, List.length_append, hlen]
    exact this
  have hsame : ∀ q ∈ C.stack_, (H'.store r v)[q]? = H'[q]? := by
    intro q hq
    apply Heap.getElem?_store_ne
    intro h
    have h1 := (hmem q hq).1
    rw [← h] at h1
    exact absurd hr (Nat.not_lt.2 h1)
  have hlive : C.StackLive H' := fun q hq => (hmem q hq).2
  refine ⟨List.map_congr_left hsame, ?_⟩
  intro n p hp
  obtain ⟨a, ha, hsearch⟩ := SymbolTableStack.search_stack_some C H' n p hlive hp
  have hpmem : p ∈ C.stack_ := List.mem_reverse.1 (List.mem_of_find?_eq_some hp)
  have hsearch2 : SymbolTableStack.search (H'.store r v) n C.stack_.reverse =
      .ok (some (p, a)) := by
    rw [search_congr (H'.store r v) H' n _ (fun q hq => hsame q (List.mem_reverse.1 hq))]
    exact hsearch
  refine ⟨a, ha, ?_, ?_, ?_⟩
  · unfold Heap.cell at ha ⊢
    simp only [hsame p hpmem]
    exact ha
  · unfold SymbolTableStack.LookupObj
    rw [hsearch]
    rfl
  · unfold SymbolTableStack.LookupObj
    rw [hsearch2]
    rfl

/-- Witness of C23 (amended): a lambda made in a function that binds `x`. -/
theorem lambda_captured_tables_are_copies_witness :
    (exLambdaStack.StackLive exLambdaHeap ∧
      FuncDeclObject.new exLambdaStack exLambdaHeap true =
        .ok (⟨[2], some 0⟩, [exMain, exFunc, exFunc]) ∧
      (⟨1, "x"⟩ : CellRef).table < exLambdaHeap.length) ∧
    SymbolTableStack.tables ⟨[2], some 0⟩
        (Heap.store [exMain, exFunc, exFunc] ⟨1, "x"⟩ (some 9)) =
      SymbolTableStack.tables ⟨[2], some 0⟩ [exMain, exFunc, exFunc] ∧
    ∀ n p, SymbolTableStack.stackBinder ⟨[2], some 0⟩ [exMain, exFunc, exFunc] n = some p →
      ∃ a, Heap.cell [exMain, exFunc, exFunc] ⟨p, n⟩ = some a ∧
        (Heap.store [exMain, exFunc, exFunc] ⟨1, "x"⟩ (some 9)).cell ⟨p, n⟩ = some a ∧
        SymbolTableStack.LookupObj ⟨[2], some 0⟩ [exMain, exFunc, exFunc] n =
          (.ok (a.value_, true), [exMain, exFunc, exFunc]) ∧
        SymbolTableStack.LookupObj ⟨[2], some 0⟩
            (Heap.store [exMain, exFunc, exFunc] ⟨1, "x"⟩ (some 9)) n =
          (.ok (a.value_, true), Heap.store [exMain, exFunc, exFunc] ⟨1, "x"⟩ (some 9)) :=
  ⟨⟨by decide, rfl, by decide⟩,
    lambda_captured_tables_are_copies exLambdaStack ⟨[2], some 0⟩ exLambdaHeap
      [exMain, exFunc, exFunc] ⟨1, "x"⟩ (some 9) (by decide) rfl (by decide)⟩

/-- C23 (counterexample): a lambda is made inside a function whose table, at
address 1, binds `x` to the object 5; the closure gets a copy of that table at
address 2.  After `x` is rebound to the object 9 through the cell that the
function's own stack resolves, the function sees 9 and the lambda's stack
still sees 5. -/
theorem lambda_capture_not_by_reference :
    FuncDeclObject.new exLambdaStack exLambdaHeap true =
      .ok (⟨[2], some 0⟩, [exMain, exFunc, exFunc]) ∧
    exLambdaStack.Lookup [exMain, exFunc, exFunc] "x" false =
      (.ok ⟨1, "x"⟩, [exMain, exFunc, exFunc]) ∧
    (exLambdaStack.LookupObj (Heap.store [exMain, exFunc, exFunc] ⟨1, "x"⟩ (some 9)) "x").1 =
      .ok (some 9, true) ∧
    (SymbolTableStack.LookupObj ⟨[2], some 0⟩
      (Heap.store [exMain, exFunc, exFunc] ⟨1, "x"⟩ (some 9)) "x").1 = .ok (some 5, true) := by
  refine ⟨rfl, rfl, rfl, rfl⟩

/-! ### `SetValue`, `InsertEntry` and `SetEntry` -/

theorem SetValueObj_lookup (t : SymbolTable) (name : String) (v : ObjectPtr) :
    ∃ a, (t.SetValueObj name v).Lookup name = some a ∧ a.value_ = v ∧
      (∀ b, t.Lookup name = some b → a.global_ = b.global_) ∧
      (t.Lookup name = none → a.global_ = false) := by
  unfold SymbolTable.SetValueObj SymbolTable.Lookup
  cases h : SymbolMap.find t.map_ name with
  | some b =>
    refine ⟨b.set_value v, ?_, rfl, ?_, ?_⟩
    · simp [SymbolMap.find_assign, h]
    · intro b' hb'
      cases hb'
      rfl
    · intro hn
      cases hn
  | none =>
    refine ⟨⟨v, false⟩, ?_, rfl, ?_, fun _ => rfl⟩
    · simp [SymbolMap.find]
    · intro b hb
      cases hb

/-- C29 (what the code does): `SetValue(name, symbol)` inserts the symbol and
returns `true` when the table has no entry for the name; when it has one, it
returns `false` and leaves the table as it was, the value of the entry
included, and so does `InsertEntry` on the top table of the stack (and on main
under an empty stack). -/
theorem setValue_symbol_keeps_existing (t : SymbolTable) (name : String)
    (symbol : SymbolAttr) :
    (t.Lookup name = none →
      (t.SetValueAttr name symbol).1 = true ∧
      (t.SetValueAttr name symbol).2.Lookup name = some symbol ∧
      (t.SetValueAttr name symbol).2.map_ = (name, symbol) :: t.map_) ∧
    (∀ a, t.Lookup name = some a → t.SetValueAttr name symbol = (false, t)) ∧
    (∀ a (S : SymbolTableStack) (H : Heap) q, t.Lookup name = some a →
      S.stack_.getLast? = some q → H[q]? = some t →
      S.InsertEntry H name symbol = (.ok false, H)) ∧
    (∀ a (S : SymbolTableStack) (H : Heap) m, t.Lookup name = some a →
      S.stack_ = [] → S.main_table_ = some m → H[m]? = some t →
      S.InsertEntry H name symbol = (.ok false, H)) := by
  refine ⟨?_, ?_, ?_, ?_⟩
  · intro h
    have h' : SymbolMap.find t.map_ name = none := h
    simp [SymbolTable.SetValueAttr, h', SymbolTable.Lookup, SymbolMap.find]
  · intro a h
    have h' : SymbolMap.find t.map_ name = some a := h
    simp [SymbolTable.SetValueAttr, h']
  · intro a S H q h hq ht
    have h' : SymbolMap.find t.map_ name = some a := h
    simp [SymbolTableStack.InsertEntry, hq, ht, SymbolTable.SetValueAttr, h',
      set_of_getElem? H q t ht]
  · intro a S H m h hnil hm ht
    have h' : SymbolMap.find t.map_ name = some a := h
    simp [SymbolTableStack.InsertEntry, hnil, SymbolTableStack.lockMain, hm, ht,
      SymbolTable.SetValueAttr, h', set_of_getElem? H m t ht]

/-- Witness of C29: in a function table that binds `x` to the object 5,
`SetValue("x", SymbolAttr(9, false))` returns `false` and `x` stays bound to 5. -/
theorem setValue_symbol_keeps_existing_witness :
    exFunc.Lookup "x" = some ⟨some 5, false⟩ ∧
    exFunc.SetValueAttr "x" ⟨some 9, false⟩ = (false, exFunc) ∧
    SymbolTableStack.InsertEntry exLambdaStack exLambdaHeap "x" ⟨some 9, false⟩ =
      (.ok false, exLambdaHeap) :=
  ⟨rfl,
    (setValue_symbol_keeps_existing exFunc "x" ⟨some 9, false⟩).2.1 ⟨some 5, false⟩ rfl,
    (setValue_symbol_keeps_existing exFunc "x" ⟨some 9, false⟩).2.2.1 ⟨some 5, false⟩
      exLambdaStack exLambdaHeap 1 rfl rfl rfl⟩

/-- C28 (what the code does): on a stack with a top table and a live main
table, `SetEntry(name, v)` succeeds and leaves `name` bound to the null
pointer in main, whatever `v` is; the top table, when it is not main itself,
binds `name` to `v`.  On an empty stack main binds `name` to `v`. -/
theorem setEntry_leaves_null_in_main (S : SymbolTableStack) (H : Heap) (name : String)
    (v : ObjectPtr) (m : SymbolTablePtr) (hm : S.main_table_ = some m) (hlt : m < H.length) :
    (∀ q, S.stack_.getLast? = some q → q < H.length →
      ∃ H', S.SetEntry H name v = (.ok (), H') ∧
        H'.valueAt m name = some none ∧ (q ≠ m → H'.valueAt q name = some v)) ∧
    (S.stack_ = [] →
      ∃ H', S.SetEntry H name v = (.ok (), H') ∧ H'.valueAt m name = some v) := by
  constructor
  · intro q hq hqlt
    obtain ⟨tq, htq⟩ := H.getElem?_of_lt q hqlt
    have hlt1 : m < (H.set q (tq.SetValueObj name v)).length := by
      rw [List.length_set]
      exact hlt
    obtain ⟨tm, htm⟩ := Heap.getElem?_of_lt _ m hlt1
    obtain ⟨a, ha, hav, -, -⟩ := SetValueObj_lookup tm name none
    refine ⟨(H.set q (tq.SetValueObj name v)).set m (tm.SetValueObj name none), ?_, ?_, ?_⟩
    · simp [SymbolTableStack.SetEntry, hq, htq, SymbolTableStack.lockMain, hm, htm]
    · have hget : ((H.set q (tq.SetValueObj name v)).set m (tm.SetValueObj name none))[m]? =
          some (tm.SetValueObj name none) := by
        rw [List.getElem?_set_self hlt1]
      simp [Heap.valueAt, Heap.cell, hget, ha, hav]
    · intro hne
      obtain ⟨b, hb, hbv, -, -⟩ := SetValueObj_lookup tq name v
      have hget : ((H.set q (tq.SetValueObj name v)).set m (tm.SetValueObj name none))[q]? =
          some (tq.SetValueObj name v) := by
        rw [List.getElem?_set_ne (fun h => hne h.symm), List.getElem?_set_self hqlt]
      simp [Heap.valueAt, Heap.cell, hget, hb, hbv]
  · intro hnil
    obtain ⟨tm, htm⟩ := H.getElem?_of_lt m hlt
    obtain ⟨a, ha, hav, -, -⟩ := SetValueObj_lookup tm name v
    refine ⟨H.set m (tm.SetValueObj name v), ?_, ?_⟩
    · simp [SymbolTableStack.SetEntry, hnil, SymbolTableStack.lockMain, hm, htm]
    · have hget : (H.set m (tm.SetValueObj name v))[m]? = some (tm.SetValueObj name v) := by
        rw [List.getElem?_set_self hlt]
      simp [Heap.valueAt, Heap.cell, hget, ha, hav]

/-- Witness of C28: inside a function at top level, `SetEntry("g", 9)` binds
`g` to 9 in the function's table and overwrites main's `g` with the null
pointer. -/
theorem setEntry_leaves_null_in_main_witness :
    (exLambdaStack.main_table_ = some 0 ∧ 0 < exLambdaHeap.length ∧
      exLambdaStack.stack_.getLast? = some 1 ∧ 1 < exLambdaHeap.length) ∧
    exLambdaHeap.valueAt 0 "g" = some (some 0) ∧
    ∃ H', exLambdaStack.SetEntry exLambdaHeap "g" (some 9) = (.ok (), H') ∧
      H'.valueAt 0 "g" = some none ∧ ((1 : SymbolTablePtr) ≠ 0 → H'.valueAt 1 "g" = some (some 9)) :=
  ⟨⟨rfl, by decide, rfl, by decide⟩, rfl,
    (setEntry_leaves_null_in_main exLambdaStack exLambdaHeap "g" (some 9) 0 rfl
      (by decide)).1 1 rfl (by decide)⟩

/-! ### Reading back what was written through `Lookup` -/

theorem LookupObj_of_stackBinder (S : SymbolTableStack) (H : Heap) (n : String)
    (p : SymbolTablePtr) (a : SymbolAttr) (hs : S.StackLive H)
    (hsb : S.stackBinder H n = some p) (ha : H.cell ⟨p, n⟩ = some a) :
    S.LookupObj H n = (.ok (a.value_, true), H) := by
  obtain ⟨a', ha', hsearch⟩ := SymbolTableStack.search_stack_some S H n p hs hsb
  rw [ha] at ha'
  cases ha'
  unfold SymbolTableStack.LookupObj
  rw [hsearch]
  rfl

theorem LookupObj_of_main (S : SymbolTableStack) (H : Heap) (n : String)
    (m : SymbolTablePtr) (a : SymbolAttr) (hs : S.StackLive H)
    (hsb : S.stackBinder H n = none) (hm : S.main_table_ = some m)
    (ha : H.cell ⟨m, n⟩ = some a) :
    S.LookupObj H n = (.ok (if a.global_ then (a.value_, true) else (none, false)), H) := by
  unfold SymbolTableStack.LookupObj
  rw [SymbolTableStack.search_stack_none S H n hs hsb]
  unfold Heap.cell at ha
  cases htm : H[m]? with
  | none => simp [htm] at ha
  | some tm =>
    simp only [htm] at ha
    simp only [SymbolTableStack.lockMain, hm, htm, ha, SymbolAttr.global,
      SymbolAttr.SharedAccess]
    cases a.global_ <;> rfl

/-- C30 (amended): on a stack whose pointers own their tables and whose main
table is alive, `Lookup(n, create = true)` returns a cell; after an object `v`
is stored through it, `LookupObj(n)` on the same stack returns `(v, true)` when
the cell is in a table of the stack, and also when it is in main and its
`global` flag is set; when the cell is in main with the flag not set,
`LookupObj(n)` returns `(null, false)`.  The last case is that of every cell
that `Lookup` itself creates in main, which it does for an unbound name under
an empty stack. -/
theorem lookup_create_store_then_lookupObj (S : SymbolTableStack) (H : Heap) (n : String)
    (v : ObjectPtr) (hs : S.StackLive H) (hm : S.MainLive H) :
    ∃ r H1, S.Lookup H n true = (.ok r, H1) ∧
      (r.table ∈ S.stack_ → S.LookupObj (H1.store r v) n = (.ok (v, true), H1.store r v)) ∧
      (r.table ∉ S.stack_ → ∃ a, H1.cell r = some a ∧ S.main_table_ = some r.table ∧
        S.LookupObj (H1.store r v) n =
          (.ok (if a.global_ then (v, true) else (none, false)), H1.store r v)) ∧
      (S.stack_ = [] → S.firstBinder H n = none →
        S.LookupObj (H1.store r v) n = (.ok (none, false), H1.store r v)) := by
  have hlive := S.searchOrder_live H hs hm
  have hne := S.searchOrder_ne_nil H hm
  rw [SymbolTableStack.Lookup_eq_resolveIn S H n true hs hm]
  obtain ⟨p, hres, hfind, hlen, -, -, -⟩ := find_after_resolveIn S.searchOrder H n hlive hne
  generalize hH1 : (resolveIn S.searchOrder H n true).2 = H1 at hres hfind hlen
  have hpair : resolveIn S.searchOrder H n true = (.ok ⟨p, n⟩, H1) := by
    rw [← hH1, ← hres]
  have hbp : H1.binds n p = true := List.find?_some hfind
  obtain ⟨a, ha⟩ := (Heap.binds_iff _ n p).1 hbp
  have hs2 : S.StackLive (H1.store ⟨p, n⟩ v) := by
    intro q hq
    rw [Heap.length_store, hlen]
    exact hs q hq
  have hfb : S.firstBinder (H1.store ⟨p, n⟩ v) n = some p := by
    unfold SymbolTableStack.firstBinder
    rw [find?_congr_mem _ _ (H1.binds n) (fun q _ => Heap.binds_store H1 ⟨p, n⟩ v n q)]
    exact hfind
  have hcell : (H1.store ⟨p, n⟩ v).cell ⟨p, n⟩ = some (a.set_value v) := by
    rw [Heap.cell_store]
    simp [ha]
  have hstack : p ∈ S.stack_ → S.stackBinder (H1.store ⟨p, n⟩ v) n = some p := by
    intro hp
    cases hsb : S.stackBinder (H1.store ⟨p, n⟩ v) n with
    | some p' =>
      rw [SymbolTableStack.firstBinder_of_stackBinder S _ n p' hsb] at hfb
      exact hfb
    | none =>
      have := List.find?_eq_none.1 hsb p (List.mem_reverse.2 hp)
      rw [Heap.binds_store, hbp] at this
      exact absurd rfl this
  have hmain : p ∉ S.stack_ → S.stackBinder (H1.store ⟨p, n⟩ v) n = none ∧
      S.main_table_ = some p := by
    intro hp
    cases hsb : S.stackBinder (H1.store ⟨p, n⟩ v) n with
    | some p' =>
      rw [SymbolTableStack.firstBinder_of_stackBinder S _ n p' hsb] at hfb
      cases hfb
      exact absurd (List.mem_reverse.1 (List.mem_of_find?_eq_some hsb)) hp
    | none =>
      refine ⟨rfl, ?_⟩
      rw [SymbolTableStack.firstBinder_of_stackBinder_none S _ n hsb] at hfb
      have := List.mem_of_find?_eq_some hfb
      cases hmt : S.main_table_ with
      | none => simp [hmt] at this
      | some m =>
        simp only [hmt, Option.toList, List.mem_singleton] at this
        rw [this]
  have hmainObj : p ∉ S.stack_ →
      S.LookupObj (H1.store ⟨p, n⟩ v) n =
        (.ok (if a.global_ then (v, true) else (none, false)), H1.store ⟨p, n⟩ v) := by
    intro hp
    obtain ⟨hsb, hmt⟩ := hmain hp
    exact LookupObj_of_main S _ n p (a.set_value v) hs2 hsb hmt hcell
  refine ⟨⟨p, n⟩, H1, hpair, ?_, ?_, ?_⟩
  · intro hp
    exact LookupObj_of_stackBinder S _ n p (a.set_value v) hs2 (hstack hp) hcell
  · intro hp
    exact ⟨a, ha, (hmain hp).2, hmainObj hp⟩
  · intro hnil hunb
    have hp : p ∉ S.stack_ := by
      rw [hnil]
      exact List.not_mem_nil _
    obtain ⟨m, hmt, hmlt⟩ := hm
    have hord : S.searchOrder = [m] := by
      simp [SymbolTableStack.searchOrder, hnil, hmt]
    have hcreate := resolveIn_create_of_none S.searchOrder H n m (by rw [hord]; rfl) hunb
    rw [hpair] at hcreate
    have hpm : p = m := by
      have := congrArg Prod.fst hcreate
      simp only [Except.ok.injEq, CellRef.mk.injEq] at this
      exact this.1
    have hH : H1 = H.insertDefault m n := congrArg Prod.snd hcreate
    have hfree : H.cell ⟨m, n⟩ = none := by
      have := List.find?_eq_none.1 hunb m (by rw [hord]; exact List.mem_singleton_self _)
      exact (Heap.binds_eq_false_iff H n m).1 (by simpa using this)
    have hadef : a = SymbolAttr.default := by
      rw [hH, hpm, Heap.cell_insertDefault H m n _ hmlt hfree] at ha
      simp only [if_true, Option.some.injEq] at ha
      exact ha.symm
    have := hmainObj hp
    rw [hadef] at this
    exact this

/-- Witness of C30 (amended): `z`, which no table binds, under the two scopes
of the examples: the cell is made in the inner scope and read back. -/
theorem lookup_create_store_then_lookupObj_witness :
    (exStack.StackLive exHeap ∧ exStack.MainLive exHeap) ∧
    ∃ r H1, exStack.Lookup exHeap "z" true = (.ok r, H1) ∧
      (r.table ∈ exStack.stack_ →
        exStack.LookupObj (H1.store r (some 9)) "z" = (.ok (some 9, true), H1.store r (some 9))) ∧
      (r.table ∉ exStack.stack_ → ∃ a, H1.cell r = some a ∧
        exStack.main_table_ = some r.table ∧
        exStack.LookupObj (H1.store r (some 9)) "z" =
          (.ok (if a.global_ then (some 9, true) else (none, false)), H1.store r (some 9))) ∧
      (exStack.stack_ = [] → exStack.firstBinder exHeap "z" = none →
        exStack.LookupObj (H1.store r (some 9)) "z" = (.ok (none, false), H1.store r (some 9))) :=
  ⟨⟨by decide, ⟨0, rfl, by decide⟩⟩,
    lookup_create_store_then_lookupObj exStack exHeap "z" (some 9) (by decide)
      ⟨0, rfl, by decide⟩⟩

/-- C30 (counterexample): under an empty stack over a live main table that
does not bind `z`, `Lookup("z", true)` creates the cell of `z` in main; after
the object 9 is stored through it, `Lookup("z", false)` finds the cell, which
holds 9, and `LookupObj("z")` answers `(null, false)`, the new entry having
`global = false`. -/
theorem lookupObj_misses_created_main_entry :
    exTop.MainLive exHeap ∧
    exTop.Lookup exHeap "z" true =
      (.ok ⟨0, "z"⟩, [⟨("z", ⟨none, false⟩) :: exMain.map_, [], TableType.SCOPE_TABLE⟩,
        exOuter, exInner]) ∧
    (Heap.store (exTop.Lookup exHeap "z" true).2 ⟨0, "z"⟩ (some 9)).valueAt 0 "z" =
      some (some 9) ∧
    (exTop.LookupObj (Heap.store (exTop.Lookup exHeap "z" true).2 ⟨0, "z"⟩ (some 9)) "z").1 =
      .ok (none, false) := by
  refine ⟨⟨0, rfl, by decide⟩, rfl, rfl, rfl⟩

/-! ### Cells that hold the null pointer -/

theorem assign_all_isSome (m : SymbolMap) (n : String) (v : ObjectPtr) (hv : v.isSome = true)
    (h : m.all (fun e => e.2.value_.isSome) = true) :
    (SymbolMap.assign m n v).all (fun e => e.2.value_.isSome) = true := by
  induction m with
  | nil => rfl
  | cons e rest ih =>
    obtain ⟨k, a⟩ := e
    simp only [List.all_cons, Bool.and_eq_true] at h
    unfold SymbolMap.assign
    by_cases hk : k = n
    · simp [hk, SymbolAttr.set_value, hv, h.2]
    · simp [hk, h.1, ih h.2]

theorem SetValueObj_all_isSome (t : SymbolTable) (n : String) (v : ObjectPtr)
    (hv : v.isSome = true) (h : t.map_.all (fun e => e.2.value_.isSome) = true) :
    (t.SetValueObj n v).map_.all (fun e => e.2.value_.isSome) = true := by
  unfold SymbolTable.SetValueObj
  cases SymbolMap.find t.map_ n with
  | some a => exact assign_all_isSome t.map_ n v hv h
  | none => simp [hv, h]

theorem SetValueAttr_all_isSome (t : SymbolTable) (n : String) (symbol : SymbolAttr)
    (hv : symbol.value_.isSome = true) (h : t.map_.all (fun e => e.2.value_.isSome) = true) :
    (t.SetValueAttr n symbol).2.map_.all (fun e => e.2.value_.isSome) = true := by
  unfold SymbolTable.SetValueAttr
  cases SymbolMap.find t.map_ n with
  | some a => exact h
  | none => simp [hv, h]

theorem Heap.lt_of_getElem? (H : Heap) (q : SymbolTablePtr) (t : SymbolTable)
    (h : H[q]? = some t) : q < H.length := by
  rcases Nat.lt_or_ge q H.length with h1 | h1
  · exact h1
  · rw [List.getElem?_eq_none h1] at h
    cases h

theorem Heap.noNullAt_set (H : Heap) (q p : SymbolTablePtr) (t' : SymbolTable)
    (hq : q < H.length) :
    Heap.noNullAt (H.set q t') p =
      if p = q then t'.map_.all (fun e => e.2.value_.isSome) else H.noNullAt p := by
  unfold Heap.noNullAt
  by_cases h : p = q
  · subst h
    simp [List.getElem?_set_self hq]
  · rw [List.getElem?_set_ne (fun h' => h h'.symm)]
    simp [h]

theorem Heap.noNullAt_set_of (H : Heap) (q p : SymbolTablePtr) (tq t' : SymbolTable)
    (hq : H[q]? = some tq)
    (ht : tq.map_.all (fun e => e.2.value_.isSome) = true →
      t'.map_.all (fun e => e.2.value_.isSome) = true)
    (hp : H.noNullAt p = true) : Heap.noNullAt (H.set q t') p = true := by
  rw [Heap.noNullAt_set H q p t' (H.lt_of_getElem? q tq hq)]
  by_cases h : p = q
  · subst h
    simp only [if_true]
    apply ht
    simpa [Heap.noNullAt, hq] using hp
  · simp only [h, if_false]
    exact hp

theorem Heap.noNullAt_store (H : Heap) (r : CellRef) (v : ObjectPtr) (p : SymbolTablePtr)
    (hv : v.isSome = true) (hp : H.noNullAt p = true) : (H.store r v).noNullAt p = true := by
  unfold Heap.store
  cases ht : H[r.table]? with
  | none => exact hp
  | some t =>
    exact Heap.noNullAt_set_of H r.table p t _ ht (assign_all_isSome t.map_ r.name v hv) hp

theorem Lookup_false_heap (S : SymbolTableStack) (H : Heap) (n : String) :
    (S.Lookup H n false).2 = H := by
  unfold SymbolTableStack.Lookup
  cases SymbolTableStack.search H n S.stack_.reverse with
  | error f => rfl
  | ok o =>
    cases o with
    | some pa => rfl
    | none =>
      simp only
      cases S.lockMain H with
      | none => rfl
      | some mt =>
        obtain ⟨m, tm⟩ := mt
        simp only
        cases tm.Lookup n <;> rfl

theorem lockMain_getElem? (S : SymbolTableStack) (H : Heap) (m : SymbolTablePtr)
    (tm : SymbolTable) (hm : S.lockMain H = some (m, tm)) : H[m]? = some tm := by
  unfold SymbolTableStack.lockMain at hm
  cases hmt : S.main_table_ with
  | none => simp [hmt] at hm
  | some m' =>
    simp only [hmt] at hm
    cases hm' : H[m']? with
    | none => simp [hm'] at hm
    | some t =>
      simp only [hm', Option.some.injEq, Prod.mk.injEq] at hm
      rw [← hm.1, ← hm.2]
      exact hm'

theorem InsertEntry_noNullAt (S : SymbolTableStack) (H : Heap) (n : String)
    (symbol : SymbolAttr) (hv : symbol.value_.isSome = true) (p : SymbolTablePtr)
    (hp : H.noNullAt p = true) : (S.InsertEntry H n symbol).2.noNullAt p = true := by
  unfold SymbolTableStack.InsertEntry
  cases hl : S.stack_.getLast? with
  | some q =>
    simp only
    cases hq : H[q]? with
    | none => exact hp
    | some tq =>
      exact Heap.noNullAt_set_of H q p tq _ hq (SetValueAttr_all_isSome tq n symbol hv) hp
  | none =>
    simp only
    cases hm : S.lockMain H with
    | none => exact hp
    | some mt =>
      obtain ⟨m, tm⟩ := mt
      have htm : H[m]? = some tm := lockMain_getElem? S H m tm hm
      exact Heap.noNullAt_set_of H m p tm _ htm (SetValueAttr_all_isSome tm n symbol hv) hp

theorem SetEntry_empty_noNullAt (S : SymbolTableStack) (H : Heap) (n : String)
    (v : ObjectPtr) (hv : v.isSome = true) (hnil : S.stack_ = []) (p : SymbolTablePtr)
    (hp : H.noNullAt p = true) : (S.SetEntry H n v).2.noNullAt p = true := by
  unfold SymbolTableStack.SetEntry
  simp only [hnil, List.getLast?_nil]
  cases hm : S.lockMain H with
  | none => exact hp
  | some mt =>
    obtain ⟨m, tm⟩ := mt
    exact Heap.noNullAt_set_of H m p tm _ (lockMain_getElem? S H m tm hm)
      (SetValueObj_all_isSome tm n v hv) hp

theorem isFunc_set_SetValueObj (H : Heap) (q : SymbolTablePtr) (t : SymbolTable) (n : String)
    (v : ObjectPtr) (hq : H[q]? = some t) (p : SymbolTablePtr) :
    Heap.isFunc (H.set q (t.SetValueObj n v)) p = H.isFunc p := by
  have hty : (t.SetValueObj n v).tableType = t.tableType := by
    unfold SymbolTable.SetValueObj SymbolTable.tableType
    cases SymbolMap.find t.map_ n <;> rfl
  unfold Heap.isFunc
  by_cases h : p = q
  · subst h
    simp [List.getElem?_set_self (H.lt_of_getElem? p t hq), hq, hty]
  · rw [List.getElem?_set_ne (fun h' => h h'.symm)]

theorem setOnFuncLoop_noNullAt (n : String) (l : List SymbolTablePtr) (v : ObjectPtr)
    (H H' : Heap) (h : SymbolTableStack.setOnFuncLoop n l v H = .ok H')
    (hcount : (l.filter H.isFunc).length ≤ (if v.isSome then 1 else 0))
    (p : SymbolTablePtr) (hp : H.noNullAt p = true) : H'.noNullAt p = true := by
  induction l generalizing v H with
  | nil =>
    simp only [SymbolTableStack.setOnFuncLoop, Except.ok.injEq] at h
    rw [← h]
    exact hp
  | cons q rest ih =>
    unfold SymbolTableStack.setOnFuncLoop at h
    cases hq : H[q]? with
    | none => simp [hq] at h
    | some t =>
      simp only [hq] at h
      by_cases hf : t.tableType = TableType.FUNC_TABLE
      · simp only [hf, if_true] at h
        have hqf : H.isFunc q = true := by simp [Heap.isFunc, hq, hf]
        simp only [List.filter_cons, hqf, if_true, List.length_cons] at hcount
        have hv : v.isSome = true := by
          cases hv : v.isSome with
          | true => rfl
          | false =>
            rw [hv] at hcount
            simp at hcount
        rw [hv] at hcount
        have hfilter : rest.filter (Heap.isFunc (H.set q (t.SetValueObj n v))) = rest.filter H.isFunc :=
          List.filter_congr (fun a _ => isFunc_set_SetValueObj H q t n v hq a)
        apply ih none (H.set q (t.SetValueObj n v)) h
        · rw [hfilter]
          simp only [if_true] at hcount
          simpa using hcount
        · exact Heap.noNullAt_set_of H q p t _ hq (SetValueObj_all_isSome t n v hv) hp
      · simp only [hf, if_false] at h
        have hqf : H.isFunc q = false := by simp [Heap.isFunc, hq, hf]
        simp only [List.filter_cons, hqf] at hcount
        exact ih v H h (by simpa using hcount) hp

theorem searchOrder_push_subset (S : SymbolTableStack) (t : SymbolTablePtr) (b : Bool) :
    ∀ p ∈ (S.Push t b).searchOrder, p = t ∨ p ∈ S.searchOrder := by
  intro p hp
  cases b with
  | false =>
    simp only [SymbolTableStack.Push, SymbolTableStack.searchOrder, List.reverse_append,
      List.reverse_cons, List.reverse_nil, List.nil_append, List.singleton_append,
      List.cons_append, List.mem_cons, List.mem_append, List.mem_reverse, Bool.false_eq_true,
      if_false] at hp ⊢
    exact hp
  | true =>
    simp only [SymbolTableStack.Push, SymbolTableStack.searchOrder, if_true, Option.toList,
      List.mem_append, List.mem_reverse, List.mem_singleton] at hp ⊢
    rcases hp with hp | hp
    · exact Or.inr (Or.inl hp)
    · exact Or.inl hp

theorem searchOrder_pop_subset (S S' : SymbolTableStack) (hpop : S.Pop = .ok S') :
    ∀ p ∈ S'.searchOrder, p ∈ S.searchOrder := by
  intro p hp
  unfold SymbolTableStack.Pop at hpop
  split at hpop
  · cases hpop
  injection hpop with hpop
  subst hpop
  simp only [SymbolTableStack.searchOrder, List.mem_append, List.mem_reverse] at hp ⊢
  rcases hp with hp | hp
  · exact Or.inl ((List.dropLast_sublist _).subset hp)
  · exact Or.inr hp

theorem isSome_of_ne_none (v : ObjectPtr) (h : v ≠ none) : v.isSome = true := by
  cases v with
  | none => exact absurd rfl h
  | some a => rfl

/-- C26 (amended): let every entry of every table of the stack and of main
hold a non-null object.  Then this still holds after `Lookup` without
creation, after `InsertEntry` of a symbol with a non-null object, after `Push`
of a table whose entries hold non-null objects, after `Pop` on a stack that has
a top table, after `SetEntry`
of a non-null object under an empty stack and after `SetEntryOnFunc` of a
non-null object on a stack with at most one `Func` table.  `Lookup` with
creation (on a stack whose pointers own their tables, over a live main table)
changes nothing when the name is bound; when it is not, it leaves one entry
with the null pointer, the cell that it returns, in a table of the search
order, so that the invariant fails until an object is stored there; after a
non-null object is stored through the returned cell the invariant holds. -/
theorem stack_ops_keep_cells_non_null (S : SymbolTableStack) (H : Heap) (n : String)
    (hinv : S.NoNullCell H) :
    S.NoNullCell (S.Lookup H n false).2 ∧
    (∀ symbol : SymbolAttr, symbol.value_ ≠ none → S.NoNullCell (S.InsertEntry H n symbol).2) ∧
    (∀ t b, H.noNullAt t = true → (S.Push t b).NoNullCell H) ∧
    (∀ S', S.Pop = .ok S' → S'.NoNullCell H) ∧
    (∀ v : ObjectPtr, v ≠ none → S.stack_ = [] → S.NoNullCell (S.SetEntry H n v).2) ∧
    (∀ (v : ObjectPtr) H', v ≠ none → (S.stack_.filter H.isFunc).length ≤ 1 →
      S.SetEntryOnFunc H n v = .ok H' → S.NoNullCell H') ∧
    (S.StackLive H → S.MainLive H →
      ∃ r H1, S.Lookup H n true = (.ok r, H1) ∧
        (S.firstBinder H n ≠ none → H1 = H) ∧
        (S.firstBinder H n = none →
          r.table ∈ S.searchOrder ∧ H1.valueAt r.table r.name = some none ∧
          ¬ S.NoNullCell H1) ∧
        ∀ v : ObjectPtr, v ≠ none → S.NoNullCell (H1.store r v)) := by
  refine ⟨?_, ?_, ?_, ?_, ?_, ?_, ?_⟩
  · rw [Lookup_false_heap]
    exact hinv
  · intro symbol hv p hp
    exact InsertEntry_noNullAt S H n symbol (isSome_of_ne_none _ hv) p (hinv p hp)
  · intro t b ht p hp
    rcases searchOrder_push_subset S t b p hp with h | h
    · rw [h]
      exact ht
    · exact hinv p h
  · intro S' hpop p hp
    exact hinv p (searchOrder_pop_subset S S' hpop p hp)
  · intro v hv hnil p hp
    exact SetEntry_empty_noNullAt S H n v (isSome_of_ne_none _ hv) hnil p (hinv p hp)
  · intro v H' hv hcount hset p hp
    refine setOnFuncLoop_noNullAt n S.stack_.reverse v H H' hset ?_ p (hinv p hp)
    rw [isSome_of_ne_none _ hv]
    simp only [if_true]
    rw [List.filter_reverse, List.length_reverse]
    exact hcount
  · intro hs hm
    have hlive := S.searchOrder_live H hs hm
    have hne := S.searchOrder_ne_nil H hm
    rw [SymbolTableStack.Lookup_eq_resolveIn S H n true hs hm]
    cases hfb : S.firstBinder H n with
    | some p =>
      refine ⟨⟨p, n⟩, H, resolveIn_of_find _ H n true p hfb, fun _ => rfl, ?_, ?_⟩
      · intro h
        cases h
      · intro v hv q hq
        exact Heap.noNullAt_store H ⟨p, n⟩ v q (isSome_of_ne_none _ hv) (hinv q hq)
    | none =>
      obtain ⟨q, rest, hord⟩ := List.exists_cons_of_ne_nil hne
      have hqmem : q ∈ S.searchOrder := by
        rw [hord]
        exact List.mem_cons_self _ _
      have hqlt : q < H.length := hlive q hqmem
      obtain ⟨tq, htq⟩ := H.getElem?_of_lt q hqlt
      have hfree : H.cell ⟨q, n⟩ = none := by
        have := List.find?_eq_none.1 hfb q hqmem
        exact (Heap.binds_eq_false_iff H n q).1 (by simpa using this)
      have hfind : SymbolMap.find tq.map_ n = none := by
        simpa [Heap.cell, htq, SymbolTable.Lookup] using hfree
      have hH1 : H.insertDefault q n =
          H.set q ⟨(n, SymbolAttr.default) :: tq.map_, tq.cmd_map_, tq.type_⟩ := by
        simp [Heap.insertDefault, htq]
      have hall : tq.map_.all (fun e => e.2.value_.isSome) = true := by
        simpa [Heap.noNullAt, htq] using hinv q hqmem
      refine ⟨⟨q, n⟩, H.insertDefault q n,
        resolveIn_create_of_none _ H n q (by rw [hord]; rfl) hfb, ?_, ?_, ?_⟩
      · intro h
        exact absurd rfl h
      · intro _
        refine ⟨hqmem, ?_, ?_⟩
        · simp [Heap.valueAt, Heap.cell_insertDefault H q n _ hqlt hfree, SymbolAttr.default]
        · intro hcontra
          have := hcontra q hqmem
          rw [hH1, Heap.noNullAt_set H q q _ hqlt] at this
          simp [SymbolAttr.default] at this
      · intro v hv p hp
        have hlt1 : q < (H.set q ⟨(n, SymbolAttr.default) :: tq.map_, tq.cmd_map_,
            tq.type_⟩).length := by
          rw [List.length_set]
          exact hqlt
        have hstore : (H.insertDefault q n).store ⟨q, n⟩ v =
            H.set q ⟨(n, ⟨v, false⟩) :: tq.map_, tq.cmd_map_, tq.type_⟩ := by
          rw [hH1]
          simp [Heap.store, List.getElem?_set_self hqlt, SymbolMap.assign, SymbolAttr.set_value,
            SymbolAttr.default]
        rw [hstore, Heap.noNullAt_set H q p _ hqlt]
        by_cases hpq : p = q
        · simp [hpq, isSome_of_ne_none _ hv, hall]
        · simp only [hpq, if_false]
          exact hinv p hp

/-- Witness of C26 (amended): the two scopes of the examples over main, all of
whose entries hold objects, and the unbound name `z`. -/
theorem stack_ops_keep_cells_non_null_witness :
    exStack.NoNullCell exHeap ∧
    (exStack.NoNullCell (exStack.Lookup exHeap "z" false).2 ∧
    (∀ symbol : SymbolAttr, symbol.value_ ≠ none →
      exStack.NoNullCell (exStack.InsertEntry exHeap "z" symbol).2) ∧
    (∀ t b, exHeap.noNullAt t = true → (exStack.Push t b).NoNullCell exHeap) ∧
    (∀ S', exStack.Pop = .ok S' → S'.NoNullCell exHeap) ∧
    (∀ v : ObjectPtr, v ≠ none → exStack.stack_ = [] →
      exStack.NoNullCell (exStack.SetEntry exHeap "z" v).2) ∧
    (∀ (v : ObjectPtr) H', v ≠ none → (exStack.stack_.filter exHeap.isFunc).length ≤ 1 →
      exStack.SetEntryOnFunc exHeap "z" v = .ok H' → exStack.NoNullCell H') ∧
    (exStack.StackLive exHeap → exStack.MainLive exHeap →
      ∃ r H1, exStack.Lookup exHeap "z" true = (.ok r, H1) ∧
        (exStack.firstBinder exHeap "z" ≠ none → H1 = exHeap) ∧
        (exStack.firstBinder exHeap "z" = none →
          r.table ∈ exStack.searchOrder ∧ H1.valueAt r.table r.name = some none ∧
          ¬ exStack.NoNullCell H1) ∧
        ∀ v : ObjectPtr, v ≠ none → exStack.NoNullCell (H1.store r v))) ∧
    (exStack.Pop = .ok ⟨[1], some 0⟩ ∧ SymbolTableStack.NoNullCell ⟨[1], some 0⟩ exHeap) :=
  ⟨by decide, stack_ops_keep_cells_non_null exStack exHeap "z" (by decide), rfl,
    (stack_ops_keep_cells_non_null exStack exHeap "z" (by decide)).2.2.2.1 ⟨[1], some 0⟩ rfl⟩

/-- C26 (counterexample): every entry of the example tables holds an object;
after `Lookup("z", true)` for the unbound name `z` the top table of the stack
has the entry `z` with the null pointer. -/
theorem lookup_create_leaves_null_cell :
    exStack.NoNullCell exHeap ∧
    exStack.Lookup exHeap "z" true =
      (.ok ⟨2, "z"⟩, [exMain, exOuter,
        ⟨("z", ⟨none, false⟩) :: exInner.map_, [], TableType.SCOPE_TABLE⟩]) ∧
    (exStack.Lookup exHeap "z" true).2.valueAt 2 "z" = some none ∧
    ¬ exStack.NoNullCell (exStack.Lookup exHeap "z" true).2 := by
  refine ⟨by decide, rfl, rfl, by decide⟩

/-! ### `ExecWithReturn` -/

section Engine

variable {ω : Type}

/-- The result of `ExecWithReturn` when the statement has a right-hand side,
its evaluation gives `values` and `Assign` succeeds.  With exactly one value it
returns the value; with more than one value and a number of left-hand
expressions other than one it returns a new tuple of the values in order.  With
one left-hand expression and more than one value (`a = 1, 2, 3`), `Assign` has
handed `values` to `NewTuple(std::move(values))` before `ExecWithReturn` reads
it: if that call left the vector as it was, a new tuple of the values is
returned; if it left the vector empty, `ExecWithReturn` throws
`IncompatibleType("not valid right side expression")`. -/
theorem execWithReturn_after_assign (env : Collaborators ω) (fuel : Nat)
    (afterNewTuple : List ObjectPtr → List ObjectPtr)
    (assign_node : AssignmentStatement) (ExecRvalues : Step ω (List ObjectPtr))
    (values : List ObjectPtr) (m m1 m2 : Machine ω)
    (hr : assign_node.has_rvalue = true) (hexec : ExecRvalues m = (.ok values, m1))
    (hassign : Assign env fuel assign_node.lexp_list values assign_node.assign_kind m1 =
      (.ok (), m2)) :
    (∀ v, values = [v] →
      ExecWithReturn env fuel afterNewTuple assign_node ExecRvalues m = (.ok v, m2)) ∧
    (1 < values.length →
      (assign_node.lexp_list.length ≠ 1 ∨ afterNewTuple values = values) →
      ExecWithReturn env fuel afterNewTuple assign_node ExecRvalues m =
        (.ok (some m2.st.objects.length),
          ⟨⟨m2.st.tables, m2.st.objects ++ [Object.tuple values], m2.st.stack, m2.st.world⟩,
            m2.log⟩)) ∧
    (values.length ≠ 1 → assign_node.lexp_list.length = 1 → afterNewTuple values = [] →
      ExecWithReturn env fuel afterNewTuple assign_node ExecRvalues m =
        (.error (Fault.thrown
          ⟨ErrorCode.INCOMPATIBLE_TYPE, "not valid right side expression"⟩), m2)) := by
  refine ⟨?_, ?_, ?_⟩
  · intro v hv
    subst hv
    unfold ExecWithReturn
    simp [hr, hexec, hassign, valuesAfterAssign]
  · intro hlen hl
    have h1 : ¬ values.length = 1 := by omega
    have hval : valuesAfterAssign afterNewTuple assign_node.lexp_list values = values := by
      unfold valuesAfterAssign
      rcases hl with hl | hl
      · simp [hl]
      · split
        · exact hl
        · rfl
    unfold ExecWithReturn
    simp [hr, hexec, hassign, hval, h1, hlen, Store.NewTuple]
  · intro hlen hl hnil
    unfold ExecWithReturn
    simp [hr, hexec, hassign, valuesAfterAssign, hl, hlen, hnil, raise]

end Engine

/-- The statement `a = 1, 2, 3` at top level: the assignment binds `a` to the
new tuple `(1, 2, 3)` at address 5; `ExecWithReturn` then returns a second new
tuple of the three values when `NewTuple` left the vector as it was, and throws
when `NewTuple` left it empty. -/
theorem execWithReturn_one_target_example :
    (Assign exEnv 0 [Expression.Identifier "a"] [some 0, some 1, some 2] TokenKind.ASSIGN
        exMachine =
      (.ok (), ⟨⟨[⟨[("a", ⟨some 5, false⟩)], [], TableType.SCOPE_TABLE⟩],
        exObjects ++ [Object.tuple [some 0, some 1, some 2]], ⟨[], some 0⟩, ()⟩, []⟩)) ∧
    ExecWithReturn exEnv 0 id ⟨true, TokenKind.ASSIGN, [Expression.Identifier "a"]⟩
        (fun m => (.ok [some 0, some 1, some 2], m)) exMachine =
      (.ok (some 6),
        ⟨⟨[⟨[("a", ⟨some 5, false⟩)], [], TableType.SCOPE_TABLE⟩],
          exObjects ++ [Object.tuple [some 0, some 1, some 2]] ++
            [Object.tuple [some 0, some 1, some 2]], ⟨[], some 0⟩, ()⟩, []⟩) ∧
    ExecWithReturn exEnv 0 (fun _ => []) ⟨true, TokenKind.ASSIGN, [Expression.Identifier "a"]⟩
        (fun m => (.ok [some 0, some 1, some 2], m)) exMachine =
      (.error (Fault.thrown
        ⟨ErrorCode.INCOMPATIBLE_TYPE, "not valid right side expression"⟩),
        ⟨⟨[⟨[("a", ⟨some 5, false⟩)], [], TableType.SCOPE_TABLE⟩],
          exObjects ++ [Object.tuple [some 0, some 1, some 2]], ⟨[], some 0⟩, ()⟩, []⟩) :=
  ⟨rfl, rfl, rfl⟩

/-! ### `ObjArray` and the iterator protocol -/

theorem new_eq_words (c : CmdObject) (d : StdString) (outerr : Int) :
    CmdIterObject.new d outerr (some (Value.cmd c)) =
      .ok ⟨0, wordsOf d (if outerr = 0 then c.str_stdout_ else c.str_stderr_)⟩ := by
  simp only [CmdIterObject.new, CmdObject.str_stdout, CmdObject.str_stderr]
  generalize (if outerr = 0 then c.str_stdout_ else c.str_stderr_) = s
  by_cases hnil : trim_if s (is_any_of d) = []
  · rw [hnil, wordsOf_of_trim_nil d s hnil]
    rfl
  · have : (trim_if s (is_any_of d)).isEmpty = false := by
      cases h : trim_if s (is_any_of d) with
      | nil => exact absurd h hnil
      | cons x xs => rfl
    rw [this, split_trim_eq_wordsOf d s hnil]
    rfl

theorem foldl_push_eq_map {α β : Type} (f : α → β) (l : List α) (acc : List β) :
    l.foldl (fun arr s => arr ++ [f s]) acc = acc ++ l.map f := by
  induction l generalizing acc with
  | nil => simp
  | cons a l ih => simp [ih]

theorem ObjArray_eq_words (c : CmdObject) :
    c.ObjArray =
      some (Value.array ((wordsOf c.delim_ c.str_stdout_).map (fun w => some (Value.string w)))) := by
  unfold CmdObject.ObjArray
  simp only
  by_cases hnil : trim_if c.str_stdout_ (is_any_of c.delim_) = []
  · rw [hnil, wordsOf_of_trim_nil c.delim_ c.str_stdout_ hnil]
    rfl
  · have : (trim_if c.str_stdout_ (is_any_of c.delim_)).isEmpty = false := by
      cases h : trim_if c.str_stdout_ (is_any_of c.delim_) with
      | nil => exact absurd h hnil
      | cons x xs => rfl
    rw [this, split_trim_eq_wordsOf c.delim_ c.str_stdout_ hnil, foldl_push_eq_map]
    rfl

theorem iterate_enough (words : List StdString) :
    ∀ (fuel k : Nat) (acc : List ValuePtr), k ≤ words.length → words.length - k < fuel →
      CmdIterObject.iterate fuel ⟨k, words⟩ acc =
        some (acc ++ (words.drop k).map (fun w => some (Value.string w))) := by
  intro fuel
  induction fuel with
  | zero =>
    intro k acc _ h
    exact absurd h (Nat.not_lt_zero _)
  | succ fuel ih =>
    intro k acc hk hfuel
    by_cases hend : k = words.length
    · subst hend
      simp [CmdIterObject.iterate, CmdIterObject.HasNext, NewBool]
    · have hlt : k < words.length := by omega
      have hget : words[k]? = some words[k] := List.getElem?_eq_getElem hlt
      have hdrop : words.drop k = words[k] :: words.drop (k + 1) :=
        List.drop_eq_getElem_cons hlt
      rw [CmdIterObject.iterate]
      simp only [CmdIterObject.HasNext, NewBool, hend, decide_False, Bool.not_false,
        CmdIterObject.Next, hget, NewString]
      rw [ih (k + 1) _ (by omega) (by omega), hdrop]
      simp only [List.map_cons, List.append_assoc, List.singleton_append]

theorem nextN_state (n : Nat) (it : CmdIterObject) :
    CmdIterObject.nextN n it = ⟨it.pos_ + n, it.str_split_⟩ := by
  induction n generalizing it with
  | zero => rfl
  | succ n ih =>
    rw [CmdIterObject.nextN, ih]
    unfold CmdIterObject.Next
    cases it.str_split_[it.pos_]? with
    | none => simp only [CmdIterObject.mk.injEq, and_true]; omega
    | some w => simp only [CmdIterObject.mk.injEq, and_true]; omega

/-- C31: for every `Cmd` value `c`, `ObjIter(c)` gives an iterator, and the
loop that calls `Next` as long as `HasNext` gives true ends, with any fuel above
the number of words, with a list of string objects; `ObjArray(c)` is an array
whose elements are these objects, the same in number and order.  They are the
words of the stdout of `c` for its delimiter. -/
theorem objArray_eq_iterated (c : CmdObject) :
    (∃ it, c.ObjIter = .ok it) ∧
    ∀ it, c.ObjIter = .ok it →
      ∃ ws, (∀ fuel, it.str_split_.length < fuel → CmdIterObject.iterate fuel it [] = some ws) ∧
        c.ObjArray = some (Value.array ws) ∧
        ws = it.str_split_.map (fun w => some (Value.string w)) ∧
        ws.length = (wordsOf c.delim_ c.str_stdout_).length := by
  have hnew : c.ObjIter = .ok ⟨0, wordsOf c.delim_ c.str_stdout_⟩ := by
    have := new_eq_words c c.delim_ 0
    simpa [CmdObject.ObjIter] using this
  refine ⟨⟨_, hnew⟩, ?_⟩
  intro it hit
  rw [hnew] at hit
  injection hit with hit
  subst hit
  refine ⟨_, ?_, ObjArray_eq_words c, rfl, by simp⟩
  intro fuel hfuel
  have := iterate_enough (wordsOf c.delim_ c.str_stdout_) fuel 0 [] (Nat.zero_le _)
    (by simpa using hfuel)
  simpa using this

/-- Witness of C31: the output `a`, two blanks, `b`, a blank, split at blanks. -/
theorem objArray_eq_iterated_witness :
    exCmd.ObjIter = .ok ⟨0, [['a'], ['b']]⟩ ∧
    ∃ ws, CmdIterObject.iterate 3 ⟨0, [['a'], ['b']]⟩ [] = some ws ∧
      exCmd.ObjArray = some (Value.array ws) ∧
      ws = [some (Value.string ['a']), some (Value.string ['b'])] :=
  ⟨rfl,
    match (objArray_eq_iterated exCmd).2 ⟨0, [['a'], ['b']]⟩ rfl with
    | ⟨ws, h1, h2, h3, _⟩ => ⟨ws, h1 3 (by decide), h2, h3⟩⟩

/-- C32 (amended): a `CmdIter` can be constructed over every `Cmd`, and for
the iterator over an output of `k` words: `HasNext` always returns a `Bool`
object, true after fewer than `k` calls of `Next` and false after exactly `k`; the
call of `Next` after `i < k` calls returns the word at index `i`; the call
after `k` calls throws `out_of_range` and still advances the position, so that
after it `HasNext` returns true again.  The loop that calls `Next` only after
`HasNext` gave true never runs into `out_of_range` and ends, with any fuel
above `k`, after the `k` words.  After `delim(c, d2)` has set the delimiter of
the `Cmd`, the iterator made before still yields the words for the delimiter of
its construction: neither `Next` nor `HasNext` reads the `Cmd`. -/
theorem cmd_iter_protocol (c : CmdObject) (d : StdString) (outerr : Int) :
    (∃ it, CmdIterObject.new d outerr (some (Value.cmd c)) = .ok it) ∧
    ∀ it, CmdIterObject.new d outerr (some (Value.cmd c)) = .ok it →
      (∀ j, ∃ b, (it.nextN j).HasNext = some (Value.bool b)) ∧
      (∀ j, j ≤ it.str_split_.length →
        (it.nextN j).HasNext = some (Value.bool (decide (j < it.str_split_.length)))) ∧
      (∀ i w, it.str_split_[i]? = some w →
        (it.nextN i).Next.1 = some (some (Value.string w))) ∧
      (it.nextN it.str_split_.length).Next.1 = none ∧
      (it.nextN (it.str_split_.length + 1)).HasNext = some (Value.bool true) ∧
      (∀ fuel, it.str_split_.length < fuel →
        CmdIterObject.iterate fuel it [] =
          some (it.str_split_.map (fun w => some (Value.string w)))) ∧
      (∀ d2, ∃ c2, CmdDelimFunc.Call [some (Value.cmd c), some (Value.string d2)] =
          .ok (some (Value.cmd c2), c2) ∧
        c2.delim_ = d2 ∧ c2.str_stdout_ = c.str_stdout_ ∧ c2.str_stderr_ = c.str_stderr_ ∧
        ∀ fuel, it.str_split_.length < fuel →
          CmdIterObject.iterate fuel it [] =
            some ((wordsOf d (if outerr = 0 then c.str_stdout_ else c.str_stderr_)).map
              (fun w => some (Value.string w)))) := by
  have hnew := new_eq_words c d outerr
  refine ⟨⟨_, hnew⟩, ?_⟩
  intro it hit
  rw [hnew] at hit
  injection hit with hit
  subst hit
  generalize wordsOf d (if outerr = 0 then c.str_stdout_ else c.str_stderr_) = words
  have hiter : ∀ fuel, words.length < fuel →
      CmdIterObject.iterate fuel ⟨0, words⟩ [] =
        some (words.map (fun w => some (Value.string w))) := by
    intro fuel hfuel
    have := iterate_enough words fuel 0 [] (Nat.zero_le _) (by simpa using hfuel)
    simpa using this
  refine ⟨fun j => ⟨_, rfl⟩, ?_, ?_, ?_, ?_, hiter, ?_⟩
  · intro j hj
    rw [nextN_state]
    simp only [CmdIterObject.HasNext, NewBool, Nat.zero_add]
    by_cases h : j = words.length
    · simp [h]
    · have hlt : j < words.length := by
        simp only at hj
        omega
      simp [h, hlt]
  · intro i w hw
    rw [nextN_state]
    simp only at hw
    simp [CmdIterObject.Next, hw, NewString]
  · rw [nextN_state]
    simp [CmdIterObject.Next]
  · rw [nextN_state]
    simp [CmdIterObject.HasNext, NewBool]
  · intro d2
    exact ⟨c.set_delim d2, rfl, rfl, rfl, rfl, hiter⟩

/-- Witness of C32 (amended): the iterator over `a`, two blanks, `b`, a blank,
split at blanks, and the delimiter changed to `a` afterwards. -/
theorem cmd_iter_protocol_witness :
    CmdIterObject.new [' '] 0 (some (Value.cmd exCmd)) = .ok ⟨0, [['a'], ['b']]⟩ ∧
    (CmdIterObject.nextN 1 ⟨0, [['a'], ['b']]⟩).HasNext = some (Value.bool true) ∧
    (CmdIterObject.nextN 2 ⟨0, [['a'], ['b']]⟩).HasNext = some (Value.bool false) ∧
    (CmdIterObject.nextN 1 ⟨0, [['a'], ['b']]⟩).Next.1 = some (some (Value.string ['b'])) ∧
    CmdIterObject.iterate 3 ⟨0, [['a'], ['b']]⟩ [] =
      some [some (Value.string ['a']), some (Value.string ['b'])] ∧
    ∃ c2, CmdDelimFunc.Call [some (Value.cmd exCmd), some (Value.string ['a'])] =
        .ok (some (Value.cmd c2), c2) ∧ c2.delim_ = ['a'] ∧
      CmdIterObject.iterate 3 ⟨0, [['a'], ['b']]⟩ [] =
        some ((wordsOf [' '] exCmd.str_stdout_).map (fun w => some (Value.string w))) :=
  ⟨rfl,
    ((cmd_iter_protocol exCmd [' '] 0).2 ⟨0, [['a'], ['b']]⟩ rfl).2.1 1 (by decide),
    ((cmd_iter_protocol exCmd [' '] 0).2 ⟨0, [['a'], ['b']]⟩ rfl).2.1 2 (by decide),
    ((cmd_iter_protocol exCmd [' '] 0).2 ⟨0, [['a'], ['b']]⟩ rfl).2.2.1 1 ['b'] rfl,
    ((cmd_iter_protocol exCmd [' '] 0).2 ⟨0, [['a'], ['b']]⟩ rfl).2.2.2.2.2.1 3 (by decide),
    match ((cmd_iter_protocol exCmd [' '] 0).2 ⟨0, [['a'], ['b']]⟩ rfl).2.2.2.2.2.2 ['a'] with
    | ⟨c2, h1, h2, _, _, h5⟩ => ⟨c2, h1, h2, h5 3 (by decide)⟩⟩

/-- C32 (counterexample): the iterator over the one word `a`.  The first
`Next` returns `a`, after which `HasNext` returns false; a second `Next` throws
`out_of_range` and leaves the position at 2, and `HasNext` then returns the
`Bool` true, although two calls of `Next`, not fewer than one, were made. -/
theorem cmd_iter_hasNext_true_after_overrun :
    CmdIterObject.new [' '] 0 (some (Value.cmd exCmdOne)) = .ok ⟨0, [['a']]⟩ ∧
    CmdIterObject.Next ⟨0, [['a']]⟩ = (some (some (Value.string ['a'])), ⟨1, [['a']]⟩) ∧
    CmdIterObject.HasNext ⟨1, [['a']]⟩ = some (Value.bool false) ∧
    CmdIterObject.Next ⟨1, [['a']]⟩ = (none, ⟨2, [['a']]⟩) ∧
    CmdIterObject.nextN 2 ⟨0, [['a']]⟩ = ⟨2, [['a']]⟩ ∧
    (CmdIterObject.nextN 2 ⟨0, [['a']]⟩).HasNext = some (Value.bool true) := by
  refine ⟨rfl, rfl, rfl, rfl, rfl, rfl⟩

/-! ### Assignment to identifiers, read back through `Lookup` -/

theorem valueIn_append_of_some (O E : List SymbolTablePtr) (H : Heap) (x : String)
    (v : ObjectPtr) (h : valueIn O H x = some v) : valueIn (O ++ E) H x = some v := by
  unfold valueIn at h ⊢
  cases hf : O.find? (H.binds x) with
  | none => rw [hf] at h; cases h
  | some p =>
    rw [hf] at h
    rw [List.find?_append, hf]
    exact h

theorem find?_decide_eq (l : List SymbolTablePtr) (q : SymbolTablePtr) (f : SymbolTablePtr → Bool)
    (hq : q ∈ l) (hf : ∀ p ∈ l, f p = decide (p = q)) : l.find? f = some q := by
  induction l with
  | nil => cases hq
  | cons a rest ih =>
    by_cases ha : a = q
    · subst ha
      simp [List.find?, hf a (List.mem_cons_self _ _)]
    · have hfa : f a = false := by
        rw [hf a (List.mem_cons_self _ _)]
        simp [ha]
      simp only [List.find?, hfa]
      apply ih
      · rcases List.mem_cons.1 hq with h | h
        · exact absurd h.symm ha
        · exact h
      · intro p hp
        exact hf p (List.mem_cons_of_mem _ hp)

namespace SymbolTableStack

/-- The resolution of an assignment target is a resolution over a list of live
tables, and what is stored through it is read back by `Lookup`. -/
theorem targetRef_create (S : SymbolTableStack) (H : Heap) (x : String)
    (hs : S.StackLive H) (hm : S.MainLive H) :
    ∃ O : List SymbolTablePtr, (∀ p ∈ O, p < H.length) ∧ O ≠ [] ∧
      S.targetRef H x true = resolveIn O H x true ∧
      (∀ v, valueIn S.searchOrder (bindIn O H x v) x = some v) ∧
      ((S.HasFuncTable H = .ok false ∨ S.stackBinder H x ≠ none) →
        ∀ v, valueIn S.searchOrder H x = some v → valueIn O H x = some v) := by
  have hlive := S.searchOrder_live H hs hm
  have hne := S.searchOrder_ne_nil H hm
  have hfunc : S.HasFuncTable H = .ok (S.stack_.any H.isFunc) := HasFuncTable_eq H S.stack_ hs
  cases hfind : S.stack_.reverse.find? H.isFunc with
  | none =>
    have hany : S.stack_.any H.isFunc = false := by
      rw [List.find?_eq_none] at hfind
      rw [List.any_eq_false]
      intro q hq
      exact hfind q (List.mem_reverse.2 hq)
    refine ⟨S.searchOrder, hlive, hne, ?_, ?_, fun _ _ h => h⟩
    · unfold targetRef
      rw [hfunc, hany]
      exact Lookup_eq_resolveIn S H x true hs hm
    · intro v
      exact valueIn_bindIn_same _ H x v hlive hne
  | some q =>
    have hqf : H.isFunc q = true := List.find?_some hfind
    have hqmem : q ∈ S.stack_ := List.mem_reverse.1 (List.mem_of_find?_eq_some hfind)
    have hany : S.stack_.any H.isFunc = true := List.any_eq_true.2 ⟨q, hqmem, hqf⟩
    have hrlive : ∀ p ∈ S.stack_.reverse, p < H.length :=
      fun p hp => hs p (List.mem_reverse.1 hp)
    have htarget : S.targetRef H x true = S.LookupFuncRef H x true := by
      unfold targetRef
      rw [hfunc, hany]
    have hfalse : ¬ ((.ok true : Except Fault Bool) = .ok false) := by
      intro h
      cases h
    cases hsb : S.stackBinder H x with
    | some p =>
      obtain ⟨a, ha, hsearch⟩ := search_stack_some S H x p hs hsb
      have hpmem : p ∈ S.stack_.reverse := List.mem_of_find?_eq_some hsb
      refine ⟨S.stack_.reverse, hrlive, List.ne_nil_of_mem hpmem, ?_, ?_, ?_⟩
      · rw [htarget, resolveIn_of_find _ H x true p hsb]
        unfold LookupFuncRef
        rw [hsearch]
      · intro v
        unfold searchOrder
        exact valueIn_append_of_some _ _ _ x v
          (valueIn_bindIn_same _ H x v hrlive (List.ne_nil_of_mem hpmem))
      · intro _ v hv
        unfold valueIn at hv ⊢
        unfold searchOrder at hv
        unfold stackBinder at hsb
        rw [List.find?_append, hsb] at hv
        rw [hsb]
        exact hv
    | none =>
      obtain ⟨tq, htq⟩ := H.getElem?_of_lt q (hs q hqmem)
      have hqlive : ∀ p ∈ [q], p < H.length := by
        intro p hp
        rw [List.mem_singleton] at hp
        rw [hp]
        exact hs q hqmem
      have hfree : ∀ p ∈ S.stack_, H.binds x p = false := by
        intro p hp
        have := List.find?_eq_none.1 hsb p (List.mem_reverse.2 hp)
        simpa using this
      have hqfree : H.binds x q = false := hfree q hqmem
      have hqfind : SymbolMap.find tq.map_ x = none := by
        simpa [Heap.binds, Heap.cell, htq, SymbolTable.Lookup] using hqfree
      have hnone : [q].find? (H.binds x) = none := by
        simp [List.find?, hqfree]
      have hres : resolveIn [q] H x true = (.ok ⟨q, x⟩, H.insertDefault q x) :=
        resolveIn_create_of_none [q] H x q rfl hnone
      refine ⟨[q], hqlive, List.cons_ne_nil _ _, ?_, ?_, ?_⟩
      · rw [htarget, hres]
        unfold LookupFuncRef
        rw [search_stack_none S H x hs hsb,
          topFuncTable_eq H _ hrlive, hfind]
        simp [htq, Heap.insertDefault, SymbolTable.SetValue, hqfind]
      · intro v
        have hv := valueIn_bindIn_same [q] H x v hqlive (List.cons_ne_nil _ _)
        have hbind : bindIn [q] H x v = (H.insertDefault q x).store ⟨q, x⟩ v := by
          unfold bindIn
          rw [hres]
        have hbinds : ∀ p ∈ S.stack_.reverse,
            (bindIn [q] H x v).binds x p = decide (p = q) := by
          intro p hp
          rw [hbind, Heap.binds_store, Heap.binds_insertDefault H q x x p (hs q hqmem) hqfree]
          by_cases hpq : p = q
          · simp [hpq]
          · simp [hpq, hfree p (List.mem_reverse.1 hp)]
        have hfq : S.stack_.reverse.find? ((bindIn [q] H x v).binds x) = some q :=
          find?_decide_eq _ q _ (List.mem_reverse.2 hqmem) hbinds
        have hbq : (bindIn [q] H x v).binds x q = true := by
          rw [hbinds q (List.mem_reverse.2 hqmem)]
          simp
        unfold valueIn at hv ⊢
        simp only [List.find?, hbq, Option.bind] at hv
        unfold searchOrder
        rw [List.find?_append, hfq]
        exact hv
      · intro h
        rcases h with h | h
        · rw [hfunc, hany] at h
          exact absurd h hfalse
        · exact absurd rfl h

theorem assignIn_spec (S : SymbolTableStack) (H : Heap) (x : String) (v : ObjectPtr)
    (hs : S.StackLive H) (hm : S.MainLive H) :
    (S.assignIn H x v).length = H.length ∧
    (∀ p, (S.assignIn H x v).typeAt p = H.typeAt p) ∧
    valueIn S.searchOrder (S.assignIn H x v) x = some v ∧
    (∀ (R : List SymbolTablePtr) y, y ≠ x → valueIn R (S.assignIn H x v) y = valueIn R H y) ∧
    ((S.HasFuncTable H = .ok false ∨ S.stackBinder H x ≠ none) →
      valueIn S.searchOrder H x = some v → S.assignIn H x v = H) ∧
    ∃ ref, S.targetRef H x true = (.ok ref, (S.targetRef H x true).2) ∧
      S.assignIn H x v = (S.targetRef H x true).2.store ref v := by
  obtain ⟨O, hlive, hne, htarget, hread, hnofunc⟩ := S.targetRef_create H x hs hm
  have heq : S.assignIn H x v = bindIn O H x v := by
    unfold assignIn bindIn
    rw [htarget]
  obtain ⟨p, hres, -⟩ := find_after_resolveIn O H x hlive hne
  refine ⟨?_, ?_, ?_, ?_, ?_, ⟨p, x⟩, ?_, ?_⟩
  · rw [heq, bindIn_length]
  · intro q
    rw [heq, bindIn_typeAt]
  · rw [heq]
    exact hread v
  · intro R y hy
    rw [heq]
    exact valueIn_bindIn_other O R H x y v hlive hne hy
  · intro hnf hval
    rw [heq]
    exact bindIn_of_valueIn _ H x v (hnofunc hnf v hval)
  · rw [htarget, ← hres]
  · unfold assignIn
    rw [htarget, hres]

theorem live_of_length (S : SymbolTableStack) (H H' : Heap) (hlen : H'.length = H.length)
    (hs : S.StackLive H) (hm : S.MainLive H) : S.StackLive H' ∧ S.MainLive H' := by
  constructor
  · intro p hp
    rw [hlen]
    exact hs p hp
  · obtain ⟨m, h1, h2⟩ := hm
    exact ⟨m, h1, by rw [hlen]; exact h2⟩

theorem assignAll_length (S : SymbolTableStack) (H : Heap) (ps : List (String × ObjectPtr))
    (hs : S.StackLive H) (hm : S.MainLive H) : (S.assignAll H ps).length = H.length := by
  induction ps generalizing H with
  | nil => rfl
  | cons e rest ih =>
    obtain ⟨x, v⟩ := e
    have hlen := (S.assignIn_spec H x v hs hm).1
    obtain ⟨hs1, hm1⟩ := S.live_of_length H _ hlen hs hm
    simp only [assignAll]
    rw [ih _ hs1 hm1, hlen]

theorem valueIn_assignAll_other (S : SymbolTableStack) (H : Heap)
    (ps : List (String × ObjectPtr)) (R : List SymbolTablePtr) (y : String)
    (hs : S.StackLive H) (hm : S.MainLive H) (hy : y ∉ ps.map Prod.fst) :
    valueIn R (S.assignAll H ps) y = valueIn R H y := by
  induction ps generalizing H with
  | nil => rfl
  | cons e rest ih =>
    obtain ⟨x, v⟩ := e
    simp only [List.map_cons, List.mem_cons, not_or] at hy
    obtain ⟨hlen, -, -, hother, -⟩ := S.assignIn_spec H x v hs hm
    obtain ⟨hs1, hm1⟩ := S.live_of_length H _ hlen hs hm
    simp only [assignAll]
    rw [ih _ hs1 hm1 hy.2]
    exact hother R y hy.1

theorem valueIn_assignAll_mem (S : SymbolTableStack) (H : Heap)
    (ps : List (String × ObjectPtr)) (hs : S.StackLive H) (hm : S.MainLive H)
    (hnd : (ps.map Prod.fst).Nodup) (x : String) (v : ObjectPtr) (hmem : (x, v) ∈ ps) :
    valueIn S.searchOrder (S.assignAll H ps) x = some v := by
  induction ps generalizing H with
  | nil => cases hmem
  | cons e rest ih =>
    obtain ⟨x0, v0⟩ := e
    simp only [List.map_cons, List.nodup_cons] at hnd
    obtain ⟨hlen, -, hsame, -, -⟩ := S.assignIn_spec H x0 v0 hs hm
    obtain ⟨hs1, hm1⟩ := S.live_of_length H _ hlen hs hm
    simp only [assignAll]
    rcases List.mem_cons.1 hmem with h | h
    · injection h with h1 h2
      subst h1; subst h2
      rw [S.valueIn_assignAll_other _ rest _ x hs1 hm1 hnd.1]
      exact hsame
    · exact ih _ hs1 hm1 hnd.2 h

theorem assignAll_of_valueIn (S : SymbolTableStack) (H : Heap)
    (ps : List (String × ObjectPtr)) (hs : S.StackLive H) (hm : S.MainLive H)
    (hnf : S.HasFuncTable H = .ok false ∨ ∀ x ∈ ps.map Prod.fst, S.stackBinder H x ≠ none)
    (h : ∀ x v, (x, v) ∈ ps → valueIn S.searchOrder H x = some v) :
    S.assignAll H ps = H := by
  induction ps with
  | nil => rfl
  | cons e rest ih =>
    obtain ⟨x, v⟩ := e
    have hx : S.HasFuncTable H = .ok false ∨ S.stackBinder H x ≠ none :=
      hnf.imp id (fun hall => hall x (by simp))
    simp only [assignAll]
    rw [(S.assignIn_spec H x v hs hm).2.2.2.2.1 hx (h x v (List.mem_cons_self _ _))]
    exact ih (hnf.imp id (fun hall y hy => hall y (by
        simp only [List.map_cons, List.mem_cons]
        exact Or.inr hy)))
      (fun y w hy => h y w (List.mem_cons_of_mem _ hy))

end SymbolTableStack

section Engine

variable {ω : Type}

theorem AssignIdentifier_assign (env : Collaborators ω) (x : String) (v : ObjectPtr)
    (m : Machine ω) (hwf : m.st.WellFormed) :
    AssignIdentifier env x v TokenKind.ASSIGN true m =
      (.ok (), m.setTables (m.st.stack.assignIn m.st.tables x v)) := by
  obtain ⟨-, -, -, -, -, ref, href, hassign⟩ :=
    m.st.stack.assignIn_spec m.st.tables x v hwf.1 hwf.2
  unfold AssignIdentifier
  rw [href]
  simp only [AssignToRef]
  rw [hassign]
  rfl

theorem assignEach_identifiers (env : Collaborators ω) (fuel : Nat) (xs : List String)
    (vs : List ObjectPtr) (m : Machine ω) (hwf : m.st.WellFormed) (hlen : xs.length = vs.length) :
    assignEach env fuel (xs.map Expression.Identifier) vs TokenKind.ASSIGN m =
      (.ok (), m.setTables (m.st.stack.assignAll m.st.tables (xs.zip vs))) := by
  induction xs generalizing vs m with
  | nil =>
    simp [assignEach, SymbolTableStack.assignAll, Machine.setTables]
  | cons x rest ih =>
    cases vs with
    | nil => simp at hlen
    | cons v vrest =>
      simp only [List.length_cons, Nat.add_right_cancel_iff] at hlen
      simp only [List.map_cons, assignEach, AssignmentAcceptorExpr, List.zip_cons_cons,
        SymbolTableStack.assignAll]
      rw [AssignIdentifier_assign env x v m hwf]
      simp only
      rw [ih vrest _ (setTables_wellFormed m _ hwf
        (m.st.stack.assignIn_spec m.st.tables x v hwf.1 hwf.2).1) hlen]
      rfl

theorem boundTo_iff_valueIn (s : Store ω) (x : String) (v : ObjectPtr) (hwf : s.WellFormed) :
    s.boundTo x v ↔ valueIn s.stack.searchOrder s.tables x = some v :=
  ⟨valueIn_of_boundTo s x v hwf, boundTo_of_valueIn s x v hwf⟩

theorem LookupObj_of_boundTo (s : Store ω) (x : String) (v : ObjectPtr) (hwf : s.WellFormed)
    (h : s.boundTo x v) (hsb : s.stack.stackBinder s.tables x ≠ none) :
    s.stack.LookupObj s.tables x = (.ok (v, true), s.tables) := by
  have hval := valueIn_of_boundTo s x v hwf h
  cases hp : s.stack.stackBinder s.tables x with
  | none => exact absurd hp hsb
  | some p =>
    have hfb := SymbolTableStack.firstBinder_of_stackBinder s.stack s.tables x p hp
    unfold valueIn at hval
    unfold SymbolTableStack.firstBinder at hfb
    rw [hfb] at hval
    simp only [Option.bind, Heap.valueAt] at hval
    cases ha : s.tables.cell ⟨p, x⟩ with
    | none => rw [ha] at hval; cases hval
    | some a =>
      rw [ha] at hval
      simp only [Option.map_some', Option.some.injEq] at hval
      rw [← hval]
      exact LookupObj_of_stackBinder s.stack s.tables x p a hwf.1 hp ha

end Engine

section Engine

variable {ω : Type}

/-- C8: a plain `=` assignment with `n ≥ 2` distinct identifier targets
`x1..xn` and `n` right-hand values `v1..vn`, given as already evaluated,
succeeds, and afterwards each `xi` is bound to `vi`: `Lookup(xi, false)` gives a
cell that holds `vi`, and `LookupObj(xi)` gives `(vi, true)` when that cell is
in a table of the stack.  The binding of every other name, the objects, the
stack and the call record are as before.  When each `xi` was bound to `vi`
before (the identity tuple `a, b = a, b`), every name is bound after the
assignment to what it was bound to before it, and the machine after the
assignment is the machine before it when the stack has no `Func` table or each
`xi` is bound in a table of the stack. -/
theorem assign_pairwise_identifiers (env : Collaborators ω) (fuel : Nat) (xs : List String)
    (vs : List ObjectPtr) (m : Machine ω) (hwf : m.st.WellFormed) (hn : 2 ≤ xs.length)
    (hlen : vs.length = xs.length) (hnd : xs.Nodup) :
    ∃ m', Assign env fuel (xs.map Expression.Identifier) vs TokenKind.ASSIGN m = (.ok (), m') ∧
      (∀ x v, (x, v) ∈ xs.zip vs → m'.st.boundTo x v ∧
        (m'.st.stack.stackBinder m'.st.tables x ≠ none →
          m'.st.stack.LookupObj m'.st.tables x = (.ok (v, true), m'.st.tables))) ∧
      (∀ y, y ∉ xs → ∀ u, m'.st.boundTo y u ↔ m.st.boundTo y u) ∧
      m'.st.objects = m.st.objects ∧ m'.st.stack = m.st.stack ∧ m'.log = m.log ∧
      ((∀ x v, (x, v) ∈ xs.zip vs → m.st.boundTo x v) →
        (∀ y u, m'.st.boundTo y u ↔ m.st.boundTo y u) ∧
        ((m.st.stack.HasFuncTable m.st.tables = .ok false ∨
            ∀ x ∈ xs, m.st.stack.stackBinder m.st.tables x ≠ none) → m' = m)) := by
  have hA : Assign env fuel (xs.map Expression.Identifier) vs TokenKind.ASSIGN m =
      (.ok (), m.setTables (m.st.stack.assignAll m.st.tables (xs.zip vs))) := by
    unfold Assign
    have h1 : ¬ xs.length = 1 := by omega
    have h2 : ¬ vs.length = 1 := by omega
    simp only [List.length_map, h1, h2, hlen, ne_eq, not_true_eq_false, and_false,
      false_and, if_false, not_false_eq_true]
    exact assignEach_identifiers env fuel xs vs m hwf hlen.symm
  have hfst : (xs.zip vs).map Prod.fst = xs := List.map_fst_zip _ _ (Nat.le_of_eq hlen.symm)
  have hwf' : (m.setTables (m.st.stack.assignAll m.st.tables (xs.zip vs))).st.WellFormed :=
    setTables_wellFormed m _ hwf
      (SymbolTableStack.assignAll_length m.st.stack m.st.tables _ hwf.1 hwf.2)
  have hmem : ∀ x v, (x, v) ∈ xs.zip vs →
      valueIn m.st.stack.searchOrder (m.st.stack.assignAll m.st.tables (xs.zip vs)) x =
        some v := by
    intro x v hxv
    exact SymbolTableStack.valueIn_assignAll_mem m.st.stack m.st.tables _ hwf.1 hwf.2
      (by rw [hfst]; exact hnd) x v hxv
  have hother : ∀ y, y ∉ xs →
      valueIn m.st.stack.searchOrder (m.st.stack.assignAll m.st.tables (xs.zip vs)) y =
        valueIn m.st.stack.searchOrder m.st.tables y := by
    intro y hy
    exact SymbolTableStack.valueIn_assignAll_other m.st.stack m.st.tables _ _ y hwf.1 hwf.2
      (by rw [hfst]; exact hy)
  have hiff : ∀ y u,
      valueIn m.st.stack.searchOrder (m.st.stack.assignAll m.st.tables (xs.zip vs)) y =
        valueIn m.st.stack.searchOrder m.st.tables y →
      ((m.setTables (m.st.stack.assignAll m.st.tables (xs.zip vs))).st.boundTo y u ↔
        m.st.boundTo y u) := by
    intro y u h
    rw [boundTo_iff_valueIn _ y u hwf', boundTo_iff_valueIn _ y u hwf]
    show valueIn m.st.stack.searchOrder (m.st.stack.assignAll m.st.tables (xs.zip vs)) y =
      some u ↔ _
    rw [h]
  refine ⟨_, hA, ?_, ?_, rfl, rfl, rfl, ?_⟩
  · intro x v hxv
    have hb : (m.setTables (m.st.stack.assignAll m.st.tables (xs.zip vs))).st.boundTo x v :=
      boundTo_of_valueIn _ x v hwf' (hmem x v hxv)
    exact ⟨hb, LookupObj_of_boundTo _ x v hwf' hb⟩
  · intro y hy u
    exact hiff y u (hother y hy)
  · intro hall
    have hbefore : ∀ x v, (x, v) ∈ xs.zip vs →
        valueIn m.st.stack.searchOrder m.st.tables x = some v :=
      fun x v hxv => valueIn_of_boundTo m.st x v hwf (hall x v hxv)
    constructor
    · intro y u
      apply hiff
      by_cases hy : y ∈ xs
      · rw [← hfst] at hy
        obtain ⟨⟨y', v⟩, hyv, hfy⟩ := List.mem_map.1 hy
        simp only at hfy
        subst hfy
        rw [hmem _ v hyv, hbefore _ v hyv]
      · exact hother y hy
    · intro hnf
      rw [SymbolTableStack.assignAll_of_valueIn m.st.stack m.st.tables _ hwf.1 hwf.2
        (by rw [hfst]; exact hnf) hbefore]
      rfl

end Engine

/-- Witness of C8: `a, b = 1, 2` at top level binds `a` and `b`; `a, b = a, b`
where they are bound changes nothing; and inside a function whose table is
empty, under a scope that binds `x` and `y`, `x, y = 1, 2` rebinds them in that
scope, where `Lookup` and `LookupObj` read them, and `x, y = x, y` changes
nothing. -/
theorem assign_pairwise_identifiers_witness :
    (exMachine.st.WellFormed ∧ exBound.st.WellFormed ∧ exFuncScope.st.WellFormed) ∧
    (∃ m', Assign exEnv 0 [Expression.Identifier "a", Expression.Identifier "b"]
        [some 0, some 1] TokenKind.ASSIGN exMachine = (.ok (), m') ∧
      m'.st.boundTo "a" (some 0) ∧ m'.st.boundTo "b" (some 1)) ∧
    Assign exEnv 0 [Expression.Identifier "a", Expression.Identifier "b"]
        [some 0, some 1] TokenKind.ASSIGN exBound = (.ok (), exBound) ∧
    (∃ m', Assign exEnv 0 [Expression.Identifier "x", Expression.Identifier "y"]
        [some 0, some 1] TokenKind.ASSIGN exFuncScope = (.ok (), m') ∧
      m'.st.boundTo "x" (some 0) ∧ m'.st.boundTo "y" (some 1) ∧
      (m'.st.stack.stackBinder m'.st.tables "x" ≠ none →
        m'.st.stack.LookupObj m'.st.tables "x" = (.ok (some 0, true), m'.st.tables))) ∧
    Assign exEnv 0 [Expression.Identifier "x", Expression.Identifier "y"]
        [some 3, some 4] TokenKind.ASSIGN exFuncScope = (.ok (), exFuncScope) := by
  have hwf1 : exMachine.st.WellFormed := ⟨by decide, ⟨0, rfl, by decide⟩⟩
  have hwf2 : exBound.st.WellFormed := ⟨by decide, ⟨0, rfl, by decide⟩⟩
  have hwf3 : exFuncScope.st.WellFormed := ⟨by decide, ⟨0, rfl, by decide⟩⟩
  refine ⟨⟨hwf1, hwf2, hwf3⟩, ?_, ?_, ?_, ?_⟩
  · obtain ⟨m', h1, h2, -⟩ := assign_pairwise_identifiers exEnv 0 ["a", "b"] [some 0, some 1]
      exMachine hwf1 (by decide) rfl (by decide)
    exact ⟨m', h1, (h2 "a" (some 0) (by decide)).1, (h2 "b" (some 1) (by decide)).1⟩
  · obtain ⟨m', h1, -, -, -, -, -, h3⟩ := assign_pairwise_identifiers exEnv 0 ["a", "b"]
      [some 0, some 1] exBound hwf2 (by decide) rfl (by decide)
    have hb : ∀ x v, (x, v) ∈ ["a", "b"].zip [some 0, some 1] → exBound.st.boundTo x v := by
      intro x v hmem
      simp only [List.zip_cons_cons, List.zip_nil_right, List.mem_cons, Prod.mk.injEq,
        List.mem_nil_iff, or_false] at hmem
      rcases hmem with ⟨hx, hv⟩ | ⟨hx, hv⟩
      · subst hx; subst hv; exact ⟨⟨1, "a"⟩, rfl, rfl⟩
      · subst hx; subst hv; exact ⟨⟨1, "b"⟩, rfl, rfl⟩
    rw [(h3 hb).2 (Or.inl rfl)] at h1
    exact h1
  · obtain ⟨m', h1, h2, -⟩ := assign_pairwise_identifiers exEnv 0 ["x", "y"] [some 0, some 1]
      exFuncScope hwf3 (by decide) rfl (by decide)
    exact ⟨m', h1, (h2 "x" (some 0) (by decide)).1, (h2 "y" (some 1) (by decide)).1,
      (h2 "x" (some 0) (by decide)).2⟩
  · obtain ⟨m', h1, -, -, -, -, -, h3⟩ := assign_pairwise_identifiers exEnv 0 ["x", "y"]
      [some 3, some 4] exFuncScope hwf3 (by decide) rfl (by decide)
    have hb : ∀ x v, (x, v) ∈ ["x", "y"].zip [some 3, some 4] → exFuncScope.st.boundTo x v := by
      intro x v hmem
      simp only [List.zip_cons_cons, List.zip_nil_right, List.mem_cons, Prod.mk.injEq,
        List.mem_nil_iff, or_false] at hmem
      rcases hmem with ⟨hx, hv⟩ | ⟨hx, hv⟩
      · subst hx; subst hv; exact ⟨⟨2, "x"⟩, rfl, rfl⟩
      · subst hx; subst hv; exact ⟨⟨2, "y"⟩, rfl, rfl⟩
    rw [(h3 hb).2 (Or.inr (by decide))] at h1
    exact h1

/-- The assignment `x, y = 1, 2` inside a function whose table is empty, under
a scope that binds `x` and `y`: the two cells of the scope are rewritten, the
table of the function stays empty, and `Lookup` and `LookupObj` read the new
values. -/
theorem assign_in_scope_above_func :
    Assign exEnv 0 [Expression.Identifier "x", Expression.Identifier "y"]
        [some 0, some 1] TokenKind.ASSIGN exFuncScope =
      (.ok (), ⟨⟨[SymbolTable.new TableType.SCOPE_TABLE, SymbolTable.new TableType.FUNC_TABLE,
        ⟨[("x", ⟨some 0, false⟩), ("y", ⟨some 1, false⟩)], [], TableType.SCOPE_TABLE⟩],
        exObjects, ⟨[1, 2], some 0⟩, ()⟩, []⟩) ∧
    SymbolTableStack.Lookup ⟨[1, 2], some 0⟩
        [SymbolTable.new TableType.SCOPE_TABLE, SymbolTable.new TableType.FUNC_TABLE,
          ⟨[("x", ⟨some 0, false⟩), ("y", ⟨some 1, false⟩)], [], TableType.SCOPE_TABLE⟩]
        "x" false =
      (.ok ⟨2, "x"⟩, [SymbolTable.new TableType.SCOPE_TABLE,
        SymbolTable.new TableType.FUNC_TABLE,
        ⟨[("x", ⟨some 0, false⟩), ("y", ⟨some 1, false⟩)], [], TableType.SCOPE_TABLE⟩]) ∧
    (SymbolTableStack.LookupObj ⟨[1, 2], some 0⟩
        [SymbolTable.new TableType.SCOPE_TABLE, SymbolTable.new TableType.FUNC_TABLE,
          ⟨[("x", ⟨some 0, false⟩), ("y", ⟨some 1, false⟩)], [], TableType.SCOPE_TABLE⟩]
        "x").1 = .ok (some 0, true) := by
  refine ⟨rfl, rfl, rfl⟩

section Engine

variable {ω : Type}

/-- C9: a plain `=` assignment with one identifier target and `n > 1`
right-hand values `v1..vn` succeeds and binds the target to one new tuple
object whose elements are `v1..vn` in order: `Lookup` of the target gives a
cell that holds the new object, and `LookupObj` gives it when that cell is in a
table of the stack.  No other object is added or changed, the binding of every
other name is as before, and no collaborator is called. -/
theorem assign_packs_tuple (env : Collaborators ω) (fuel : Nat) (x : String)
    (vs : List ObjectPtr) (m : Machine ω) (hwf : m.st.WellFormed) (hn : 1 < vs.length) :
    ∃ m' a, Assign env fuel [Expression.Identifier x] vs TokenKind.ASSIGN m = (.ok (), m') ∧
      m'.st.boundTo x (some a) ∧
      (m'.st.stack.stackBinder m'.st.tables x ≠ none →
        m'.st.stack.LookupObj m'.st.tables x = (.ok (some a, true), m'.st.tables)) ∧
      (∀ y, y ≠ x → ∀ u, m'.st.boundTo y u ↔ m.st.boundTo y u) ∧
      m'.st.objects[a]? = some (Object.tuple vs) ∧
      m'.st.objects = m.st.objects ++ [Object.tuple vs] ∧
      m'.st.stack = m.st.stack ∧ m'.log = m.log := by
  have hwf1 : (⟨(m.st.NewTuple vs).2, m.log⟩ : Machine ω).st.WellFormed := hwf
  have hA : Assign env fuel [Expression.Identifier x] vs TokenKind.ASSIGN m =
      (.ok (), (⟨(m.st.NewTuple vs).2, m.log⟩ : Machine ω).setTables
        (m.st.stack.assignIn m.st.tables x (some m.st.objects.length))) := by
    unfold Assign
    have h2 : ¬ vs.length = 1 := by omega
    simp only [List.length_singleton, h2, ne_eq, not_true_eq_false, false_and, and_false,
      if_false, not_false_eq_true, and_self, if_true, List.getElem?_cons_zero,
      AssignOperation, AssignmentAcceptorExpr]
    rw [AssignIdentifier_assign env x _ _ hwf1]
    rfl
  obtain ⟨hlen, -, hsame, hother, -⟩ :=
    m.st.stack.assignIn_spec m.st.tables x (some m.st.objects.length) hwf.1 hwf.2
  have hwf' : ((⟨(m.st.NewTuple vs).2, m.log⟩ : Machine ω).setTables
      (m.st.stack.assignIn m.st.tables x (some m.st.objects.length))).st.WellFormed :=
    setTables_wellFormed _ _ hwf1 hlen
  have hb : ((⟨(m.st.NewTuple vs).2, m.log⟩ : Machine ω).setTables
      (m.st.stack.assignIn m.st.tables x (some m.st.objects.length))).st.boundTo x
      (some m.st.objects.length) :=
    boundTo_of_valueIn _ x _ hwf' hsame
  refine ⟨_, m.st.objects.length, hA, hb, LookupObj_of_boundTo _ x _ hwf' hb, ?_, ?_, rfl, rfl,
    rfl⟩
  · intro y hy u
    rw [boundTo_iff_valueIn _ y u hwf', boundTo_iff_valueIn _ y u hwf]
    show valueIn m.st.stack.searchOrder
      (m.st.stack.assignIn m.st.tables x (some m.st.objects.length)) y = some u ↔ _
    rw [hother _ y hy]
  · show (m.st.objects ++ [Object.tuple vs])[m.st.objects.length]? = some (Object.tuple vs)
    simp

end Engine

/-- Witness of C9: `a = 1, 2, 3` at top level binds `a` to a new tuple `(1, 2, 3)`. -/
theorem assign_packs_tuple_witness :
    exMachine.st.WellFormed ∧
    ∃ m' a, Assign exEnv 0 [Expression.Identifier "a"] [some 0, some 1, some 2]
        TokenKind.ASSIGN exMachine = (.ok (), m') ∧
      m'.st.boundTo "a" (some a) ∧
      (m'.st.stack.stackBinder m'.st.tables "a" ≠ none →
        m'.st.stack.LookupObj m'.st.tables "a" = (.ok (some a, true), m'.st.tables)) ∧
      (∀ y, y ≠ "a" → ∀ u, m'.st.boundTo y u ↔ exMachine.st.boundTo y u) ∧
      m'.st.objects[a]? = some (Object.tuple [some 0, some 1, some 2]) ∧
      m'.st.objects = exMachine.st.objects ++ [Object.tuple [some 0, some 1, some 2]] ∧
      m'.st.stack = exMachine.st.stack ∧ m'.log = exMachine.log :=
  ⟨⟨by decide, ⟨0, rfl, by decide⟩⟩,
    assign_packs_tuple exEnv 0 "a" [some 0, some 1, some 2] exMachine
      ⟨by decide, ⟨0, rfl, by decide⟩⟩ (by decide)⟩

/-- The assignment `x = 1, 2, 3` inside a function whose table is empty, under
a scope that binds `x`: the cell of the scope gets the new tuple, at address 5,
and `Lookup` and `LookupObj` read it. -/
theorem assign_tuple_in_scope_above_func :
    Assign exEnv 0 [Expression.Identifier "x"] [some 0, some 1, some 2] TokenKind.ASSIGN
        exFuncScope =
      (.ok (), ⟨⟨[SymbolTable.new TableType.SCOPE_TABLE, SymbolTable.new TableType.FUNC_TABLE,
        ⟨[("x", ⟨some 5, false⟩), ("y", ⟨some 4, false⟩)], [], TableType.SCOPE_TABLE⟩],
        exObjects ++ [Object.tuple [some 0, some 1, some 2]], ⟨[1, 2], some 0⟩, ()⟩, []⟩) ∧
    (SymbolTableStack.LookupObj ⟨[1, 2], some 0⟩
        [SymbolTable.new TableType.SCOPE_TABLE, SymbolTable.new TableType.FUNC_TABLE,
          ⟨[("x", ⟨some 5, false⟩), ("y", ⟨some 4, false⟩)], [], TableType.SCOPE_TABLE⟩]
        "x").1 = .ok (some 5, true) := by
  refine ⟨rfl, rfl⟩

/-- The acceptor takes a tuple pattern and an array pattern: `(a, b)` gets the
two elements of the tuple at address 4, and `[a, b, c]` the three elements of
the array at address 3. -/
theorem acceptor_takes_patterns :
    AssignmentAcceptorExpr exEnv 0
        (Expression.TupleInstantiation [Expression.Identifier "a", Expression.Identifier "b"])
        (some 4) TokenKind.ASSIGN exMachine =
      (.ok (), ⟨⟨[⟨[("b", ⟨some 1, false⟩), ("a", ⟨some 0, false⟩)], [],
        TableType.SCOPE_TABLE⟩], exObjects, ⟨[], some 0⟩, ()⟩, []⟩) ∧
    AssignmentAcceptorExpr exEnv 0
        (Expression.ArrayInstantiation [Expression.Identifier "a", Expression.Identifier "b",
          Expression.Identifier "c"])
        (some 3) TokenKind.ASSIGN exMachine =
      (.ok (), ⟨⟨[⟨[("c", ⟨some 2, false⟩), ("b", ⟨some 1, false⟩), ("a", ⟨some 0, false⟩)], [],
        TableType.SCOPE_TABLE⟩], exObjects, ⟨[], some 0⟩, ()⟩, []⟩) := by
  refine ⟨rfl, rfl⟩

end seti
